import Mathlib

/-!
# kycchain: records and requests chaincodes

A shallow embedding of `records/main.go` and `requests/main.go`.

* Go strings and byte slices are lists of characters (`Str`); the store orders
  keys byte-lexicographically, which on valid UTF-8 is the order of the code
  points.
* The chaincode stub is an ordered key-value map (`Store`, an association list
  kept in ascending key order by `PutState`): `GetState`, `PutState`,
  `DelState` and `RangeQueryState` are total operations on it, so the
  `err != nil` branches that follow a stub call are never taken.
  `RangeQueryState lo hi` lists the entries with `lo ≤ key < hi` in ascending
  key order. An absent key reads as `none` (Go `nil`).
* `encoding/json` is a parameter (`Json`); only the fact that decoding an
  encoded value gives the value back is used.
* A Go `error` is an `Option String` (`none` is `nil`); a `([]byte, error)`
  result is an `Except String Str`.
* Where a statement is about the calls a function issues on the stub, or about
  their order, the function is given over a stub that also keeps the list of
  its calls (`TracedStub`); the result and the ledger are those of the function
  over the ledger alone.
-/

namespace KycChain

/-- Go `string` and `[]byte`. -/
abbrev Str := List Char

/-- Strict byte-lexicographic order on keys. -/
def ltB : Str → Str → Bool
  | [], [] => false
  | [], _ :: _ => true
  | _ :: _, [] => false
  | a :: as, b :: bs =>
    if a.toNat < b.toNat then true
    else if a.toNat = b.toNat then ltB as bs
    else false

/-- Non-strict byte-lexicographic order on keys. -/
def leB (a b : Str) : Bool := !ltB b a

/-! ## The ledger state behind the stub -/

/-- Ledger state of one chaincode: key and value pairs. -/
abbrev Store := List (Str × Str)

/-- Key order of a store: strictly ascending keys. -/
def KeySorted (es : Store) : Prop :=
  es.Pairwise (fun a b => ltB a.1 b.1 = true)

/-- Value read by `stub.GetState(key)`: the first binding of the key. -/
def GetState (k : Str) : Store → Option Str
  | [] => none
  | e :: es => if e.1 = k then some e.2 else GetState k es

/-- Effect of `stub.PutState(key, value)`: insert or overwrite, keeping key order. -/
def PutState (k v : Str) : Store → Store
  | [] => [(k, v)]
  | e :: es =>
    if ltB k e.1 then (k, v) :: e :: es
    else if ltB e.1 k then e :: PutState k v es
    else (k, v) :: es

/-- Effect of `stub.DelState(key)`; deleting an absent key changes nothing. -/
def DelState (k : Str) (stub : Store) : Store :=
  stub.filter (fun e => decide (e.1 ≠ k))

/-- Entries visited by the iterator of `stub.RangeQueryState(lo, hi)`. -/
def RangeQueryState (lo hi : Str) (stub : Store) : Store :=
  stub.filter (fun e => leB lo e.1 && ltB e.1 hi)

/-! ## Data model -/

/-- The `Record` struct (the same in both chaincodes). -/
structure Record where
  recId : Str
  custId : Str
  custName : Str
  recOwner : Str
  encFor : Str
  encData : Str
  dateCreated : Str
  dateModified : Str
  deriving DecidableEq

/-- The `RecordList` struct. -/
structure RecordList where
  numEntries : Nat
  records : List Record
  deriving DecidableEq

/-- The `Request` struct. -/
structure Request where
  reqId : Str
  recId : Str
  reqBy : Str
  recOwner : Str
  status : Str
  dateCreated : Str
  dateModified : Str
  deriving DecidableEq

/-- The `RequestList` struct. -/
structure RequestList where
  numEntries : Nat
  requests : List Request
  deriving DecidableEq

/-- Zero value of `Record` (`var rec Record`). -/
def Record.zero : Record := ⟨[], [], [], [], [], [], [], []⟩

/-- Zero value of `Request` (`var req Request`). -/
def Request.zero : Request := ⟨[], [], [], [], [], [], []⟩

/-- Zero value of `RecordList` (`var results RecordList`). -/
def RecordList.zero : RecordList := ⟨0, []⟩

/-- Zero value of `RequestList` (`var results RequestList`). -/
def RequestList.zero : RequestList := ⟨0, []⟩

/-- The part of `encoding/json` the chaincodes use. `unmarshalRecord b r0` is
`json.Unmarshal(b, &rec)` with `rec` holding `r0` before the call: it returns
what `rec` holds afterwards and the error. Decoding an encoded value succeeds
and gives the value back, whatever the target held. -/
structure Json where
  marshalRecord : Record → Str
  unmarshalRecord : Str → Record → Record × Option String
  marshalRecordList : RecordList → Str
  marshalRequest : Request → Str
  unmarshalRequest : Str → Request → Request × Option String
  marshalRequestList : RequestList → Str
  unmarshal_marshalRecord : ∀ r r0, unmarshalRecord (marshalRecord r) r0 = (r, none)
  unmarshal_marshalRequest : ∀ q q0, unmarshalRequest (marshalRequest q) q0 = (q, none)

/-! ## records/main.go -/

namespace Records

/-- `indexRecord`: the three index writes. -/
def indexRecord (stub : Store) (rec : Record) : Store × Option String :=
  let idKey := "id".toList ++ rec.custId ++ rec.recId
  let nameKey := "name".toList ++ rec.custName ++ rec.recId
  let dateKey := "date".toList ++ rec.dateModified ++ rec.recId
  let recIdBytes := rec.recId
  let stub := PutState idKey recIdBytes stub
  let stub := PutState nameKey recIdBytes stub
  let stub := PutState dateKey recIdBytes stub
  (stub, none)

/-- `addRecord`. -/
def addRecord (J : Json) (stub : Store)
    (custId custName recOwner encFor encData dateCreated : Str) : Store × Option String :=
  let recId := custId ++ recOwner ++ encFor
  match GetState recId stub with
  | some _ => (stub, some "Record already exists")
  | none =>
    let newRec : Record :=
      { recId := recId, custId := custId, custName := custName, recOwner := recOwner,
        encFor := encFor, encData := encData, dateCreated := dateCreated,
        dateModified := dateCreated }
    let newRecBytes := J.marshalRecord newRec
    let stub := PutState recId newRecBytes stub
    indexRecord stub newRec

/-- `updateIndex`: drop the old date key, write the new one. -/
def updateIndex (stub : Store) (rec : Record) (newDateModified : Str) : Store × Option String :=
  let stub := DelState ("date".toList ++ rec.dateModified ++ rec.recId) stub
  let stub := PutState ("date".toList ++ newDateModified ++ rec.recId) rec.recId stub
  (stub, none)

/-- `getRecord`. -/
def getRecord (stub : Store) (recId : Str) : Except String Str :=
  match GetState recId stub with
  | none => .error "No record with given recId"
  | some rec => .ok rec

/-- `updateRecord`. -/
def updateRecord (J : Json) (stub : Store) (recId encData dateModified : Str) :
    Store × Option String :=
  match getRecord stub recId with
  | .error err => (stub, some err)
  | .ok recBytes =>
    match J.unmarshalRecord recBytes Record.zero with
    | (_, some err) => (stub, some err)
    | (rec, none) =>
      match updateIndex stub rec dateModified with
      | (stub, some err) => (stub, some err)
      | (stub, none) =>
        let updated := { rec with encData := encData, dateModified := dateModified }
        let recBytes := J.marshalRecord updated
        (PutState recId recBytes stub, none)

/-- Loop of `searchIndex` over the iterator's entries: `results` and `currRec`
are the function's two variables. -/
def searchLoop (J : Json) (stub : Store) :
    List (Str × Str) → RecordList → Record → Except String RecordList
  | [], results, _ => .ok results
  | (_, recId) :: rest, results, currRec =>
    match getRecord stub recId with
    | .error err => .error err
    | .ok recBytes =>
      match J.unmarshalRecord recBytes currRec with
      | (currRec, err) =>
        let results : RecordList :=
          { records := results.records ++ [currRec], numEntries := results.numEntries + 1 }
        match err with
        | some _ => .error "Failed Iterating"
        | none => searchLoop J stub rest results currRec

/-- The `switch field` of `searchIndex`: the index tag, `none` for the default case. -/
def indexToSearch (field : Str) : Option Str :=
  if field = "id".toList then some "id".toList
  else if field = "name".toList then some "name".toList
  else if field = "date".toList then some "date".toList
  else none

/-- `searchIndex`. -/
def searchIndex (J : Json) (stub : Store) (input field : Str) : Except String Str :=
  match indexToSearch field with
  | none => .error "No such index to search"
  | some indexToSearch =>
    let keysIter := RangeQueryState (indexToSearch ++ input)
      (indexToSearch ++ input ++ "ZZZZZZZZZZZZZZZZZZZZZZ".toList) stub
    match searchLoop J stub keysIter RecordList.zero Record.zero with
    | .error err => .error err
    | .ok results => .ok (J.marshalRecordList results)

/-- Loop of `getRecordsAfterDate`: the error of `json.Unmarshal` is dropped. -/
def afterDateLoop (J : Json) (stub : Store) :
    List (Str × Str) → RecordList → Record → Except String RecordList
  | [], results, _ => .ok results
  | (_, recId) :: rest, results, currRec =>
    match getRecord stub recId with
    | .error err => .error err
    | .ok recBytes =>
      match J.unmarshalRecord recBytes currRec with
      | (currRec, _) =>
        let results : RecordList :=
          { records := results.records ++ [currRec], numEntries := results.numEntries + 1 }
        afterDateLoop J stub rest results currRec

/-- `getRecordsAfterDate`. -/
def getRecordsAfterDate (J : Json) (stub : Store) (inputDate : Str) : Except String Str :=
  let keysIter := RangeQueryState ("date".toList ++ inputDate)
    ("date".toList ++ "99999999999999999999999999".toList) stub
  match afterDateLoop J stub keysIter RecordList.zero Record.zero with
  | .error err => .error err
  | .ok results => .ok (J.marshalRecordList results)

/-- `Invoke`; indexing `args` past its end panics, which is an error here. -/
def Invoke (J : Json) (stub : Store) (function : Str) (args : List Str) :
    Store × Option String :=
  if function = "addRec".toList then
    match args with
    | a0 :: a1 :: a2 :: a3 :: a4 :: a5 :: _ => addRecord J stub a0 a1 a2 a3 a4 a5
    | _ => (stub, some "index out of range")
  else if function = "updateRec".toList then
    match args with
    | a0 :: a1 :: a2 :: _ => updateRecord J stub a0 a1 a2
    | _ => (stub, some "index out of range")
  else (stub, some "Function call not recognised")

/-- `Query`; indexing `args` past its end panics, which is an error here. -/
def Query (J : Json) (stub : Store) (function : Str) (args : List Str) : Except String Str :=
  if function = "recId".toList then
    match args with
    | a0 :: _ => getRecord stub a0
    | _ => .error "index out of range"
  else if function = "newRecs".toList then
    match args with
    | a0 :: _ => getRecordsAfterDate J stub a0
    | _ => .error "index out of range"
  else if function = "searchIndex".toList then
    match args with
    | a0 :: a1 :: _ => searchIndex J stub a0 a1
    | _ => .error "index out of range"
  else .error "Function call not recognised"

end Records

/-! ## requests/main.go -/

/-- What the stub of the requests chaincode reaches: its own ledger
(`requests`), the ledger of the chaincode deployed as `mycc` (the records
chaincode, reached by `QueryChaincode` and `InvokeChaincode`), and the identity
of the transaction's submitter, which the stub carries and no function of
either chaincode reads. -/
structure World where
  records : Store
  requests : Store
  caller : Str

namespace Requests

/-- `stub.QueryChaincode(name, function, args)`. -/
def QueryChaincode (J : Json) (stub : World) (name function : Str) (args : List Str) :
    Except String Str :=
  if name = "mycc".toList then Records.Query J stub.records function args
  else .error "chaincode not found"

/-- `stub.InvokeChaincode(name, function, args)`. -/
def InvokeChaincode (J : Json) (stub : World) (name function : Str) (args : List Str) :
    World × Option String :=
  if name = "mycc".toList then
    match Records.Invoke J stub.records function args with
    | (records, err) => ({ stub with records := records }, err)
  else (stub, some "chaincode not found")

/-- `getRecOwner`. -/
def getRecOwner (J : Json) (stub : World) (recId : Str) : Str × Option String :=
  match QueryChaincode J stub "mycc".toList "recId".toList [recId] with
  | .error err => ("err".toList, some err)
  | .ok recBytes =>
    match J.unmarshalRecord recBytes Record.zero with
    | (_, some err) => ("err".toList, some err)
    | (rec, none) => (rec.recOwner, none)

/-- `indexRequest`: the three index writes; the date key ends in `req.RecId`. -/
def indexRequest (stub : World) (req : Request) : World × Option String :=
  let byKey := "by".toList ++ req.reqBy ++ req.reqId
  let forKey := "for".toList ++ req.recOwner ++ req.reqId
  let dateKey := "date".toList ++ req.dateModified ++ req.recId
  let reqIdBytes := req.reqId
  let requests := PutState byKey reqIdBytes stub.requests
  let requests := PutState forKey reqIdBytes requests
  let requests := PutState dateKey reqIdBytes requests
  ({ stub with requests := requests }, none)

/-- `addRequest`. -/
def addRequest (J : Json) (stub : World) (recId reqBy dateCreated : Str) :
    World × Option String :=
  let reqId := recId ++ reqBy ++ dateCreated
  match getRecOwner J stub recId with
  | (_, some err) => (stub, some err)
  | (recOwner, none) =>
    let newReq : Request :=
      { reqId := reqId, recId := recId, reqBy := reqBy, recOwner := recOwner,
        status := "Pending".toList, dateCreated := dateCreated, dateModified := dateCreated }
    let newReqBytes := J.marshalRequest newReq
    let stub := { stub with requests := PutState reqId newReqBytes stub.requests }
    indexRequest stub newReq

/-- `getRequest`. -/
def getRequest (stub : World) (reqId : Str) : Except String Str :=
  match GetState reqId stub.requests with
  | none => .error "No request with given req"
  | some req => .ok req

/-- Loop of `searchIndex` over the iterator's entries. -/
def searchLoop (J : Json) (stub : World) :
    List (Str × Str) → RequestList → Request → Except String RequestList
  | [], results, _ => .ok results
  | (_, reqId) :: rest, results, currReq =>
    match getRequest stub reqId with
    | .error err => .error err
    | .ok reqBytes =>
      match J.unmarshalRequest reqBytes currReq with
      | (currReq, err) =>
        let results : RequestList :=
          { requests := results.requests ++ [currReq], numEntries := results.numEntries + 1 }
        match err with
        | some _ => .error "Failed Iterating"
        | none => searchLoop J stub rest results currReq

/-- The `switch field` of `searchIndex`: the index tag, `none` for the default case. -/
def indexToSearch (field : Str) : Option Str :=
  if field = "by".toList then some "by".toList
  else if field = "for".toList then some "for".toList
  else if field = "date".toList then some "date".toList
  else none

/-- `searchIndex`. -/
def searchIndex (J : Json) (stub : World) (input field : Str) : Except String Str :=
  match indexToSearch field with
  | none => .error "No such index to search"
  | some indexToSearch =>
    let keysIter := RangeQueryState (indexToSearch ++ input)
      (indexToSearch ++ input ++ "ZZZZZZZZZZZZZZZZZZZZZZ".toList) stub.requests
    match searchLoop J stub keysIter RequestList.zero Request.zero with
    | .error err => .error err
    | .ok results => .ok (J.marshalRequestList results)

/-- Loop of `getRequestsAfterDate`: the error of `json.Unmarshal` is dropped. -/
def afterDateLoop (J : Json) (stub : World) :
    List (Str × Str) → RequestList → Request → Except String RequestList
  | [], results, _ => .ok results
  | (_, reqId) :: rest, results, currReq =>
    match getRequest stub reqId with
    | .error err => .error err
    | .ok reqBytes =>
      match J.unmarshalRequest reqBytes currReq with
      | (currReq, _) =>
        let results : RequestList :=
          { requests := results.requests ++ [currReq], numEntries := results.numEntries + 1 }
        afterDateLoop J stub rest results currReq

/-- `getRequestsAfterDate`. -/
def getRequestsAfterDate (J : Json) (stub : World) (inputDate : Str) : Except String Str :=
  let keysIter := RangeQueryState ("date".toList ++ inputDate)
    ("date".toList ++ "99999999999999999999999999".toList) stub.requests
  match afterDateLoop J stub keysIter RequestList.zero Request.zero with
  | .error err => .error err
  | .ok results => .ok (J.marshalRequestList results)

/-- `giveAccess`. Between decoding the Record and invoking `addRec` the source
has only the comment `//SOME VERIFICATION HERE, TO CONFIRM PERSON GIVING ACCESS
IS INDEED RECORD OWNER`. -/
def giveAccess (J : Json) (stub : World) (reqId encData dateModified : Str) :
    World × Option String :=
  match getRequest stub reqId with
  | .error err => (stub, some err)
  | .ok reqBytes =>
    match J.unmarshalRequest reqBytes Request.zero with
    | (_, some err) => (stub, some err)
    | (req, none) =>
      match QueryChaincode J stub "mycc".toList "recId".toList [req.recId] with
      | .error err => (stub, some err)
      | .ok recBytes =>
        match J.unmarshalRecord recBytes Record.zero with
        | (_, some err) => (stub, some err)
        | (rec, none) =>
          match InvokeChaincode J stub "mycc".toList "addRec".toList
              [rec.custId, rec.custName, req.recOwner, req.reqBy, encData, dateModified] with
          | (stub, some err) => (stub, some err)
          | (stub, none) =>
            let granted := { req with
              status := "Access Given on ".toList ++ dateModified,
              dateModified := dateModified }
            let reqBytes := J.marshalRequest granted
            ({ stub with requests := PutState granted.reqId reqBytes stub.requests }, none)

/-- `Invoke`; indexing `args` past its end panics, which is an error here. -/
def Invoke (J : Json) (stub : World) (function : Str) (args : List Str) :
    World × Option String :=
  if function = "addReq".toList then
    match args with
    | a0 :: a1 :: a2 :: _ => addRequest J stub a0 a1 a2
    | _ => (stub, some "index out of range")
  else if function = "giveAccess".toList then
    match args with
    | a0 :: a1 :: a2 :: _ => giveAccess J stub a0 a1 a2
    | _ => (stub, some "index out of range")
  else (stub, some "Function call not recognised")

/-- `Query`; indexing `args` past its end panics, which is an error here. -/
def Query (J : Json) (stub : World) (function : Str) (args : List Str) : Except String Str :=
  if function = "reqId".toList then
    match args with
    | a0 :: _ => getRequest stub a0
    | _ => .error "index out of range"
  else if function = "newReqs".toList then
    match args with
    | a0 :: _ => getRequestsAfterDate J stub a0
    | _ => .error "index out of range"
  else if function = "searchIndex".toList then
    match args with
    | a0 :: a1 :: _ => searchIndex J stub a0 a1
    | _ => .error "index out of range"
  else .error "Function call not recognised"

end Requests

/-! ## The chaincodes over a stub that records its calls

The functions above pass the ledger alone. Below, the functions of
`records/main.go` and `requests/main.go` that the statements about the order
and the absence of ledger calls need are given once more over a stub that
also keeps the list of the calls issued on it, in the order of issue. -/

/-- A call on the ledger API of `shim.ChaincodeStub`. -/
inductive StubCall where
  | GetState (key : Str)
  | PutState (key value : Str)
  | DelState (key : Str)
  | RangeQueryState (startKey endKey : Str)
  deriving DecidableEq

/-- The stub: the ledger, and the calls issued on it so far, oldest first. -/
structure TracedStub where
  ledger : Store
  calls : List StubCall
  deriving DecidableEq

namespace TracedStub

/-- `stub.GetState(key)`: the value read, and the stub with the call recorded. -/
def GetState (stub : TracedStub) (key : Str) : Option Str × TracedStub :=
  (KycChain.GetState key stub.ledger,
    { ledger := stub.ledger, calls := stub.calls ++ [StubCall.GetState key] })

/-- `stub.PutState(key, value)`. -/
def PutState (stub : TracedStub) (key value : Str) : TracedStub :=
  { ledger := KycChain.PutState key value stub.ledger,
    calls := stub.calls ++ [StubCall.PutState key value] }

/-- `stub.DelState(key)`. -/
def DelState (stub : TracedStub) (key : Str) : TracedStub :=
  { ledger := KycChain.DelState key stub.ledger,
    calls := stub.calls ++ [StubCall.DelState key] }

/-- `stub.RangeQueryState(startKey, endKey)`: the entries the iterator visits,
and the stub with the call recorded. -/
def RangeQueryState (stub : TracedStub) (startKey endKey : Str) :
    List (Str × Str) × TracedStub :=
  (KycChain.RangeQueryState startKey endKey stub.ledger,
    { ledger := stub.ledger,
      calls := stub.calls ++ [StubCall.RangeQueryState startKey endKey] })

end TracedStub

namespace Records

namespace Traced

/-- `getRecord`, with its call. -/
def getRecord (stub : TracedStub) (recId : Str) : Except String Str × TracedStub :=
  match stub.GetState recId with
  | (none, stub) => (.error "No record with given recId", stub)
  | (some rec, stub) => (.ok rec, stub)

/-- `updateIndex`, with its calls: the delete of the old date key, then the
write of the new one. -/
def updateIndex (stub : TracedStub) (rec : Record) (newDateModified : Str) :
    TracedStub × Option String :=
  let stub := stub.DelState ("date".toList ++ rec.dateModified ++ rec.recId)
  let stub := stub.PutState ("date".toList ++ newDateModified ++ rec.recId) rec.recId
  (stub, none)

/-- `updateRecord`, with its calls. -/
def updateRecord (J : Json) (stub : TracedStub) (recId encData dateModified : Str) :
    TracedStub × Option String :=
  match getRecord stub recId with
  | (.error err, stub) => (stub, some err)
  | (.ok recBytes, stub) =>
    match J.unmarshalRecord recBytes Record.zero with
    | (_, some err) => (stub, some err)
    | (rec, none) =>
      match updateIndex stub rec dateModified with
      | (stub, some err) => (stub, some err)
      | (stub, none) =>
        let updated := { rec with encData := encData, dateModified := dateModified }
        let recBytes := J.marshalRecord updated
        (stub.PutState recId recBytes, none)

/-- Loop of `searchIndex` over the iterator's entries, with the call of
`getRecord` in each round. -/
def searchLoop (J : Json) :
    List (Str × Str) → TracedStub → RecordList → Record →
      Except String RecordList × TracedStub
  | [], stub, results, _ => (.ok results, stub)
  | (_, recId) :: rest, stub, results, currRec =>
    match getRecord stub recId with
    | (.error err, stub) => (.error err, stub)
    | (.ok recBytes, stub) =>
      match J.unmarshalRecord recBytes currRec with
      | (currRec, err) =>
        let results : RecordList :=
          { records := results.records ++ [currRec], numEntries := results.numEntries + 1 }
        match err with
        | some _ => (.error "Failed Iterating", stub)
        | none => searchLoop J rest stub results currRec

/-- `searchIndex`, with its calls: the `switch field` comes first, the range
query after it, then the loop. -/
def searchIndex (J : Json) (stub : TracedStub) (input field : Str) :
    Except String Str × TracedStub :=
  match indexToSearch field with
  | none => (.error "No such index to search", stub)
  | some indexToSearch =>
    match stub.RangeQueryState (indexToSearch ++ input)
        (indexToSearch ++ input ++ "ZZZZZZZZZZZZZZZZZZZZZZ".toList) with
    | (keysIter, stub) =>
      match searchLoop J keysIter stub RecordList.zero Record.zero with
      | (.error err, stub) => (.error err, stub)
      | (.ok results, stub) => (.ok (J.marshalRecordList results), stub)

end Traced

end Records

namespace Requests

namespace Traced

/-- `getRequest`, with its call; the stub is that of the requests chaincode,
whose ledger holds the Requests. -/
def getRequest (stub : TracedStub) (reqId : Str) : Except String Str × TracedStub :=
  match stub.GetState reqId with
  | (none, stub) => (.error "No request with given req", stub)
  | (some req, stub) => (.ok req, stub)

/-- Loop of `searchIndex` over the iterator's entries, with the call of
`getRequest` in each round. -/
def searchLoop (J : Json) :
    List (Str × Str) → TracedStub → RequestList → Request →
      Except String RequestList × TracedStub
  | [], stub, results, _ => (.ok results, stub)
  | (_, reqId) :: rest, stub, results, currReq =>
    match getRequest stub reqId with
    | (.error err, stub) => (.error err, stub)
    | (.ok reqBytes, stub) =>
      match J.unmarshalRequest reqBytes currReq with
      | (currReq, err) =>
        let results : RequestList :=
          { requests := results.requests ++ [currReq], numEntries := results.numEntries + 1 }
        match err with
        | some _ => (.error "Failed Iterating", stub)
        | none => searchLoop J rest stub results currReq

/-- `searchIndex`, with its calls: the `switch field` comes first, the range
query after it, then the loop. -/
def searchIndex (J : Json) (stub : TracedStub) (input field : Str) :
    Except String Str × TracedStub :=
  match indexToSearch field with
  | none => (.error "No such index to search", stub)
  | some indexToSearch =>
    match stub.RangeQueryState (indexToSearch ++ input)
        (indexToSearch ++ input ++ "ZZZZZZZZZZZZZZZZZZZZZZ".toList) with
    | (keysIter, stub) =>
      match searchLoop J keysIter stub RequestList.zero Request.zero with
      | (.error err, stub) => (.error err, stub)
      | (.ok results, stub) => (.ok (J.marshalRequestList results), stub)

end Traced

end Requests

/-! ## Notions used in the statements

Index keys, the Records built by `addRecord` and `updateRecord`, the
fixed-width format, reachable stores and the index invariant. -/

namespace Records

/-- The id index key of a Record, as `indexRecord` builds it. -/
def idKey (rec : Record) : Str := "id".toList ++ rec.custId ++ rec.recId

/-- The name index key of a Record. -/
def nameKey (rec : Record) : Str := "name".toList ++ rec.custName ++ rec.recId

/-- The date index key of a Record. -/
def dateKey (rec : Record) : Str := "date".toList ++ rec.dateModified ++ rec.recId

/-- The Record `addRecord` builds from its arguments. -/
def newRecord (custId custName recOwner encFor encData dateCreated : Str) : Record :=
  { recId := custId ++ recOwner ++ encFor, custId := custId, custName := custName,
    recOwner := recOwner, encFor := encFor, encData := encData,
    dateCreated := dateCreated, dateModified := dateCreated }

/-- Whether a key starts with one of the index tags `id`, `name`, `date`. -/
def hasTag (k : Str) : Bool :=
  "id".toList.isPrefixOf k || "name".toList.isPrefixOf k || "date".toList.isPrefixOf k

/-- Format of the indexed fields: the widths of `custId`, `custName` and of the
dates, and a further condition on dates. -/
structure Format where
  custIdWidth : Nat
  custNameWidth : Nat
  dateWidth : Nat
  dateOk : Str → Bool

/-- A date of the format. -/
def Format.isDate (F : Format) (d : Str) : Prop :=
  d.length = F.dateWidth ∧ F.dateOk d = true

/-- A Record whose indexed fields follow the format and whose id has no tag. -/
structure Formatted (F : Format) (r : Record) : Prop where
  untagged : hasTag r.recId = false
  custId : r.custId.length = F.custIdWidth
  custName : r.custName.length = F.custNameWidth
  date : F.isDate r.dateModified

/-- A stored Record: its encoding is the value under its id, and the id has no tag. -/
def Stored (J : Json) (stub : Store) (r : Record) : Prop :=
  hasTag r.recId = false ∧ GetState r.recId stub = some (J.marshalRecord r)

/-- Stores built from the empty store by successful `addRecord` and
`updateRecord` calls whose arguments follow the format. -/
inductive Reachable (J : Json) (F : Format) : Store → Prop
  | empty : Reachable J F []
  | add (stub : Store) (custId custName recOwner encFor encData t : Str) :
      Reachable J F stub →
      custId.length = F.custIdWidth → custName.length = F.custNameWidth → F.isDate t →
      hasTag (custId ++ recOwner ++ encFor) = false →
      (addRecord J stub custId custName recOwner encFor encData t).2 = none →
      Reachable J F (addRecord J stub custId custName recOwner encFor encData t).1
  | update (stub : Store) (recId encData t : Str) :
      Reachable J F stub →
      F.isDate t → hasTag recId = false →
      (updateRecord J stub recId encData t).2 = none →
      Reachable J F (updateRecord J stub recId encData t).1

/-- The index invariant of a store. -/
structure Inv (J : Json) (F : Format) (stub : Store) : Prop where
  sorted : KeySorted stub
  primary : ∀ k v, GetState k stub = some v → hasTag k = false →
    ∃ r : Record, r.recId = k ∧ v = J.marshalRecord r ∧ Formatted F r
  index : ∀ k v, GetState k stub = some v → hasTag k = true →
    ∃ r : Record, Stored J stub r ∧ v = r.recId ∧ (k = idKey r ∨ k = nameKey r ∨ k = dateKey r)
  indexed : ∀ r : Record, Stored J stub r →
    GetState (idKey r) stub = some r.recId ∧ GetState (nameKey r) stub = some r.recId ∧
      GetState (dateKey r) stub = some r.recId

/-- The Record `updateRecord` writes back: `encData` and `dateModified` replaced. -/
def updatedRecord (rec : Record) (encData dateModified : Str) : Record :=
  { rec with encData := encData, dateModified := dateModified }

/-- An entry of the scan and the stored Record it leads to. -/
def Hydrates (J : Json) (stub : Store) (e : Str × Str) (r : Record) : Prop :=
  e.1 = dateKey r ∧ e.2 = r.recId ∧ Stored J stub r

/-- An ASCII digit. -/
def digit (c : Char) : Bool := decide (48 ≤ c.toNat ∧ c.toNat ≤ 57)

/-- Whether a key starts with the index tag `date`. -/
def hasDateTag (k : Str) : Bool := "date".toList.isPrefixOf k

/-- A date of width `wd` that passes the further condition `ok`. -/
def IsDate (wd : Nat) (ok : Str → Bool) (d : Str) : Prop :=
  d.length = wd ∧ ok d = true

/-- Stores built from the empty store by `addRecord` and `updateRecord` calls
with dates of one width `wd`, where no record id starts with `date`, every
`addRecord` succeeds, and every `updateRecord` acts on an id under which a
Record with that id and a date of that width is stored. A call that fails
leaves the store as it was, so that only the calls that write are listed. -/
inductive DateReachable (J : Json) (wd : Nat) : Store → Prop
  | empty : DateReachable J wd []
  | add (stub : Store) (custId custName recOwner encFor encData t : Str) :
      DateReachable J wd stub →
      t.length = wd →
      hasDateTag (custId ++ recOwner ++ encFor) = false →
      (addRecord J stub custId custName recOwner encFor encData t).2 = none →
      DateReachable J wd (addRecord J stub custId custName recOwner encFor encData t).1
  | update (stub : Store) (rec : Record) (encData t : Str) :
      DateReachable J wd stub →
      t.length = wd →
      hasDateTag rec.recId = false →
      GetState rec.recId stub = some (J.marshalRecord rec) →
      rec.dateModified.length = wd →
      DateReachable J wd (updateRecord J stub rec.recId encData t).1

/-- Stores built from the empty store by successful `addRecord` and
`updateRecord` calls with dates of one width, where no record id starts with
an index tag. -/
inductive UntaggedReachable (J : Json) (wd : Nat) (ok : Str → Bool) : Store → Prop
  | empty : UntaggedReachable J wd ok []
  | add (stub : Store) (custId custName recOwner encFor encData t : Str) :
      UntaggedReachable J wd ok stub →
      IsDate wd ok t →
      hasTag (custId ++ recOwner ++ encFor) = false →
      (addRecord J stub custId custName recOwner encFor encData t).2 = none →
      UntaggedReachable J wd ok
        (addRecord J stub custId custName recOwner encFor encData t).1
  | update (stub : Store) (recId encData t : Str) :
      UntaggedReachable J wd ok stub →
      IsDate wd ok t →
      hasTag recId = false →
      (updateRecord J stub recId encData t).2 = none →
      UntaggedReachable J wd ok (updateRecord J stub recId encData t).1

/-- The invariant of the date index: values under untagged keys are Records
with that id and a date of the format; every key that starts with `date` is
`"date" ++ d ++ v` for its value `v`, an id that passes `idOk`, and a date `d`
of the format, and leads to the stored Record `v` dated `d` when `v` is
untagged; every stored Record has its date entry. -/
structure DateInv (J : Json) (wd : Nat) (ok idOk : Str → Bool) (stub : Store) : Prop where
  sorted : KeySorted stub
  primary : ∀ k v, GetState k stub = some v → hasTag k = false →
    ∃ r : Record, r.recId = k ∧ v = J.marshalRecord r ∧ IsDate wd ok r.dateModified
  entry : ∀ k v, GetState k stub = some v → hasDateTag k = true →
    ∃ d : Str, k = "date".toList ++ d ++ v ∧ IsDate wd ok d ∧ idOk v = true ∧
      (hasTag v = false → ∃ r : Record, Stored J stub r ∧ r.recId = v ∧ r.dateModified = d)
  indexed : ∀ r : Record, Stored J stub r → GetState (dateKey r) stub = some r.recId

/-- A string of digits, not all of them `9`, for a date of width `wd`. -/
def digitsNotNines (wd : Nat) (d : Str) : Bool :=
  d.all digit && !decide (d = List.replicate wd '9')

/-- Order of the date index: by `dateModified`, then by `recId`. -/
def dateThenId (a b : Record) : Prop :=
  ltB a.dateModified b.dateModified = true ∨
    (a.dateModified = b.dateModified ∧ ltB a.recId b.recId = true)

end Records

/-! ## A JSON text codec

An instance of `Json` for evaluating concrete cases. The encoder writes the
fields in the order and under the names of the Go struct tags and, inside a
string, escapes the quote and the backslash. `encoding/json` escapes in
addition `<`, `>`, `&`, the control characters and the two line separators, so
that the two encoders agree on the strings without these characters. The
decoder accepts what the encoder writes and rejects every other text, with one
fixed error text; `json.Unmarshal` also accepts `null`, white space, members
that are missing, unknown or in another order, and further escapes, and has
error texts of its own. The two decoders agree, up to the error text, on
encoder output and on text that is no JSON value. The concrete cases use
strings of letters and digits, and in `strayEntry` the punctuation of an
encoded Record; what they decode is encoder output or a record id that is no
JSON value. -/

/-- JSON string body: the characters of a string literal after its opening
quote, up to and including the closing quote. -/
def writeString : Str → Str
  | [] => ['"']
  | c :: cs =>
    if c = '"' ∨ c = '\\' then '\\' :: c :: writeString cs
    else c :: writeString cs

/-- Read a string body: the decoded string and what follows the closing quote. -/
def readString : Str → Option (Str × Str)
  | [] => none
  | [c] => if c = '"' then some ([], []) else none
  | c :: d :: rest =>
    if c = '"' then some ([], d :: rest)
    else if c = '\\' then (readString rest).map (fun p => (d :: p.1, p.2))
    else (readString (d :: rest)).map (fun p => (c :: p.1, p.2))

/-- Strip a literal from the front of the input. -/
def dropLiteral : Str → Str → Option Str
  | [], s => some s
  | _ :: _, [] => none
  | a :: p, b :: s => if a = b then dropLiteral p s else none

/-- Write the members of an object: each opener (a comma or brace, the quoted
field name, a colon and the opening quote) and the string body after it. -/
def writeMembers : List (Str × Str) → Str
  | [] => []
  | (opener, v) :: ms => opener ++ writeString v ++ writeMembers ms

/-- Read the members announced by the openers, in order. -/
def readMembers : List Str → Str → Option (List Str × Str)
  | [], s => some ([], s)
  | opener :: os, s =>
    match dropLiteral opener s with
    | none => none
    | some s1 =>
      match readString s1 with
      | none => none
      | some (v, s2) => (readMembers os s2).map (fun p => (v :: p.1, p.2))

/-- Member openers of a `Record` object. -/
def recordOpeners : List Str :=
  ["\x7b\"recId\":\"".toList, ",\"custId\":\"".toList, ",\"custName\":\"".toList,
   ",\"recOwner\":\"".toList, ",\"encFor\":\"".toList, ",\"encData\":\"".toList,
   ",\"dateCreated\":\"".toList, ",\"dateModified\":\"".toList]

/-- Field values of a `Record`, in struct order. -/
def recordValues (r : Record) : List Str :=
  [r.recId, r.custId, r.custName, r.recOwner, r.encFor, r.encData, r.dateCreated,
   r.dateModified]

/-- JSON text of a `Record`. -/
def writeRecord (r : Record) : Str :=
  writeMembers (recordOpeners.zip (recordValues r)) ++ "\x7d".toList

/-- Decode the JSON text of a `Record`; other input leaves the target as it was. -/
def readRecord (b : Str) (r0 : Record) : Record × Option String :=
  match readMembers recordOpeners b with
  | some ([a0, a1, a2, a3, a4, a5, a6, a7], ['}']) =>
    (⟨a0, a1, a2, a3, a4, a5, a6, a7⟩, none)
  | _ => (r0, some "invalid character")

/-- Member openers of a `Request` object. -/
def requestOpeners : List Str :=
  ["\x7b\"reqId\":\"".toList, ",\"recId\":\"".toList, ",\"reqBy\":\"".toList,
   ",\"recOwner\":\"".toList, ",\"status\":\"".toList, ",\"dateCreated\":\"".toList,
   ",\"dateModified\":\"".toList]

/-- Field values of a `Request`, in struct order. -/
def requestValues (q : Request) : List Str :=
  [q.reqId, q.recId, q.reqBy, q.recOwner, q.status, q.dateCreated, q.dateModified]

/-- JSON text of a `Request`. -/
def writeRequest (q : Request) : Str :=
  writeMembers (requestOpeners.zip (requestValues q)) ++ "\x7d".toList

/-- Decode the JSON text of a `Request`; other input leaves the target as it was. -/
def readRequest (b : Str) (q0 : Request) : Request × Option String :=
  match readMembers requestOpeners b with
  | some ([a0, a1, a2, a3, a4, a5, a6], ['}']) => (⟨a0, a1, a2, a3, a4, a5, a6⟩, none)
  | _ => (q0, some "invalid character")

/-- JSON array of already encoded elements; a nil slice is `null`. -/
def writeArray : List Str → Str
  | [] => "null".toList
  | x :: xs => "[".toList ++ x ++ (xs.map (fun y => (',' : Char) :: y)).flatten ++ "]".toList

/-- JSON text of a `RecordList`. -/
def writeRecordList (l : RecordList) : Str :=
  "\x7b\"numEntries\":".toList ++ (Nat.repr l.numEntries).toList ++ ",\"records\":".toList
    ++ writeArray (l.records.map writeRecord) ++ "\x7d".toList

/-- JSON text of a `RequestList`. -/
def writeRequestList (l : RequestList) : Str :=
  "\x7b\"numEntries\":".toList ++ (Nat.repr l.numEntries).toList ++ ",\"requests\":".toList
    ++ writeArray (l.requests.map writeRequest) ++ "\x7d".toList

theorem readString_writeString (v rest : Str) :
    readString (writeString v ++ rest) = some (v, rest) := by
  induction v with
  | nil => cases rest <;> simp [writeString, readString]
  | cons c cs ih =>
    by_cases h : c = '"' ∨ c = '\\'
    · rcases h with h | h
      · subst h
        simp [writeString, readString, ih]
      · subst h
        simp [writeString, readString, ih]
    · simp only [writeString, h, if_false, List.cons_append]
      push_neg at h
      cases hw : writeString cs ++ rest with
      | nil =>
        cases cs with
        | nil => simp [writeString] at hw
        | cons x xs =>
          simp only [writeString] at hw
          split_ifs at hw <;> simp at hw
      | cons d r =>
        rw [readString]
        simp only [h.1, h.2, if_false]
        rw [← hw, ih]; rfl

theorem dropLiteral_append (p s : Str) : dropLiteral p (p ++ s) = some s := by
  induction p with
  | nil => cases s <;> rfl
  | cons c cs ih => simp [dropLiteral, ih]

theorem readMembers_writeMembers (ms : List (Str × Str)) (rest : Str) :
    readMembers (ms.map Prod.fst) (writeMembers ms ++ rest) = some (ms.map Prod.snd, rest) := by
  induction ms with
  | nil => rfl
  | cons m ms ih =>
    obtain ⟨o, v⟩ := m
    simp [readMembers, writeMembers, List.append_assoc, dropLiteral_append,
      readString_writeString, ih]

theorem readRecord_writeRecord (r r0 : Record) : readRecord (writeRecord r) r0 = (r, none) := by
  have h := readMembers_writeMembers (recordOpeners.zip (recordValues r)) "\x7d".toList
  have h1 : (recordOpeners.zip (recordValues r)).map Prod.fst = recordOpeners := rfl
  have h2 : (recordOpeners.zip (recordValues r)).map Prod.snd = recordValues r := rfl
  rw [h1, h2] at h
  unfold readRecord writeRecord
  rw [h]
  rfl

theorem readRequest_writeRequest (q q0 : Request) :
    readRequest (writeRequest q) q0 = (q, none) := by
  have h := readMembers_writeMembers (requestOpeners.zip (requestValues q)) "\x7d".toList
  have h1 : (requestOpeners.zip (requestValues q)).map Prod.fst = requestOpeners := rfl
  have h2 : (requestOpeners.zip (requestValues q)).map Prod.snd = requestValues q := rfl
  rw [h1, h2] at h
  unfold readRequest writeRequest
  rw [h]
  rfl

/-- The JSON text codec: `encoding/json` on the Records and Requests whose
strings hold none of `<`, `>`, `&`, control characters and line separators,
with a decoder that accepts encoder output only. -/
def jsonText : Json where
  marshalRecord := writeRecord
  unmarshalRecord := readRecord
  marshalRecordList := writeRecordList
  marshalRequest := writeRequest
  unmarshalRequest := readRequest
  marshalRequestList := writeRequestList
  unmarshal_marshalRecord := readRecord_writeRecord
  unmarshal_marshalRequest := readRequest_writeRequest

/-! ## Concrete stores -/

namespace Records

/-- A format for examples: `custId` of width 2, `custName` of width 3, dates of
width 8. -/
def demoFormat : Format :=
  { custIdWidth := 2, custNameWidth := 3, dateWidth := 8, dateOk := fun _ => true }

/-- The store after adding the Record of customer `C1` on `20170101` and
updating it on `20170202`. -/
def demoStore : Store :=
  (updateRecord jsonText
    (addRecord jsonText [] "C1".toList "Ann".toList "bankA".toList "bankB".toList
      "e".toList "20170101".toList).1
    "C1bankAbankB".toList "f".toList "20170202".toList).1

/-- Three Records: `C1` dated `20170101`, `C2` added on `20170101` and updated
on `20170202`, `C3` dated `20170303`. -/
def threeRecords : Store :=
  (updateRecord jsonText
    (addRecord jsonText
      (addRecord jsonText
        (addRecord jsonText [] "C1".toList "Ann".toList "bankA".toList "bankB".toList
          "e".toList "20170101".toList).1
        "C2".toList "Bob".toList "bankA".toList "bankB".toList "e".toList
        "20170101".toList).1
      "C3".toList "Cyd".toList "bankA".toList "bankB".toList "e".toList
      "20170303".toList).1
    "C2bankAbankB".toList "f".toList "20170202".toList).1

/-- The Record with id `idaa` is added first, then the Record with id `a`,
whose id index key `"id" ++ "a" ++ "a"` is the first Record's own key. -/
def clobbered : Store :=
  (addRecord jsonText
    (addRecord jsonText [] "idaa".toList "m".toList "".toList "".toList "e".toList
      "1".toList).1
    "a".toList "n".toList "".toList "".toList "e".toList "1".toList).1

/-- The Record `a` is added on date `1`, then the Record with id `date2a`;
then `a` is updated to date `2`, and then to date `3`. -/
def dateClash : Store :=
  (updateRecord jsonText
    (updateRecord jsonText
      (addRecord jsonText
        (addRecord jsonText [] "a".toList "n".toList "".toList "".toList "e".toList
          "1".toList).1
        "date2a".toList "m".toList "".toList "".toList "e".toList "1".toList).1
      "a".toList "f".toList "2".toList).1
    "a".toList "g".toList "3".toList).1

/-- Two Records whose `custId`s and names differ in width: customer `A7` named
`Ann` and customer `B1234` named `Robert`, dated `20170101` and `20170202`. -/
def mixedWidths : Store :=
  (addRecord jsonText
    (addRecord jsonText [] "A7".toList "Ann".toList "bankA".toList "bankB".toList
      "e".toList "20170101".toList).1
    "B1234".toList "Robert".toList "bankA".toList "bankB".toList "e".toList
    "20170202".toList).1

/-- Dates of two widths. The Record with id `idab` is dated `2`; the Record
with id `ab` of an empty `custId` is added next, whose id index key
`"id" ++ "" ++ "ab"` is the first Record's own key; then the Record `T` is
added on date `1idab` and updated to date `2idab`. -/
def mixedDates : Store :=
  (updateRecord jsonText
    (addRecord jsonText
      (addRecord jsonText
        (addRecord jsonText [] "idab".toList "m".toList "".toList "".toList "e".toList
          "2".toList).1
        "".toList "n".toList "ab".toList "".toList "e".toList "2".toList).1
      "T".toList "n".toList "".toList "".toList "e".toList "1idab".toList).1
    "T".toList "f".toList "2idab".toList).1

/-- A Record with id `X` dated `1`, whose encoding serves as a `custId` below. -/
def strayRecord : Record :=
  { recId := "X".toList, custId := "X".toList, custName := "n".toList, recOwner := "".toList,
    encFor := "".toList, encData := "e".toList, dateCreated := "1".toList,
    dateModified := "1".toList }

/-- A Record whose `custId`, and so whose id, is the encoding of `strayRecord`
is added; then `updateRecord` is called on the id index key of that Record,
whose value, the Record's id, decodes as `strayRecord`: the call writes a date
entry `date2X` for the id `X`, under which nothing is stored. Then the Record
`A` is added on date `1` and updated to date `2`. -/
def strayEntry : Store :=
  (updateRecord jsonText
    (addRecord jsonText
      (updateRecord jsonText
        (addRecord jsonText [] (jsonText.marshalRecord strayRecord) "n".toList "".toList
          "".toList "e".toList "1".toList).1
        ("id".toList ++ jsonText.marshalRecord strayRecord ++
          jsonText.marshalRecord strayRecord) "f".toList "2".toList).1
      "A".toList "n".toList "".toList "".toList "e".toList "1".toList).1
    "A".toList "f".toList "2".toList).1

/-- The Record with id `nameab` is added first, then the Record with id `b` of
the customer named `a`, whose name index key `"name" ++ "a" ++ "b"` is the
first Record's own key. -/
def clobberedByName : Store :=
  (addRecord jsonText
    (addRecord jsonText [] "nameab".toList "m".toList "".toList "".toList "e".toList
      "1".toList).1
    "b".toList "a".toList "".toList "".toList "e".toList "1".toList).1

end Records

namespace Requests

/-- The Record of customer `C1`, owned by `bankA` and encrypted for `bankA`;
no Request yet; the submitter is `mallory`. -/
def demoWorld0 : World :=
  { records := (Records.addRecord jsonText [] "C1".toList "Ann".toList "bankA".toList
      "bankA".toList "e".toList "20170101".toList).1,
    requests := [],
    caller := "mallory".toList }

/-- The world `demoWorld0` after `bankB` asked for the Record on `20170102`. -/
def demoWorld : World :=
  (addRequest jsonText demoWorld0 "C1bankAbankA".toList "bankB".toList "20170102".toList).1

/-- A Record with `custId = ""`, `recOwner = ""`, `encFor = "idb"`, stored under
`"idb"`; no Request yet. -/
def clashWorld0 : World :=
  { records := (Records.addRecord jsonText [] "".toList "Ann".toList "".toList
      "idb".toList "e".toList "1".toList).1,
    requests := [],
    caller := "bankA".toList }

/-- The world `clashWorld0` after `addRequest "idb" "b" "2"`. -/
def clashWorld1 : World := (addRequest jsonText clashWorld0 "idb".toList "b".toList "2".toList).1

/-- The world `demoWorld` after `bankC` also asked for the Record on `20170102`. -/
def twoRequests : World :=
  (addRequest jsonText demoWorld "C1bankAbankA".toList "bankC".toList "20170102".toList).1

/-- The Request of `bankB` in `demoWorld`. -/
def requestB : Request :=
  { reqId := "C1bankAbankAbankB20170102".toList, recId := "C1bankAbankA".toList,
    reqBy := "bankB".toList, recOwner := "bankA".toList, status := "Pending".toList,
    dateCreated := "20170102".toList, dateModified := "20170102".toList }

/-- The Request of `bankC` in `twoRequests`. -/
def requestC : Request :=
  { reqId := "C1bankAbankAbankC20170102".toList, recId := "C1bankAbankA".toList,
    reqBy := "bankC".toList, recOwner := "bankA".toList, status := "Pending".toList,
    dateCreated := "20170102".toList, dateModified := "20170102".toList }

/-- The Record with id `date20170102`; no Request yet. -/
def selfKeyWorld0 : World :=
  { records := (Records.addRecord jsonText [] "date20170102".toList "Ann".toList "".toList
      "".toList "e".toList "20170101".toList).1,
    requests := [],
    caller := "date".toList }

/-- The Request that `addRequest "date20170102" "date" "20170102"` builds. -/
def selfKeyRequest : Request :=
  { reqId := "date20170102date20170102".toList, recId := "date20170102".toList,
    reqBy := "date".toList, recOwner := "".toList, status := "Pending".toList,
    dateCreated := "20170102".toList, dateModified := "20170102".toList }

/-- The same Request once granted on `20170103`. -/
def selfKeyGranted : Request :=
  { selfKeyRequest with
    status := "Access Given on 20170103".toList, dateModified := "20170103".toList }

/-- A world reached by calls only in which `selfKeyGranted` is stored under its
id: a Record whose id is the encoding of `selfKeyRequest` is added and
requested with empty `reqBy` and date, so that the index entries of that
Request hold the encoding of `selfKeyRequest`; `giveAccess` on the `by` index
key reads it as a Request and writes it back, granted, under its `reqId`. -/
def selfKeyWorld1 : World :=
  (giveAccess jsonText
    (addRequest jsonText
      { selfKeyWorld0 with
        records := (Records.addRecord jsonText selfKeyWorld0.records
          (jsonText.marshalRequest selfKeyRequest) "Bob".toList "".toList "".toList
          "e".toList "20170101".toList).1 }
      (jsonText.marshalRequest selfKeyRequest) "".toList "".toList).1
    ("by".toList ++ jsonText.marshalRequest selfKeyRequest) "x".toList "20170103".toList).1

end Requests

/-! ## Key order and the store -/

theorem char_eq_of_toNat {a b : Char} (h : a.toNat = b.toNat) : a = b := by
  rw [← Char.ofNat_toNat a, ← Char.ofNat_toNat b, h]

@[simp] theorem ltB_nil_right (a : Str) : ltB a [] = false := by
  cases a <;> rfl

@[simp] theorem ltB_nil_cons (b : Char) (bs : Str) : ltB [] (b :: bs) = true := rfl

theorem ltB_cons_cons (a b : Char) (as bs : Str) :
    ltB (a :: as) (b :: bs) =
      if a.toNat < b.toNat then true else if a.toNat = b.toNat then ltB as bs else false := rfl

theorem ltB_irrefl (a : Str) : ltB a a = false := by
  induction a with
  | nil => rfl
  | cons c cs ih => simp [ltB_cons_cons, ih]

theorem ltB_trans {a b c : Str} (h1 : ltB a b = true) (h2 : ltB b c = true) :
    ltB a c = true := by
  induction a generalizing b c with
  | nil =>
    cases c with
    | nil => simp at h2
    | cons z zs => rfl
  | cons x xs ih =>
    cases b with
    | nil => simp at h1
    | cons y ys =>
      cases c with
      | nil => simp at h2
      | cons z zs =>
        rw [ltB_cons_cons] at h1 h2 ⊢
        split_ifs at h1 h2 ⊢ <;> first | rfl | omega | exact ih h1 h2

theorem ltB_asymm {a b : Str} (h : ltB a b = true) : ltB b a = false := by
  cases hb : ltB b a with
  | false => rfl
  | true => have := ltB_trans h hb; rw [ltB_irrefl] at this; cases this

theorem ltB_total {a b : Str} (h1 : ltB a b = false) (h2 : ltB b a = false) : a = b := by
  induction a generalizing b with
  | nil =>
    cases b with
    | nil => rfl
    | cons y ys => simp at h1
  | cons x xs ih =>
    cases b with
    | nil => simp at h2
    | cons y ys =>
      rw [ltB_cons_cons] at h1 h2
      split_ifs at h1 h2 with _ h <;> first | omega | skip
      rw [char_eq_of_toNat h, ih h1 h2]

theorem ltB_ne {a b : Str} (h : ltB a b = true) : a ≠ b := by
  rintro rfl; rw [ltB_irrefl] at h; cases h

theorem ltB_append_left (p a b : Str) : ltB (p ++ a) (p ++ b) = ltB a b := by
  induction p with
  | nil => rfl
  | cons c cs ih => simp [ltB_cons_cons, ih]

theorem leB_append_self (p x : Str) : leB p (p ++ x) = true := by
  have h := ltB_append_left p x []
  simp only [List.append_nil, ltB_nil_right] at h
  simp [leB, h]

/-- Two equal-width fields followed by ids compare field first, id second. -/
theorem ltB_append_of_length {d1 d2 : Str} (h : d1.length = d2.length) (r1 r2 : Str) :
    ltB (d1 ++ r1) (d2 ++ r2) = (ltB d1 d2 || (decide (d1 = d2) && ltB r1 r2)) := by
  induction d1 generalizing d2 with
  | nil =>
    cases d2 with
    | nil => simp [ltB_irrefl]
    | cons y ys => simp at h
  | cons x xs ih =>
    cases d2 with
    | nil => simp at h
    | cons y ys =>
      simp only [List.length_cons, Nat.add_right_cancel_iff] at h
      simp only [List.cons_append, ltB_cons_cons, ih h]
      split_ifs with h1 h2
      · simp
      · have := char_eq_of_toNat h2; subst this; simp
      · have : x ≠ y := by rintro rfl; exact h2 rfl
        simp [this]

/-- A key between `lo` and `lo ++ suf` starts with `lo`. -/
theorem prefix_of_between {lo k : Str} (suf : Str) (h1 : leB lo k = true)
    (h2 : ltB k (lo ++ suf) = true) : ∃ x, k = lo ++ x := by
  induction lo generalizing k with
  | nil => exact ⟨k, rfl⟩
  | cons c cs ih =>
    cases k with
    | nil => simp [leB] at h1
    | cons y ys =>
      simp only [leB, List.cons_append, ltB_cons_cons] at h1 h2
      split_ifs at h1 h2 with _ h <;> first | omega | simp at h1
      have := char_eq_of_toNat h; subst this
      have h1' : leB cs ys = true := by simpa [leB] using h1
      obtain ⟨x, rfl⟩ := ih h1' h2
      exact ⟨x, rfl⟩

theorem GetState_PutState_same (k v : Str) (s : Store) :
    GetState k (PutState k v s) = some v := by
  induction s with
  | nil => simp [PutState, GetState]
  | cons e es ih =>
    unfold PutState
    split_ifs with h1 h2
    · simp [GetState]
    · simp [GetState, ltB_ne h2, ih]
    · simp [GetState]

theorem GetState_PutState_ne {k k' : Str} (h : k' ≠ k) (v : Str) (s : Store) :
    GetState k' (PutState k v s) = GetState k' s := by
  induction s with
  | nil => simp [PutState, GetState, h.symm]
  | cons e es ih =>
    unfold PutState
    split_ifs with h1 h2
    · simp [GetState, h.symm]
    · simp [GetState, ih]
    · have he : e.1 = k := by
        have h1' : ltB k e.1 = false := by simpa using h1
        have h2' : ltB e.1 k = false := by simpa using h2
        exact ltB_total h2' h1'
      simp [GetState, he, h.symm]

theorem DelState_cons (k : Str) (e : Str × Str) (es : Store) :
    DelState k (e :: es) = if e.1 = k then DelState k es else e :: DelState k es := by
  by_cases h : e.1 = k <;> simp [DelState, List.filter_cons, h]

theorem GetState_DelState_same (k : Str) (s : Store) : GetState k (DelState k s) = none := by
  induction s with
  | nil => rfl
  | cons e es ih =>
    rw [DelState_cons]
    split_ifs with h
    · exact ih
    · simp [GetState, h, ih]

theorem GetState_DelState_ne {k k' : Str} (h : k' ≠ k) (s : Store) :
    GetState k' (DelState k s) = GetState k' s := by
  induction s with
  | nil => rfl
  | cons e es ih =>
    rw [DelState_cons]
    split_ifs with h1
    · have : e.1 ≠ k' := by rw [h1]; exact h.symm
      simp [GetState, this, ih]
    · simp [GetState, ih]

theorem mem_PutState {k v : Str} {s : Store} {x : Str × Str} (h : x ∈ PutState k v s) :
    x = (k, v) ∨ x ∈ s := by
  induction s with
  | nil => simpa [PutState] using h
  | cons e es ih =>
    unfold PutState at h
    split_ifs at h with h1 h2
    · simpa using h
    · rcases List.mem_cons.1 h with h | h
      · exact Or.inr (by simp [h])
      · rcases ih h with h | h
        · exact Or.inl h
        · exact Or.inr (List.mem_cons_of_mem _ h)
    · rcases List.mem_cons.1 h with h | h
      · exact Or.inl h
      · exact Or.inr (List.mem_cons_of_mem _ h)

theorem KeySorted_nil : KeySorted [] := List.Pairwise.nil

theorem KeySorted_PutState (k v : Str) {s : Store} (hs : KeySorted s) :
    KeySorted (PutState k v s) := by
  induction s with
  | nil => simp [PutState, KeySorted]
  | cons e es ih =>
    have hs' := List.pairwise_cons.1 hs
    unfold PutState
    split_ifs with h1 h2
    · refine List.pairwise_cons.2 ⟨?_, hs⟩
      intro x hx
      rcases List.mem_cons.1 hx with rfl | hx
      · exact h1
      · exact ltB_trans h1 (hs'.1 x hx)
    · refine List.pairwise_cons.2 ⟨?_, ih hs'.2⟩
      intro x hx
      rcases mem_PutState hx with rfl | hx
      · exact h2
      · exact hs'.1 x hx
    · have he : e.1 = k := by
        have h1' : ltB k e.1 = false := by simpa using h1
        have h2' : ltB e.1 k = false := by simpa using h2
        exact ltB_total h2' h1'
      refine List.pairwise_cons.2 ⟨?_, hs'.2⟩
      intro x hx
      have := hs'.1 x hx
      rwa [he] at this

theorem KeySorted_DelState (k : Str) {s : Store} (hs : KeySorted s) :
    KeySorted (DelState k s) :=
  List.Pairwise.filter _ hs

/-- In a key-sorted store the entries are exactly the bindings `GetState` reads. -/
theorem mem_iff_GetState {s : Store} (hs : KeySorted s) (k v : Str) :
    (k, v) ∈ s ↔ GetState k s = some v := by
  induction s with
  | nil => simp [GetState]
  | cons e es ih =>
    have hs' := List.pairwise_cons.1 hs
    by_cases h : e.1 = k
    · simp only [GetState, h, if_true, List.mem_cons, Option.some.injEq]
      constructor
      · rintro (h1 | h1)
        · rw [← h1]
        · have := hs'.1 _ h1
          simp only at this
          rw [h, ltB_irrefl] at this
          cases this
      · intro h1
        left
        rw [← h1, ← h]
    · simp only [GetState, h, if_false, List.mem_cons]
      rw [← ih hs'.2]
      constructor
      · rintro (h1 | h1)
        · exact absurd (by rw [← h1]) h
        · exact h1
      · exact Or.inr

theorem mem_RangeQueryState {s : Store} (hs : KeySorted s) (lo hi k v : Str) :
    (k, v) ∈ RangeQueryState lo hi s ↔
      GetState k s = some v ∧ leB lo k = true ∧ ltB k hi = true := by
  simp [RangeQueryState, List.mem_filter, mem_iff_GetState hs]

theorem KeySorted_RangeQueryState (lo hi : Str) {s : Store} (hs : KeySorted s) :
    KeySorted (RangeQueryState lo hi s) :=
  List.Pairwise.filter _ hs

/-! ## The records chaincode -/

namespace Records

/-! ### Adding and reading back -/

theorem tagged_ne_self (tag v r : Str) (h : tag ≠ []) : tag ++ v ++ r ≠ r := by
  intro he
  have := congrArg List.length he
  simp only [List.length_append] at this
  have : tag.length = 0 := by omega
  exact h (List.length_eq_zero.1 this)

theorem indexRecord_eq (stub : Store) (rec : Record) :
    indexRecord stub rec =
      (PutState (dateKey rec) rec.recId
        (PutState (nameKey rec) rec.recId (PutState (idKey rec) rec.recId stub)), none) := rfl

theorem addRecord_of_absent (J : Json) (stub : Store)
    (custId custName recOwner encFor encData t : Str)
    (h : GetState (custId ++ recOwner ++ encFor) stub = none) :
    addRecord J stub custId custName recOwner encFor encData t =
      indexRecord (PutState (custId ++ recOwner ++ encFor)
        (J.marshalRecord (newRecord custId custName recOwner encFor encData t)) stub)
        (newRecord custId custName recOwner encFor encData t) := by
  simp only [addRecord, h, newRecord]

theorem addRecord_of_present (J : Json) (stub : Store)
    (custId custName recOwner encFor encData t : Str) {v : Str}
    (h : GetState (custId ++ recOwner ++ encFor) stub = some v) :
    addRecord J stub custId custName recOwner encFor encData t =
      (stub, some "Record already exists") := by
  simp only [addRecord, h]

/-- Reading a key other than the three index keys after `indexRecord`. -/
theorem GetState_indexRecord {k : Str} (stub : Store) (rec : Record)
    (h1 : k ≠ idKey rec) (h2 : k ≠ nameKey rec) (h3 : k ≠ dateKey rec) :
    GetState k (indexRecord stub rec).1 = GetState k stub := by
  rw [indexRecord_eq]
  simp only
  rw [GetState_PutState_ne h3, GetState_PutState_ne h2, GetState_PutState_ne h1]

theorem newRecord_keys_ne (custId custName recOwner encFor encData t : Str) :
    (newRecord custId custName recOwner encFor encData t).recId ≠
        idKey (newRecord custId custName recOwner encFor encData t) ∧
      (newRecord custId custName recOwner encFor encData t).recId ≠
        nameKey (newRecord custId custName recOwner encFor encData t) ∧
      (newRecord custId custName recOwner encFor encData t).recId ≠
        dateKey (newRecord custId custName recOwner encFor encData t) :=
  ⟨(tagged_ne_self _ _ _ (by decide)).symm, (tagged_ne_self _ _ _ (by decide)).symm,
   (tagged_ne_self _ _ _ (by decide)).symm⟩

theorem GetState_addRecord_self (J : Json) (stub : Store)
    (custId custName recOwner encFor encData t : Str)
    (h : GetState (custId ++ recOwner ++ encFor) stub = none) :
    GetState (custId ++ recOwner ++ encFor)
        (addRecord J stub custId custName recOwner encFor encData t).1 =
      some (J.marshalRecord (newRecord custId custName recOwner encFor encData t)) := by
  rw [addRecord_of_absent J stub _ _ _ _ _ _ h]
  obtain ⟨h1, h2, h3⟩ := newRecord_keys_ne custId custName recOwner encFor encData t
  have h1' : custId ++ recOwner ++ encFor ≠ _ := h1
  have h2' : custId ++ recOwner ++ encFor ≠ _ := h2
  have h3' : custId ++ recOwner ++ encFor ≠ _ := h3
  rw [GetState_indexRecord _ _ h1' h2' h3', GetState_PutState_same]

/-- C1 (round trip). On a store with no value under
`recId = custId ++ recOwner ++ encFor`, `addRecord` returns no error, and
`getRecord recId` on the resulting store returns the encoding of the Record
with the given fields and `dateCreated = dateModified = t`; the three index
keys written by `indexRecord` all differ from `recId`. -/
theorem addRecord_getRecord_roundtrip (J : Json) (stub : Store)
    (custId custName recOwner encFor encData t : Str)
    (h : GetState (custId ++ recOwner ++ encFor) stub = none) :
    (addRecord J stub custId custName recOwner encFor encData t).2 = none ∧
    getRecord (addRecord J stub custId custName recOwner encFor encData t).1
        (custId ++ recOwner ++ encFor) =
      .ok (J.marshalRecord
        { recId := custId ++ recOwner ++ encFor, custId := custId, custName := custName,
          recOwner := recOwner, encFor := encFor, encData := encData,
          dateCreated := t, dateModified := t }) ∧
    "id".toList ++ custId ++ (custId ++ recOwner ++ encFor) ≠ custId ++ recOwner ++ encFor ∧
    "name".toList ++ custName ++ (custId ++ recOwner ++ encFor) ≠ custId ++ recOwner ++ encFor ∧
    "date".toList ++ t ++ (custId ++ recOwner ++ encFor) ≠ custId ++ recOwner ++ encFor := by
  refine ⟨?_, ?_, tagged_ne_self _ _ _ (by decide), tagged_ne_self _ _ _ (by decide),
    tagged_ne_self _ _ _ (by decide)⟩
  · rw [addRecord_of_absent J stub _ _ _ _ _ _ h, indexRecord_eq]
  · rw [getRecord, GetState_addRecord_self J stub _ _ _ _ _ _ h]
    rfl

/-- Witness of C1 on the empty store. -/
theorem addRecord_getRecord_roundtrip_witness :
    GetState ("C1".toList ++ "bankA".toList ++ "bankB".toList) [] = none ∧
    getRecord (addRecord jsonText [] "C1".toList "Ann".toList "bankA".toList "bankB".toList
        "xyz".toList "20170101".toList).1 ("C1".toList ++ "bankA".toList ++ "bankB".toList) =
      .ok (jsonText.marshalRecord
        { recId := "C1".toList ++ "bankA".toList ++ "bankB".toList, custId := "C1".toList,
          custName := "Ann".toList, recOwner := "bankA".toList, encFor := "bankB".toList,
          encData := "xyz".toList, dateCreated := "20170101".toList,
          dateModified := "20170101".toList }) :=
  ⟨rfl, (addRecord_getRecord_roundtrip jsonText [] "C1".toList "Ann".toList "bankA".toList
    "bankB".toList "xyz".toList "20170101".toList rfl).2.1⟩

/-- C2 (duplicate rejection). When `addRecord` succeeded for
`(custId, recOwner, encFor)`, a second `addRecord` with the same three values
and any `custName`, `encData` and date returns `Record already exists` and
hands back the store exactly as the first call left it. -/
theorem addRecord_twice_rejected (J : Json) (stub : Store)
    (custId recOwner encFor custName encData t custName2 encData2 t2 : Str)
    (h : (addRecord J stub custId custName recOwner encFor encData t).2 = none) :
    addRecord J (addRecord J stub custId custName recOwner encFor encData t).1
        custId custName2 recOwner encFor encData2 t2 =
      ((addRecord J stub custId custName recOwner encFor encData t).1,
        some "Record already exists") := by
  cases hg : GetState (custId ++ recOwner ++ encFor) stub with
  | some v =>
    rw [addRecord_of_present J stub _ _ _ _ _ _ hg] at h
    cases h
  | none =>
    exact addRecord_of_present J _ _ _ _ _ _ _ (GetState_addRecord_self J stub _ _ _ _ _ _ hg)

/-- Witness of C2 on the empty store. -/
theorem addRecord_twice_rejected_witness :
    (addRecord jsonText [] "C1".toList "Ann".toList "bankA".toList "bankB".toList
        "xyz".toList "20170101".toList).2 = none ∧
    addRecord jsonText (addRecord jsonText [] "C1".toList "Ann".toList "bankA".toList
        "bankB".toList "xyz".toList "20170101".toList).1
        "C1".toList "Bob".toList "bankA".toList "bankB".toList "uvw".toList "20180101".toList =
      ((addRecord jsonText [] "C1".toList "Ann".toList "bankA".toList "bankB".toList
        "xyz".toList "20170101".toList).1, some "Record already exists") :=
  ⟨rfl, addRecord_twice_rejected jsonText [] "C1".toList "bankA".toList "bankB".toList
    "Ann".toList "xyz".toList "20170101".toList "Bob".toList "uvw".toList "20180101".toList rfl⟩

theorem addRecord_snd_none_iff (J : Json) (stub : Store)
    (custId custName recOwner encFor encData t : Str) :
    (addRecord J stub custId custName recOwner encFor encData t).2 = none ↔
      GetState (custId ++ recOwner ++ encFor) stub = none := by
  cases hg : GetState (custId ++ recOwner ++ encFor) stub with
  | some v => simp [addRecord_of_present J stub _ _ _ _ _ _ hg]
  | none => simp [addRecord_of_absent J stub _ _ _ _ _ _ hg, indexRecord_eq]

/-- Reading a key that `addRecord` does not write. -/
theorem GetState_addRecord_other (J : Json) (stub : Store)
    (custId custName recOwner encFor encData t : Str) {k : Str}
    (h0 : k ≠ custId ++ recOwner ++ encFor)
    (h1 : k ≠ "id".toList ++ custId ++ (custId ++ recOwner ++ encFor))
    (h2 : k ≠ "name".toList ++ custName ++ (custId ++ recOwner ++ encFor))
    (h3 : k ≠ "date".toList ++ t ++ (custId ++ recOwner ++ encFor)) :
    GetState k (addRecord J stub custId custName recOwner encFor encData t).1 =
      GetState k stub := by
  cases hg : GetState (custId ++ recOwner ++ encFor) stub with
  | some v => rw [addRecord_of_present J stub _ _ _ _ _ _ hg]
  | none =>
    rw [addRecord_of_absent J stub _ _ _ _ _ _ hg, GetState_indexRecord _ _ h1 h2 h3,
      GetState_PutState_ne h0]

theorem ne_of_length_lt {a b : Str} (h : a.length < b.length) : a ≠ b := by
  rintro rfl
  exact Nat.lt_irrefl _ h

/-! ### The record id as uniqueness boundary -/

/-- Counterexample to C3: the triples `("a", "b", "")` and `("ab", "", "")`
differ and have the same `recId`; after `addRecord` succeeded for the first on
the empty store, `addRecord` for the second is rejected. -/
theorem recId_collision :
    ("a".toList, "b".toList, "".toList) ≠ ("ab".toList, "".toList, "".toList) ∧
    "a".toList ++ "b".toList ++ "".toList = "ab".toList ++ "".toList ++ "".toList ∧
    (addRecord jsonText [] "a".toList "n".toList "b".toList "".toList "e".toList
      "1".toList).2 = none ∧
    (addRecord jsonText
      (addRecord jsonText [] "a".toList "n".toList "b".toList "".toList "e".toList
        "1".toList).1
      "ab".toList "n".toList "".toList "".toList "e".toList "1".toList).2 =
      some "Record already exists" := by
  refine ⟨by decide, by decide, rfl, rfl⟩

/-- C3, amended (uniqueness boundary for fixed-width components). Two triples
whose components have the same lengths and that differ in some component have
different `recId`s; and if the second triple's `recId` was absent from the
store before, then after `addRecord` succeeded for the first triple,
`addRecord` for the second is not rejected. -/
theorem recId_injective_of_widths (c1 o1 e1 c2 o2 e2 : Str)
    (hc : c1.length = c2.length) (ho : o1.length = o2.length) (he : e1.length = e2.length)
    (hne : (c1, o1, e1) ≠ (c2, o2, e2)) :
    c1 ++ o1 ++ e1 ≠ c2 ++ o2 ++ e2 ∧
    ∀ (J : Json) (stub : Store) (n1 d1 t1 n2 d2 t2 : Str),
      GetState (c2 ++ o2 ++ e2) stub = none →
      (addRecord J stub c1 n1 o1 e1 d1 t1).2 = none →
      (addRecord J (addRecord J stub c1 n1 o1 e1 d1 t1).1 c2 n2 o2 e2 d2 t2).2 = none := by
  have hids : c1 ++ o1 ++ e1 ≠ c2 ++ o2 ++ e2 := by
    intro h
    rw [List.append_assoc, List.append_assoc] at h
    obtain ⟨h1, h2⟩ := List.append_inj h hc
    obtain ⟨h3, h4⟩ := List.append_inj h2 ho
    exact hne (by rw [h1, h3, h4])
  refine ⟨hids, ?_⟩
  intro J stub n1 d1 t1 n2 d2 t2 habs _
  rw [addRecord_snd_none_iff]
  have hlen : (c2 ++ o2 ++ e2).length = (c1 ++ o1 ++ e1).length := by
    simp only [List.length_append]; omega
  rw [GetState_addRecord_other J stub c1 n1 o1 e1 d1 t1 hids.symm]
  · exact habs
  all_goals
    apply ne_of_length_lt
    rw [hlen]
    have t1 : "id".toList.length = 2 := rfl
    have t2 : "name".toList.length = 4 := rfl
    have t3 : "date".toList.length = 4 := rfl
    simp only [List.length_append, t1, t2, t3]
    omega

/-- Witness of the amended C3: `("a1", "x", "p")` and `("a2", "x", "p")`. -/
theorem recId_injective_of_widths_witness :
    "a1".toList ++ "x".toList ++ "p".toList ≠ "a2".toList ++ "x".toList ++ "p".toList ∧
    (addRecord jsonText (addRecord jsonText [] "a1".toList "n".toList "x".toList "p".toList
        "e".toList "1".toList).1
      "a2".toList "m".toList "x".toList "p".toList "f".toList "2".toList).2 = none :=
  have h := recId_injective_of_widths "a1".toList "x".toList "p".toList
    "a2".toList "x".toList "p".toList rfl rfl rfl (by decide)
  ⟨h.1, h.2 jsonText [] "n".toList "e".toList "1".toList "m".toList "f".toList "2".toList
    rfl rfl⟩

/-! ### The upper bound of `searchIndex` -/

/-- C6 at a failing input. The Record of customer `c1` is stored, its id index
key `"id" ++ "c1" ++ recId` is not below the upper bound
`"id" ++ "c1" ++ "ZZZZZZZZZZZZZZZZZZZZZZ"` (a lower-case letter follows the
value), and `searchIndex "c1" "id"` returns the empty list. -/
theorem searchIndex_misses_lowercase_id :
    getRecord
      (addRecord jsonText [] "c1".toList "Ann".toList "bankA".toList "bankB".toList
        "e".toList "20170101".toList).1 "c1bankAbankB".toList =
      .ok (jsonText.marshalRecord
        { recId := "c1bankAbankB".toList, custId := "c1".toList, custName := "Ann".toList,
          recOwner := "bankA".toList, encFor := "bankB".toList, encData := "e".toList,
          dateCreated := "20170101".toList, dateModified := "20170101".toList }) ∧
    GetState ("id".toList ++ "c1".toList ++ "c1bankAbankB".toList)
      (addRecord jsonText [] "c1".toList "Ann".toList "bankA".toList "bankB".toList
        "e".toList "20170101".toList).1 = some "c1bankAbankB".toList ∧
    ltB ("id".toList ++ "c1".toList ++ "c1bankAbankB".toList)
      ("id".toList ++ "c1".toList ++ "ZZZZZZZZZZZZZZZZZZZZZZ".toList) = false ∧
    searchIndex jsonText
      (addRecord jsonText [] "c1".toList "Ann".toList "bankA".toList "bankB".toList
        "e".toList "20170101".toList).1 "c1".toList "id".toList =
      .ok (jsonText.marshalRecordList { numEntries := 0, records := [] }) := by
  refine ⟨rfl, rfl, rfl, rfl⟩

/-! ### The index invariant -/

theorem id_toList : "id".toList = ['i', 'd'] := rfl

theorem name_toList : "name".toList = ['n', 'a', 'm', 'e'] := rfl

theorem date_toList : "date".toList = ['d', 'a', 't', 'e'] := rfl

theorem hasTag_idKey (r : Record) : hasTag (idKey r) = true := by
  simp [hasTag, idKey, id_toList, List.isPrefixOf]

theorem hasTag_nameKey (r : Record) : hasTag (nameKey r) = true := by
  simp [hasTag, nameKey, name_toList, id_toList, List.isPrefixOf]

theorem hasTag_dateKey (r : Record) : hasTag (dateKey r) = true := by
  simp [hasTag, dateKey, date_toList, name_toList, id_toList, List.isPrefixOf]

theorem hasTag_date_append (x : Str) : hasTag ("date".toList ++ x) = true := by
  simp [hasTag, date_toList, name_toList, id_toList, List.isPrefixOf]

theorem ne_of_hasTag {a b : Str} (ha : hasTag a = false) (hb : hasTag b = true) : a ≠ b := by
  rintro rfl
  rw [ha] at hb
  cases hb

theorem idKey_ne_nameKey (r r' : Record) : idKey r ≠ nameKey r' := by
  simp [idKey, nameKey, id_toList, name_toList]

theorem idKey_ne_dateKey (r r' : Record) : idKey r ≠ dateKey r' := by
  simp [idKey, dateKey, id_toList, date_toList]

theorem nameKey_ne_dateKey (r r' : Record) : nameKey r ≠ dateKey r' := by
  simp [nameKey, dateKey, name_toList, date_toList]

theorem idKey_inj {r r' : Record} (hw : r.custId.length = r'.custId.length)
    (h : idKey r = idKey r') : r.custId = r'.custId ∧ r.recId = r'.recId := by
  simp only [idKey, List.append_assoc, List.append_cancel_left_eq] at h
  exact List.append_inj h hw

theorem nameKey_inj {r r' : Record} (hw : r.custName.length = r'.custName.length)
    (h : nameKey r = nameKey r') : r.custName = r'.custName ∧ r.recId = r'.recId := by
  simp only [nameKey, List.append_assoc, List.append_cancel_left_eq] at h
  exact List.append_inj h hw

theorem dateKey_inj {r r' : Record} (hw : r.dateModified.length = r'.dateModified.length)
    (h : dateKey r = dateKey r') : r.dateModified = r'.dateModified ∧ r.recId = r'.recId := by
  simp only [dateKey, List.append_assoc, List.append_cancel_left_eq] at h
  exact List.append_inj h hw

theorem marshalRecord_injective (J : Json) {r r' : Record}
    (h : J.marshalRecord r = J.marshalRecord r') : r = r' := by
  have h1 := J.unmarshal_marshalRecord r Record.zero
  rw [h, J.unmarshal_marshalRecord] at h1
  exact (Prod.mk.inj h1).1.symm

/-- Two stored Records with the same id are the same Record. -/
theorem Stored.unique {J : Json} {stub : Store} {r r' : Record}
    (h : Stored J stub r) (h' : Stored J stub r') (hid : r.recId = r'.recId) : r = r' := by
  have h1 := h.2
  rw [hid, h'.2] at h1
  exact (marshalRecord_injective J (Option.some.inj h1)).symm

theorem Inv.formatted {J : Json} {F : Format} {stub : Store} (hI : Inv J F stub)
    {r : Record} (h : Stored J stub r) : Formatted F r := by
  obtain ⟨r', _, h2, h3⟩ := hI.primary _ _ h.2 h.1
  rw [marshalRecord_injective J h2]
  exact h3

/-- In a store with the invariant, an index key of one stored Record is an
index key of another only if they are the same Record. -/
theorem Inv.key_unique {J : Json} {F : Format} {stub : Store} (hI : Inv J F stub)
    {r r' : Record} (h : Stored J stub r) (h' : Formatted F r')
    (hk : idKey r = idKey r' ∨ nameKey r = nameKey r' ∨ dateKey r = dateKey r') :
    r.recId = r'.recId := by
  have hf := hI.formatted h
  rcases hk with hk | hk | hk
  · exact (idKey_inj (by rw [hf.custId, h'.custId]) hk).2
  · exact (nameKey_inj (by rw [hf.custName, h'.custName]) hk).2
  · exact (dateKey_inj (by rw [hf.date.1, h'.date.1]) hk).2

theorem GetState_PutState (k k' v : Str) (s : Store) :
    GetState k' (PutState k v s) = if k' = k then some v else GetState k' s := by
  split_ifs with h
  · rw [h, GetState_PutState_same]
  · exact GetState_PutState_ne h v s

theorem GetState_DelState (k k' : Str) (s : Store) :
    GetState k' (DelState k s) = if k' = k then none else GetState k' s := by
  split_ifs with h
  · rw [h, GetState_DelState_same]
  · exact GetState_DelState_ne h s

/-- What `addRecord` leaves under each key when the id was free. -/
theorem GetState_addRecord (J : Json) (stub : Store)
    (custId custName recOwner encFor encData t : Str)
    (h : GetState (custId ++ recOwner ++ encFor) stub = none) (k : Str) :
    GetState k (addRecord J stub custId custName recOwner encFor encData t).1 =
      if k = dateKey (newRecord custId custName recOwner encFor encData t) then
        some (custId ++ recOwner ++ encFor)
      else if k = nameKey (newRecord custId custName recOwner encFor encData t) then
        some (custId ++ recOwner ++ encFor)
      else if k = idKey (newRecord custId custName recOwner encFor encData t) then
        some (custId ++ recOwner ++ encFor)
      else if k = custId ++ recOwner ++ encFor then
        some (J.marshalRecord (newRecord custId custName recOwner encFor encData t))
      else GetState k stub := by
  rw [addRecord_of_absent J stub _ _ _ _ _ _ h, indexRecord_eq]
  simp only [GetState_PutState]
  rfl

theorem KeySorted_addRecord (J : Json) {stub : Store} (hs : KeySorted stub)
    (custId custName recOwner encFor encData t : Str) :
    KeySorted (addRecord J stub custId custName recOwner encFor encData t).1 := by
  cases h : GetState (custId ++ recOwner ++ encFor) stub with
  | some v => rw [addRecord_of_present J stub _ _ _ _ _ _ h]; exact hs
  | none =>
    rw [addRecord_of_absent J stub _ _ _ _ _ _ h, indexRecord_eq]
    exact KeySorted_PutState _ _ (KeySorted_PutState _ _ (KeySorted_PutState _ _
      (KeySorted_PutState _ _ hs)))

theorem inv_empty (J : Json) (F : Format) : Inv J F [] where
  sorted := KeySorted_nil
  primary := by intro k v h; simp [GetState] at h
  index := by intro k v h; simp [GetState] at h
  indexed := by intro r h; have := h.2; simp [GetState] at this

/-- The invariant survives writing a new formatted Record and its three index
entries. -/
theorem inv_of_insert {J : Json} {F : Format} {stub s' : Store} (hI : Inv J F stub)
    (new : Record) (hfnew : Formatted F new) (habs : GetState new.recId stub = none)
    (hsorted : KeySorted s')
    (hget : ∀ k, GetState k s' =
      if k = dateKey new then some new.recId
      else if k = nameKey new then some new.recId
      else if k = idKey new then some new.recId
      else if k = new.recId then some (J.marshalRecord new)
      else GetState k stub) :
    Inv J F s' := by
  have hu := hfnew.untagged
  have hdn : dateKey new ≠ nameKey new := (nameKey_ne_dateKey _ _).symm
  have hdi : dateKey new ≠ idKey new := (idKey_ne_dateKey _ _).symm
  have hni : nameKey new ≠ idKey new := (idKey_ne_nameKey _ _).symm
  have hrd : new.recId ≠ dateKey new := ne_of_hasTag hu (hasTag_dateKey _)
  have hrn : new.recId ≠ nameKey new := ne_of_hasTag hu (hasTag_nameKey _)
  have hri : new.recId ≠ idKey new := ne_of_hasTag hu (hasTag_idKey _)
  have hstored_new : Stored J s' new := by
    refine ⟨hu, ?_⟩
    rw [hget, if_neg hrd, if_neg hrn, if_neg hri, if_pos rfl]
  -- a Record stored before is still stored
  have hkeep : ∀ r, Stored J stub r → Stored J s' r := by
    intro r hr
    refine ⟨hr.1, ?_⟩
    have h0 : r.recId ≠ new.recId := by
      intro h
      have := hr.2
      rw [h, habs] at this
      cases this
    rw [hget, if_neg (ne_of_hasTag hr.1 (hasTag_dateKey _)),
      if_neg (ne_of_hasTag hr.1 (hasTag_nameKey _)),
      if_neg (ne_of_hasTag hr.1 (hasTag_idKey _)), if_neg h0]
    exact hr.2
  -- a Record stored now is the new one or was stored before
  have hsplit : ∀ r, Stored J s' r → r = new ∨ Stored J stub r := by
    intro r hr
    have h2 := hr.2
    rw [hget, if_neg (ne_of_hasTag hr.1 (hasTag_dateKey _)),
      if_neg (ne_of_hasTag hr.1 (hasTag_nameKey _)),
      if_neg (ne_of_hasTag hr.1 (hasTag_idKey _))] at h2
    split_ifs at h2 with h0
    · exact Or.inl (marshalRecord_injective J (Option.some.inj h2)).symm
    · exact Or.inr ⟨hr.1, h2⟩
  refine ⟨hsorted, ?_, ?_, ?_⟩
  · intro k v hk hku
    rw [hget, if_neg (ne_of_hasTag hku (hasTag_dateKey _)),
      if_neg (ne_of_hasTag hku (hasTag_nameKey _)),
      if_neg (ne_of_hasTag hku (hasTag_idKey _))] at hk
    split_ifs at hk with h0
    · exact ⟨new, h0.symm, (Option.some.inj hk).symm, hfnew⟩
    · exact hI.primary k v hk hku
  · intro k v hk hkt
    rw [hget] at hk
    split_ifs at hk with h1 h2 h3 h4
    · exact ⟨new, hstored_new, (Option.some.inj hk).symm, Or.inr (Or.inr h1)⟩
    · exact ⟨new, hstored_new, (Option.some.inj hk).symm, Or.inr (Or.inl h2)⟩
    · exact ⟨new, hstored_new, (Option.some.inj hk).symm, Or.inl h3⟩
    · rw [h4, hu] at hkt
      cases hkt
    · obtain ⟨r, hr, hv, hkeys⟩ := hI.index k v hk hkt
      exact ⟨r, hkeep r hr, hv, hkeys⟩
  · intro r hr
    rcases hsplit r hr with rfl | hr0
    · refine ⟨?_, ?_, ?_⟩
      · rw [hget, if_neg hdi.symm, if_neg hni.symm, if_pos rfl]
      · rw [hget, if_neg hdn.symm, if_pos rfl]
      · rw [hget, if_pos rfl]
    · have h0 : r.recId ≠ new.recId := by
        intro h
        have := hr0.2
        rw [h, habs] at this
        cases this
      obtain ⟨g1, g2, g3⟩ := hI.indexed r hr0
      refine ⟨?_, ?_, ?_⟩
      · rw [hget, if_neg (idKey_ne_dateKey _ _), if_neg (idKey_ne_nameKey _ _),
          if_neg (fun h => h0 (hI.key_unique hr0 hfnew (Or.inl h))),
          if_neg (ne_of_hasTag hu (hasTag_idKey _)).symm]
        exact g1
      · rw [hget, if_neg (nameKey_ne_dateKey _ _),
          if_neg (fun h => h0 (hI.key_unique hr0 hfnew (Or.inr (Or.inl h)))),
          if_neg (idKey_ne_nameKey _ _).symm,
          if_neg (ne_of_hasTag hu (hasTag_nameKey _)).symm]
        exact g2
      · rw [hget, if_neg (fun h => h0 (hI.key_unique hr0 hfnew (Or.inr (Or.inr h)))),
          if_neg (nameKey_ne_dateKey _ _).symm, if_neg (idKey_ne_dateKey _ _).symm,
          if_neg (ne_of_hasTag hu (hasTag_dateKey _)).symm]
        exact g3

/-- A successful `addRecord` with formatted arguments keeps the invariant. -/
theorem inv_addRecord {J : Json} {F : Format} {stub : Store} (hI : Inv J F stub)
    (custId custName recOwner encFor encData t : Str)
    (hc : custId.length = F.custIdWidth) (hn : custName.length = F.custNameWidth)
    (ht : F.isDate t) (hu : hasTag (custId ++ recOwner ++ encFor) = false)
    (hok : (addRecord J stub custId custName recOwner encFor encData t).2 = none) :
    Inv J F (addRecord J stub custId custName recOwner encFor encData t).1 := by
  have habs := (addRecord_snd_none_iff J stub _ _ _ _ _ _).1 hok
  exact inv_of_insert hI (newRecord custId custName recOwner encFor encData t)
    ⟨hu, hc, hn, ht⟩ habs (KeySorted_addRecord J hI.sorted _ _ _ _ _ _)
    (GetState_addRecord J stub custId custName recOwner encFor encData t habs)

theorem updateRecord_of_stored (J : Json) (stub : Store) (rec : Record)
    (recId encData t : Str) (h : GetState recId stub = some (J.marshalRecord rec)) :
    updateRecord J stub recId encData t =
      (PutState recId (J.marshalRecord (updatedRecord rec encData t))
        (PutState (dateKey (updatedRecord rec encData t)) rec.recId
          (DelState (dateKey rec) stub)), none) := by
  simp only [updateRecord, getRecord, h, J.unmarshal_marshalRecord, updateIndex]
  rfl

theorem updateRecord_of_absent (J : Json) (stub : Store) (recId encData t : Str)
    (h : GetState recId stub = none) :
    updateRecord J stub recId encData t = (stub, some "No record with given recId") := by
  simp only [updateRecord, getRecord, h]

/-- What `updateRecord` leaves under each key. -/
theorem GetState_updateRecord (J : Json) (stub : Store) (rec : Record)
    (recId encData t : Str) (h : GetState recId stub = some (J.marshalRecord rec)) (k : Str) :
    GetState k (updateRecord J stub recId encData t).1 =
      if k = recId then some (J.marshalRecord (updatedRecord rec encData t))
      else if k = dateKey (updatedRecord rec encData t) then some rec.recId
      else if k = dateKey rec then none
      else GetState k stub := by
  rw [updateRecord_of_stored J stub rec recId encData t h]
  simp only [GetState_PutState, GetState_DelState]

theorem KeySorted_updateRecord (J : Json) {stub : Store} (hs : KeySorted stub)
    (recId encData t : Str) : KeySorted (updateRecord J stub recId encData t).1 := by
  unfold updateRecord
  cases getRecord stub recId with
  | error e => exact hs
  | ok recBytes =>
    simp only
    cases J.unmarshalRecord recBytes Record.zero with
    | mk rec err =>
      cases err with
      | some e => exact hs
      | none =>
        exact KeySorted_PutState _ _ (KeySorted_PutState _ _ (KeySorted_DelState _ hs))

/-- A successful `updateRecord` of an untagged id with a formatted date keeps
the invariant. -/
theorem inv_updateRecord {J : Json} {F : Format} {stub : Store} (hI : Inv J F stub)
    (recId encData t : Str) (ht : F.isDate t) (hu : hasTag recId = false)
    (hok : (updateRecord J stub recId encData t).2 = none) :
    Inv J F (updateRecord J stub recId encData t).1 := by
  cases hg : GetState recId stub with
  | none =>
    rw [updateRecord_of_absent J stub recId encData t hg] at hok
    cases hok
  | some v =>
    obtain ⟨rec, hid, hv, hf⟩ := hI.primary recId v hg hu
    subst hv
    have hget := GetState_updateRecord J stub rec recId encData t hg
    have hsorted := KeySorted_updateRecord J hI.sorted recId encData t
    generalize (updateRecord J stub recId encData t).1 = s' at hget hsorted
    subst hid
    have hrec : Stored J stub rec := ⟨hu, hg⟩
    generalize hnew : updatedRecord rec encData t = new at hget
    have hnid : new.recId = rec.recId := by rw [← hnew]; rfl
    have hfnew : Formatted F new := by
      rw [← hnew]
      exact ⟨hu, hf.custId, hf.custName, ht⟩
    have hidk : idKey new = idKey rec := by rw [← hnew]; rfl
    have hnamek : nameKey new = nameKey rec := by rw [← hnew]; rfl
    have hstored_new : Stored J s' new := by
      refine ⟨hfnew.untagged, ?_⟩
      rw [hget, hnid, if_pos rfl]
    have hkeep : ∀ r, Stored J stub r → r.recId ≠ rec.recId → Stored J s' r := by
      intro r hr h0
      refine ⟨hr.1, ?_⟩
      rw [hget, if_neg h0, if_neg (ne_of_hasTag hr.1 (hasTag_dateKey _)),
        if_neg (ne_of_hasTag hr.1 (hasTag_dateKey _))]
      exact hr.2
    have hsplit : ∀ r, Stored J s' r → r = new ∨ (Stored J stub r ∧ r.recId ≠ rec.recId) := by
      intro r hr
      have h2 := hr.2
      rw [hget] at h2
      split_ifs at h2 with h0
      · exact Or.inl (marshalRecord_injective J (Option.some.inj h2)).symm
      · exact absurd ‹_› (ne_of_hasTag hr.1 (hasTag_dateKey _))
      · exact Or.inr ⟨⟨hr.1, h2⟩, h0⟩
    refine ⟨hsorted, ?_, ?_, ?_⟩
    · intro k v hk hku
      rw [hget] at hk
      split_ifs at hk with h0 h1 h2
      · exact ⟨new, by rw [hnid, h0], (Option.some.inj hk).symm, hfnew⟩
      · exact absurd h1 (ne_of_hasTag hku (hasTag_dateKey _))
      · exact hI.primary k v hk hku
    · intro k v hk hkt
      rw [hget] at hk
      split_ifs at hk with h0 h1 h2
      · rw [h0, hu] at hkt
        cases hkt
      · exact ⟨new, hstored_new, by rw [hnid]; exact (Option.some.inj hk).symm,
          Or.inr (Or.inr h1)⟩
      · obtain ⟨r, hr, hv, hkeys⟩ := hI.index k v hk hkt
        by_cases hrr : r.recId = rec.recId
        · have : r = rec := hr.unique hrec hrr
          subst this
          refine ⟨new, hstored_new, by rw [hnid]; exact hv, ?_⟩
          rcases hkeys with h | h | h
          · exact Or.inl (by rw [hidk]; exact h)
          · exact Or.inr (Or.inl (by rw [hnamek]; exact h))
          · exact absurd h h2
        · exact ⟨r, hkeep r hr hrr, hv, hkeys⟩
    · intro r hr
      rcases hsplit r hr with rfl | ⟨hr0, h0⟩
      · obtain ⟨g1, g2, _⟩ := hI.indexed rec hrec
        refine ⟨?_, ?_, ?_⟩
        · rw [hget, hidk, if_neg (ne_of_hasTag hu (hasTag_idKey _)).symm,
            if_neg (idKey_ne_dateKey _ _), if_neg (idKey_ne_dateKey _ _), hnid]
          exact g1
        · rw [hget, hnamek, if_neg (ne_of_hasTag hu (hasTag_nameKey _)).symm,
            if_neg (nameKey_ne_dateKey _ _), if_neg (nameKey_ne_dateKey _ _), hnid]
          exact g2
        · rw [hget, if_neg (ne_of_hasTag hu (hasTag_dateKey _)).symm, if_pos rfl, hnid]
      · obtain ⟨g1, g2, g3⟩ := hI.indexed r hr0
        refine ⟨?_, ?_, ?_⟩
        · rw [hget, if_neg (ne_of_hasTag hu (hasTag_idKey _)).symm,
            if_neg (idKey_ne_dateKey _ _), if_neg (idKey_ne_dateKey _ _)]
          exact g1
        · rw [hget, if_neg (ne_of_hasTag hu (hasTag_nameKey _)).symm,
            if_neg (nameKey_ne_dateKey _ _), if_neg (nameKey_ne_dateKey _ _)]
          exact g2
        · rw [hget, if_neg (ne_of_hasTag hu (hasTag_dateKey _)).symm,
            if_neg (fun h => h0 ((hI.key_unique hr0 hfnew (Or.inr (Or.inr h))).trans hnid)),
            if_neg (fun h => h0 (hI.key_unique hr0 hf (Or.inr (Or.inr h))))]
          exact g3

/-- Every reachable store has the index invariant. -/
theorem Reachable.inv {J : Json} {F : Format} {stub : Store} (h : Reachable J F stub) :
    Inv J F stub := by
  induction h with
  | empty => exact inv_empty J F
  | add stub custId custName recOwner encFor encData t _ hc hn ht hu hok ih =>
    exact inv_addRecord ih custId custName recOwner encFor encData t hc hn ht hu hok
  | update stub recId encData t _ ht hu hok ih =>
    exact inv_updateRecord ih recId encData t ht hu hok

/-- Counterexample to C10. After `addRecord("a", "n", "", "", ..)` and
`addRecord("", "m", "aa", "", ..)` on the empty store, both successful, the
Record with id `a` is stored and its id index key `"id" ++ "a" ++ "a"` maps to
`aa`, the id of the other Record, whose id index key `"id" ++ "" ++ "aa"` is
the same key. -/
theorem index_key_collision :
    (addRecord jsonText [] "a".toList "n".toList "".toList "".toList "e".toList
      "1".toList).2 = none ∧
    (addRecord jsonText
      (addRecord jsonText [] "a".toList "n".toList "".toList "".toList "e".toList
        "1".toList).1
      "".toList "m".toList "aa".toList "".toList "e".toList "1".toList).2 = none ∧
    getRecord
      (addRecord jsonText
        (addRecord jsonText [] "a".toList "n".toList "".toList "".toList "e".toList
          "1".toList).1
        "".toList "m".toList "aa".toList "".toList "e".toList "1".toList).1 "a".toList =
      .ok (jsonText.marshalRecord
        { recId := "a".toList, custId := "a".toList, custName := "n".toList,
          recOwner := "".toList, encFor := "".toList, encData := "e".toList,
          dateCreated := "1".toList, dateModified := "1".toList }) ∧
    GetState ("id".toList ++ "a".toList ++ "a".toList)
      (addRecord jsonText
        (addRecord jsonText [] "a".toList "n".toList "".toList "".toList "e".toList
          "1".toList).1
        "".toList "m".toList "aa".toList "".toList "e".toList "1".toList).1 =
      some "aa".toList ∧
    "aa".toList ≠ "a".toList := by
  refine ⟨rfl, rfl, rfl, rfl, by decide⟩

/-- C10, amended (Record index invariant under a fixed-width format). In every
store reachable from the empty store by successful `addRecord` and
`updateRecord` calls whose `custId`, `custName` and dates have fixed widths and
whose record ids start with no index tag: every value under an untagged key is
the encoding of a Record with that id; for every stored Record `r` the keys
`"id" ++ r.custId ++ r.recId`, `"name" ++ r.custName ++ r.recId` and
`"date" ++ r.dateModified ++ r.recId` are present and map to `r.recId`; and
every entry under a tagged key is one of these three keys of a stored Record
and holds that Record's id. -/
theorem reachable_index_invariant (J : Json) (F : Format) (stub : Store)
    (h : Reachable J F stub) :
    (∀ k v, GetState k stub = some v → hasTag k = false →
      ∃ r : Record, r.recId = k ∧ v = J.marshalRecord r) ∧
    (∀ r : Record, hasTag r.recId = false →
      GetState r.recId stub = some (J.marshalRecord r) →
      GetState ("id".toList ++ r.custId ++ r.recId) stub = some r.recId ∧
      GetState ("name".toList ++ r.custName ++ r.recId) stub = some r.recId ∧
      GetState ("date".toList ++ r.dateModified ++ r.recId) stub = some r.recId) ∧
    (∀ k v, GetState k stub = some v → hasTag k = true →
      ∃ r : Record, hasTag r.recId = false ∧
        GetState r.recId stub = some (J.marshalRecord r) ∧ v = r.recId ∧
        (k = "id".toList ++ r.custId ++ r.recId ∨ k = "name".toList ++ r.custName ++ r.recId ∨
          k = "date".toList ++ r.dateModified ++ r.recId)) := by
  have hI := h.inv
  refine ⟨?_, ?_, ?_⟩
  · intro k v hk hu
    obtain ⟨r, h1, h2, _⟩ := hI.primary k v hk hu
    exact ⟨r, h1, h2⟩
  · intro r hu hr
    exact hI.indexed r ⟨hu, hr⟩
  · intro k v hk ht
    obtain ⟨r, hr, hv, hkeys⟩ := hI.index k v hk ht
    exact ⟨r, hr.1, hr.2, hv, hkeys⟩

theorem demoStore_reachable : Reachable jsonText demoFormat demoStore :=
  Reachable.update _ _ _ _
    (Reachable.add _ _ _ _ _ _ _ Reachable.empty rfl rfl ⟨rfl, rfl⟩ rfl rfl)
    ⟨rfl, rfl⟩ rfl rfl

/-- Witness of the amended C10 on `demoStore`. -/
theorem reachable_index_invariant_witness :
    Reachable jsonText demoFormat demoStore ∧
    GetState ("date".toList ++ "20170202".toList ++ "C1bankAbankB".toList) demoStore =
      some "C1bankAbankB".toList :=
  ⟨demoStore_reachable,
    ((reachable_index_invariant jsonText demoFormat demoStore demoStore_reachable).2.1
      { recId := "C1bankAbankB".toList, custId := "C1".toList, custName := "Ann".toList,
        recOwner := "bankA".toList, encFor := "bankB".toList, encData := "f".toList,
        dateCreated := "20170101".toList, dateModified := "20170202".toList }
      rfl rfl).2.2⟩

/-! ### Range scans on a store with the invariant -/

theorem leB_trans {a b c : Str} (h1 : leB a b = true) (h2 : leB b c = true) :
    leB a c = true := by
  simp only [leB, Bool.not_eq_true'] at h1 h2 ⊢
  cases hca : ltB c a with
  | false => rfl
  | true =>
    cases hcb : ltB b c with
    | true => rw [ltB_trans hcb hca] at h1; cases h1
    | false =>
      have := ltB_total hcb h2
      subst this
      rw [hca] at h1
      cases h1

/-- A key in the range from `p ++ a` to `p ++ b` starts with `p`. -/
theorem prefix_of_range {p a b k : Str} (h1 : leB (p ++ a) k = true)
    (h2 : ltB k (p ++ b) = true) : ∃ y, k = p ++ y :=
  prefix_of_between b (leB_trans (leB_append_self p a) h1) h2

/-- Comparing a date with a key remainder that starts with a date of the same width. -/
theorem leB_date_append {D d : Str} (h : D.length = d.length) (x : Str) :
    leB D (d ++ x) = leB D d := by
  have h1 := ltB_append_of_length h.symm x []
  simp only [List.append_nil, ltB_nil_right, Bool.and_false, Bool.or_false] at h1
  simp only [leB, h1]

theorem exists_forall₂ {α β : Type} {R : α → β → Prop} :
    ∀ (l : List α), (∀ a ∈ l, ∃ b, R a b) → ∃ l', List.Forall₂ R l l'
  | [], _ => ⟨[], List.Forall₂.nil⟩
  | a :: l, h => by
    obtain ⟨b, hb⟩ := h a (List.mem_cons_self _ _)
    obtain ⟨l', hl'⟩ := exists_forall₂ l (fun x hx => h x (List.mem_cons_of_mem _ hx))
    exact ⟨b :: l', List.Forall₂.cons hb hl'⟩

theorem forall₂_mem_left {α β : Type} {R : α → β → Prop} {l : List α} {l' : List β}
    (h : List.Forall₂ R l l') {a : α} (ha : a ∈ l) : ∃ b ∈ l', R a b := by
  induction h with
  | nil => cases ha
  | cons hab _ ih =>
    rcases List.mem_cons.1 ha with rfl | ha
    · exact ⟨_, List.mem_cons_self _ _, hab⟩
    · obtain ⟨b, hb, hR⟩ := ih ha
      exact ⟨b, List.mem_cons_of_mem _ hb, hR⟩

theorem forall₂_mem_right {α β : Type} {R : α → β → Prop} {l : List α} {l' : List β}
    (h : List.Forall₂ R l l') {b : β} (hb : b ∈ l') : ∃ a ∈ l, R a b := by
  induction h with
  | nil => cases hb
  | cons hab _ ih =>
    rcases List.mem_cons.1 hb with rfl | hb
    · exact ⟨_, List.mem_cons_self _ _, hab⟩
    · obtain ⟨a, ha, hR⟩ := ih hb
      exact ⟨a, List.mem_cons_of_mem _ ha, hR⟩

theorem forall₂_pairwise {α β : Type} {R : α → β → Prop} {P : α → α → Prop}
    {Q : β → β → Prop} (hPQ : ∀ a b a' b', R a b → R a' b' → P a a' → Q b b')
    {l : List α} {l' : List β} (h : List.Forall₂ R l l') (hp : l.Pairwise P) :
    l'.Pairwise Q := by
  induction h with
  | nil => exact List.Pairwise.nil
  | cons hab hrest ih =>
    obtain ⟨h1, h2⟩ := List.pairwise_cons.1 hp
    refine List.pairwise_cons.2 ⟨?_, ih h2⟩
    intro b' hb'
    obtain ⟨a', ha', hR⟩ := forall₂_mem_right hrest hb'
    exact hPQ _ _ _ _ hab hR (h1 a' ha')

/-- The loop of `searchIndex` over entries that lead to stored Records returns
these Records, in the order of the entries. -/
theorem searchLoop_hydrates (J : Json) (stub : Store) {es : List (Str × Str)}
    {rs : List Record} (h : List.Forall₂ (Hydrates J stub) es rs)
    (results : RecordList) (currRec : Record) :
    searchLoop J stub es results currRec =
      .ok { numEntries := results.numEntries + rs.length, records := results.records ++ rs } := by
  induction h generalizing results currRec with
  | nil => simp [searchLoop]
  | @cons e r es rs her _ ih =>
    obtain ⟨k, v⟩ := e
    obtain ⟨_, hv, hr⟩ := her
    simp only at hv
    subst hv
    simp only [searchLoop, getRecord, hr.2, J.unmarshal_marshalRecord, ih,
      List.length_cons, List.append_assoc, List.singleton_append]
    congr 2
    omega

/-- The loop of `getRecordsAfterDate` over entries that lead to stored Records
returns these Records, in the order of the entries. -/
theorem afterDateLoop_hydrates (J : Json) (stub : Store) {es : List (Str × Str)}
    {rs : List Record} (h : List.Forall₂ (Hydrates J stub) es rs)
    (results : RecordList) (currRec : Record) :
    afterDateLoop J stub es results currRec =
      .ok { numEntries := results.numEntries + rs.length, records := results.records ++ rs } := by
  induction h generalizing results currRec with
  | nil => simp [afterDateLoop]
  | @cons e r es rs her _ ih =>
    obtain ⟨k, v⟩ := e
    obtain ⟨_, hv, hr⟩ := her
    simp only at hv
    subst hv
    simp only [afterDateLoop, getRecord, hr.2, J.unmarshal_marshalRecord, ih,
      List.length_cons, List.append_assoc, List.singleton_append]
    congr 2
    omega

theorem dateKey_eq (r : Record) : dateKey r = "date".toList ++ (r.dateModified ++ r.recId) := by
  rw [dateKey, List.append_assoc]

/-! ### Records on or after a date -/

theorem nines_toList : "99999999999999999999999999".toList = List.replicate 26 '9' := rfl

/-- A digit string other than the all-nines string is below it. -/
theorem ltB_nines : ∀ (d : Str), d.all digit = true → d ≠ List.replicate d.length '9' →
    ltB d (List.replicate d.length '9') = true
  | [], _, h => absurd rfl h
  | c :: cs, hd, hne => by
    simp only [List.all_cons, Bool.and_eq_true] at hd
    simp only [List.length_cons, List.replicate_succ, ltB_cons_cons]
    have h9 : ('9' : Char).toNat = 57 := rfl
    have hc : c.toNat ≤ 57 := by
      have := hd.1
      simp only [digit, decide_eq_true_eq] at this
      exact this.2
    rw [h9]
    split_ifs with h1 h2
    · rfl
    · have hc9 : c = '9' := char_eq_of_toNat (h2.trans h9.symm)
      apply ltB_nines cs hd.2
      intro h
      apply hne
      rw [hc9, List.length_cons, List.replicate_succ, ← h]
    · omega

theorem dateThenId_irrefl (a : Record) : ¬ dateThenId a a := by
  rintro (h | ⟨_, h⟩) <;> rw [ltB_irrefl] at h <;> cases h

theorem dateThenId_asymm {a b : Record} (h : dateThenId a b) : ¬ dateThenId b a := by
  rintro (h' | ⟨e', h'⟩)
  · rcases h with h | ⟨e, h⟩
    · rw [ltB_asymm h] at h'; cases h'
    · rw [e, ltB_irrefl] at h'; cases h'
  · rcases h with h | ⟨e, h⟩
    · rw [e', ltB_irrefl] at h; cases h
    · rw [ltB_asymm h] at h'; cases h'

/-- A list in `dateThenId` order whose members are `r2` and `r3`, `r2` first
in that order, is `[r2, r3]`. -/
theorem eq_pair_of_sorted {l : List Record} {r2 r3 : Record}
    (hp : l.Pairwise dateThenId) (hmem : ∀ r, r ∈ l ↔ r = r2 ∨ r = r3)
    (h23 : dateThenId r2 r3) : l = [r2, r3] := by
  have hne : r2 ≠ r3 := by rintro rfl; exact dateThenId_irrefl _ h23
  have key : ∀ a b, (a = r2 ∨ a = r3) → (b = r2 ∨ b = r3) → dateThenId a b →
      a = r2 ∧ b = r3 := by
    rintro a b (rfl | rfl) (rfl | rfl) hab
    · exact absurd hab (dateThenId_irrefl _)
    · exact ⟨rfl, rfl⟩
    · exact absurd hab (dateThenId_asymm h23)
    · exact absurd hab (dateThenId_irrefl _)
  match l, hp, hmem with
  | [], _, hmem => exact absurd ((hmem r2).2 (Or.inl rfl)) (List.not_mem_nil _)
  | [a], _, hmem =>
    have h2 := (hmem r2).2 (Or.inl rfl)
    have h3 := (hmem r3).2 (Or.inr rfl)
    simp only [List.mem_singleton] at h2 h3
    exact absurd (h2.trans h3.symm) hne
  | a :: b :: rest, hp, hmem =>
    obtain ⟨ha, hp'⟩ := List.pairwise_cons.1 hp
    obtain ⟨hb, _⟩ := List.pairwise_cons.1 hp'
    have hab := key a b ((hmem a).1 (by simp)) ((hmem b).1 (by simp))
      (ha b (List.mem_cons_self _ _))
    obtain ⟨rfl, rfl⟩ := hab
    cases rest with
    | nil => rfl
    | cons c rest =>
      have hbc := key b c ((hmem b).1 (by simp)) ((hmem c).1 (by simp))
        (hb c (List.mem_cons_self _ _))
      exact absurd hbc.1 hne.symm

/-- The date index keys of two Records with dates of the same width compare
like the Records in `dateThenId` order. -/
theorem dateThenId_of_keys {a b : Record}
    (hw : a.dateModified.length = b.dateModified.length)
    (h : ltB (dateKey a) (dateKey b) = true) : dateThenId a b := by
  rw [dateKey_eq, dateKey_eq, ltB_append_left, ltB_append_of_length hw] at h
  simp only [Bool.or_eq_true, Bool.and_eq_true, decide_eq_true_eq] at h
  exact h

/-- C13 at a failing input. In `clobbered` the date entry `date1idaa` names the
id `idaa`, whose value is the bytes `a` and decodes as no Record.
`getRecordsAfterDate "1"` drops the error of `json.Unmarshal` and returns a
list of two entries in which the Record `a`, decoded in the step before,
stands in for `idaa`. -/
theorem getRecordsAfterDate_keeps_undecodable :
    GetState "date1idaa".toList clobbered = some "idaa".toList ∧
    GetState "idaa".toList clobbered = some "a".toList ∧
    (jsonText.unmarshalRecord "a".toList Record.zero).2 = some "invalid character" ∧
    getRecordsAfterDate jsonText clobbered "1".toList =
      .ok (jsonText.marshalRecordList
        { numEntries := 2,
          records :=
            [newRecord "a".toList "n".toList "".toList "".toList "e".toList "1".toList,
             newRecord "a".toList "n".toList "".toList "".toList "e".toList "1".toList] }) := by
  refine ⟨rfl, rfl, rfl, rfl⟩

/-! ### Updating a Record -/

/-- C17 (update of a missing Record). When no value is stored under `recId`,
`updateRecord` returns `No record with given recId` and hands back the store
it was given: nothing is created, deleted or written. -/
theorem updateRecord_missing (J : Json) (stub : Store) (recId encData dateModified : Str)
    (h : GetState recId stub = none) :
    updateRecord J stub recId encData dateModified =
      (stub, some "No record with given recId") := by
  simp only [updateRecord, getRecord, h]

/-- Witness of C17: an update on the one-Record store of an id that is not there. -/
theorem updateRecord_missing_witness :
    updateRecord jsonText demoStore "C9bankAbankB".toList "f".toList "20170303".toList =
      (demoStore, some "No record with given recId") :=
  updateRecord_missing jsonText demoStore "C9bankAbankB".toList "f".toList
    "20170303".toList rfl

/-! ### The number of entries -/

theorem searchLoop_count (J : Json) (stub : Store) :
    ∀ (es : List (Str × Str)) (results : RecordList) (currRec : Record) (out : RecordList),
      searchLoop J stub es results currRec = .ok out →
      out.numEntries = results.numEntries + es.length ∧
      out.records.length = results.records.length + es.length
  | [], results, _, out, h => by
    simp only [searchLoop, Except.ok.injEq] at h
    subst h
    exact ⟨rfl, rfl⟩
  | (k, recId) :: rest, results, currRec, out, h => by
    simp only [searchLoop] at h
    split at h
    · cases h
    · split at h
      · cases h
      · obtain ⟨h1, h2⟩ := searchLoop_count J stub rest _ _ out h
        simp only [List.length_append, List.length_cons, List.length_nil] at h1 h2 ⊢
        omega

theorem afterDateLoop_count (J : Json) (stub : Store) :
    ∀ (es : List (Str × Str)) (results : RecordList) (currRec : Record) (out : RecordList),
      afterDateLoop J stub es results currRec = .ok out →
      out.numEntries = results.numEntries + es.length ∧
      out.records.length = results.records.length + es.length
  | [], results, _, out, h => by
    simp only [afterDateLoop, Except.ok.injEq] at h
    subst h
    exact ⟨rfl, rfl⟩
  | (k, recId) :: rest, results, currRec, out, h => by
    simp only [afterDateLoop] at h
    split at h
    · cases h
    · obtain ⟨h1, h2⟩ := afterDateLoop_count J stub rest _ _ out h
      simp only [List.length_append, List.length_cons, List.length_nil] at h1 h2 ⊢
      omega

/-! ### The frame of `addRecord` and `updateRecord` -/

/-- Counterexample to C16. (1) The Record `idaa` is stored, then `addRecord`
for the other Record `a` succeeds: its index write under `"id" ++ "a" ++ "a"`
lands on the key `idaa`, whose value is now the bytes `a`. (2) The Record
`date2a` is stored; two successful `updateRecord` calls on the other Record `a`
first write, then delete the date key `"date" ++ "2" ++ "a"`: no value is left
under `date2a`. -/
theorem index_write_hits_other_record :
    GetState "idaa".toList
      (addRecord jsonText [] "idaa".toList "m".toList "".toList "".toList "e".toList
        "1".toList).1 =
      some (jsonText.marshalRecord
        (newRecord "idaa".toList "m".toList "".toList "".toList "e".toList "1".toList)) ∧
    (addRecord jsonText
      (addRecord jsonText [] "idaa".toList "m".toList "".toList "".toList "e".toList
        "1".toList).1
      "a".toList "n".toList "".toList "".toList "e".toList "1".toList).2 = none ∧
    GetState "idaa".toList clobbered = some "a".toList ∧
    GetState "date2a".toList
      (addRecord jsonText
        (addRecord jsonText [] "a".toList "n".toList "".toList "".toList "e".toList
          "1".toList).1
        "date2a".toList "m".toList "".toList "".toList "e".toList "1".toList).1 =
      some (jsonText.marshalRecord
        (newRecord "date2a".toList "m".toList "".toList "".toList "e".toList "1".toList)) ∧
    (updateRecord jsonText
      (addRecord jsonText
        (addRecord jsonText [] "a".toList "n".toList "".toList "".toList "e".toList
          "1".toList).1
        "date2a".toList "m".toList "".toList "".toList "e".toList "1".toList).1
      "a".toList "f".toList "2".toList).2 = none ∧
    (updateRecord jsonText
      (updateRecord jsonText
        (addRecord jsonText
          (addRecord jsonText [] "a".toList "n".toList "".toList "".toList "e".toList
            "1".toList).1
          "date2a".toList "m".toList "".toList "".toList "e".toList "1".toList).1
        "a".toList "f".toList "2".toList).1
      "a".toList "g".toList "3".toList).2 = none ∧
    GetState "date2a".toList dateClash = none := by
  refine ⟨rfl, rfl, rfl, rfl, rfl, rfl, rfl⟩

/-- C16, amended (frame of `addRecord` and `updateRecord`). For every store:
`addRecord` leaves the value under every key other than the new `recId` and the
new Record's three index keys as it was; `updateRecord recId`, when the value
under `recId` decodes to `rec`, leaves the value under every key other than
`recId`, the old date key `"date" ++ rec.dateModified ++ rec.recId` and the new
date key as it was; so either call, successful or not, leaves the value under
every key that starts with no index tag and is not the id acted on, present
and unchanged. -/
theorem other_keys_unchanged (J : Json) (stub : Store) :
    (∀ (custId custName recOwner encFor encData t k : Str),
      k ≠ custId ++ recOwner ++ encFor →
      k ≠ "id".toList ++ custId ++ (custId ++ recOwner ++ encFor) →
      k ≠ "name".toList ++ custName ++ (custId ++ recOwner ++ encFor) →
      k ≠ "date".toList ++ t ++ (custId ++ recOwner ++ encFor) →
      GetState k (addRecord J stub custId custName recOwner encFor encData t).1 =
        GetState k stub) ∧
    (∀ (recId encData t recBytes k : Str) (rec : Record),
      GetState recId stub = some recBytes →
      J.unmarshalRecord recBytes Record.zero = (rec, none) →
      k ≠ recId →
      k ≠ "date".toList ++ rec.dateModified ++ rec.recId →
      k ≠ "date".toList ++ t ++ rec.recId →
      GetState k (updateRecord J stub recId encData t).1 = GetState k stub) ∧
    (∀ k : Str, hasTag k = false →
      (∀ (custId custName recOwner encFor encData t : Str),
        k ≠ custId ++ recOwner ++ encFor →
        GetState k (addRecord J stub custId custName recOwner encFor encData t).1 =
          GetState k stub) ∧
      (∀ (recId encData t : Str), k ≠ recId →
        GetState k (updateRecord J stub recId encData t).1 = GetState k stub)) := by
  have hupd : ∀ (recId encData t recBytes k : Str) (rec : Record),
      GetState recId stub = some recBytes →
      J.unmarshalRecord recBytes Record.zero = (rec, none) →
      k ≠ recId →
      k ≠ "date".toList ++ rec.dateModified ++ rec.recId →
      k ≠ "date".toList ++ t ++ rec.recId →
      GetState k (updateRecord J stub recId encData t).1 = GetState k stub := by
    intro recId encData t recBytes k rec hg hdec h0 h1 h2
    simp only [updateRecord, getRecord, hg, hdec, updateIndex]
    rw [GetState_PutState_ne h0, GetState_PutState_ne h2, GetState_DelState_ne h1]
  refine ⟨?_, hupd, ?_⟩
  · intro custId custName recOwner encFor encData t k h0 h1 h2 h3
    exact GetState_addRecord_other J stub custId custName recOwner encFor encData t h0 h1 h2 h3
  · intro k hk
    have hkd : ∀ x : Str, k ≠ "date".toList ++ x := fun x =>
      ne_of_hasTag hk (hasTag_date_append x)
    constructor
    · intro custId custName recOwner encFor encData t h0
      refine GetState_addRecord_other J stub custId custName recOwner encFor encData t h0
        ?_ ?_ ?_
      · exact ne_of_hasTag hk
          (hasTag_idKey (newRecord custId custName recOwner encFor encData t))
      · exact ne_of_hasTag hk
          (hasTag_nameKey (newRecord custId custName recOwner encFor encData t))
      · exact ne_of_hasTag hk
          (hasTag_dateKey (newRecord custId custName recOwner encFor encData t))
    · intro recId encData t h0
      cases hg : GetState recId stub with
      | none => rw [updateRecord_of_absent J stub recId encData t hg]
      | some recBytes =>
        cases hdec : J.unmarshalRecord recBytes Record.zero with
        | mk rec err =>
          cases err with
          | none =>
            refine hupd recId encData t recBytes k rec hg hdec h0 ?_ ?_
            · rw [List.append_assoc]; exact hkd _
            · rw [List.append_assoc]; exact hkd _
          | some e => simp only [updateRecord, getRecord, hg, hdec]

/-- Witness of the amended C16: in `threeRecords`, built by three `addRecord`
calls and an `updateRecord` of `C2`, the Record of `C1` is as the first call
stored it. -/
theorem other_keys_unchanged_witness :
    GetState "C1bankAbankB".toList
      (updateRecord jsonText
        (addRecord jsonText
          (addRecord jsonText
            (addRecord jsonText [] "C1".toList "Ann".toList "bankA".toList "bankB".toList
              "e".toList "20170101".toList).1
            "C2".toList "Bob".toList "bankA".toList "bankB".toList "e".toList
            "20170101".toList).1
          "C3".toList "Cyd".toList "bankA".toList "bankB".toList "e".toList
          "20170303".toList).1
        "C2bankAbankB".toList "f".toList "20170202".toList).1 =
    GetState "C1bankAbankB".toList
      (addRecord jsonText
        (addRecord jsonText
          (addRecord jsonText [] "C1".toList "Ann".toList "bankA".toList "bankB".toList
            "e".toList "20170101".toList).1
          "C2".toList "Bob".toList "bankA".toList "bankB".toList "e".toList
          "20170101".toList).1
        "C3".toList "Cyd".toList "bankA".toList "bankB".toList "e".toList
        "20170303".toList).1 :=
  ((other_keys_unchanged jsonText _).2.2 "C1bankAbankB".toList rfl).2
    "C2bankAbankB".toList "f".toList "20170202".toList (by decide)

/-! ### The invariant of the date index -/

theorem hasDateTag_date_append (x : Str) : hasDateTag ("date".toList ++ x) = true := by
  simp [hasDateTag, date_toList, List.isPrefixOf]

theorem hasDateTag_dateKey (r : Record) : hasDateTag (dateKey r) = true := by
  rw [dateKey, List.append_assoc]
  exact hasDateTag_date_append _

theorem hasDateTag_idKey (r : Record) : hasDateTag (idKey r) = false := by
  simp [hasDateTag, idKey, date_toList, id_toList, List.isPrefixOf]

theorem hasDateTag_nameKey (r : Record) : hasDateTag (nameKey r) = false := by
  simp [hasDateTag, nameKey, date_toList, name_toList, List.isPrefixOf]

theorem hasDateTag_of_hasTag {k : Str} (h : hasTag k = false) : hasDateTag k = false := by
  simp only [hasTag, Bool.or_eq_false_iff] at h
  exact h.2

theorem ne_of_hasDateTag {a b : Str} (ha : hasDateTag a = false) (hb : hasDateTag b = true) :
    a ≠ b := by
  rintro rfl
  rw [ha] at hb
  cases hb

/-- Two date keys with dates of the same width are the same key only for the
same date and the same id. -/
theorem date_key_inj {d d' x x' : Str} (hw : d.length = d'.length)
    (h : "date".toList ++ d ++ x = "date".toList ++ d' ++ x') : d = d' ∧ x = x' := by
  simp only [List.append_assoc, List.append_cancel_left_eq] at h
  exact List.append_inj h hw

theorem DateInv.date_of_stored {J : Json} {wd : Nat} {ok idOk : Str → Bool} {stub : Store}
    (hI : DateInv J wd ok idOk stub) {r : Record} (h : Stored J stub r) :
    IsDate wd ok r.dateModified := by
  obtain ⟨r', _, h2, h3⟩ := hI.primary _ _ h.2 h.1
  rw [marshalRecord_injective J h2]
  exact h3

theorem dateInv_empty (J : Json) (wd : Nat) (ok idOk : Str → Bool) :
    DateInv J wd ok idOk [] where
  sorted := KeySorted_nil
  primary := by intro k v h; simp [GetState] at h
  entry := by intro k v h; simp [GetState] at h
  indexed := by intro r h; have := h.2; simp [GetState] at this

/-- A successful `addRecord` with a date of the format and an id that does not
start with `date` keeps the invariant of the date index. -/
theorem dateInv_addRecord {J : Json} {wd : Nat} {ok idOk : Str → Bool} {stub : Store}
    (hI : DateInv J wd ok idOk stub)
    (custId custName recOwner encFor encData t : Str) (ht : IsDate wd ok t)
    (hu : hasDateTag (custId ++ recOwner ++ encFor) = false)
    (hid : idOk (custId ++ recOwner ++ encFor) = true)
    (hok : (addRecord J stub custId custName recOwner encFor encData t).2 = none) :
    DateInv J wd ok idOk (addRecord J stub custId custName recOwner encFor encData t).1 := by
  have habs := (addRecord_snd_none_iff J stub _ _ _ _ _ _).1 hok
  have hget := GetState_addRecord J stub custId custName recOwner encFor encData t habs
  have hsorted := KeySorted_addRecord J hI.sorted custId custName recOwner encFor encData t
  generalize (addRecord J stub custId custName recOwner encFor encData t).1 = s' at hget hsorted
  generalize hnew : newRecord custId custName recOwner encFor encData t = new at hget
  have hrid : new.recId = custId ++ recOwner ++ encFor := by rw [← hnew]; rfl
  have hdate : new.dateModified = t := by rw [← hnew]; rfl
  rw [← hrid] at hget habs hu hid
  have hrd : new.recId ≠ dateKey new := ne_of_hasDateTag hu (hasDateTag_dateKey _)
  have hrn : new.recId ≠ nameKey new := (tagged_ne_self _ _ _ (by decide)).symm
  have hri : new.recId ≠ idKey new := (tagged_ne_self _ _ _ (by decide)).symm
  have hself : GetState new.recId s' = some (J.marshalRecord new) := by
    rw [hget, if_neg hrd, if_neg hrn, if_neg hri, if_pos rfl]
  have hkeep : ∀ r, Stored J stub r → Stored J s' r := by
    intro r hr
    refine ⟨hr.1, ?_⟩
    have h0 : r.recId ≠ new.recId := by
      intro h
      have := hr.2
      rw [h, habs] at this
      cases this
    rw [hget, if_neg (ne_of_hasTag hr.1 (hasTag_dateKey _)),
      if_neg (ne_of_hasTag hr.1 (hasTag_nameKey _)),
      if_neg (ne_of_hasTag hr.1 (hasTag_idKey _)), if_neg h0]
    exact hr.2
  refine ⟨hsorted, ?_, ?_, ?_⟩
  · intro k v hk hku
    rw [hget, if_neg (ne_of_hasTag hku (hasTag_dateKey _)),
      if_neg (ne_of_hasTag hku (hasTag_nameKey _)),
      if_neg (ne_of_hasTag hku (hasTag_idKey _))] at hk
    split_ifs at hk with h0
    · exact ⟨new, h0.symm, (Option.some.inj hk).symm, by rw [hdate]; exact ht⟩
    · exact hI.primary k v hk hku
  · intro k v hk hkt
    rw [hget] at hk
    split_ifs at hk with h1 h2 h3 h4
    · have hv : v = new.recId := (Option.some.inj hk).symm
      refine ⟨t, ?_, ht, by rw [hv]; exact hid, ?_⟩
      · rw [h1, hv, dateKey, hdate]
      · intro hvu
        exact ⟨new, ⟨by rw [← hv]; exact hvu, hself⟩, hv.symm, hdate⟩
    · rw [h2, hasDateTag_nameKey] at hkt
      cases hkt
    · rw [h3, hasDateTag_idKey] at hkt
      cases hkt
    · rw [h4, hu] at hkt
      cases hkt
    · obtain ⟨d, hkd, hd, hvid, hst⟩ := hI.entry k v hk hkt
      refine ⟨d, hkd, hd, hvid, ?_⟩
      intro hvu
      obtain ⟨r, hr, hrv, hrd'⟩ := hst hvu
      exact ⟨r, hkeep r hr, hrv, hrd'⟩
  · intro r hr
    have h2 := hr.2
    rw [hget, if_neg (ne_of_hasTag hr.1 (hasTag_dateKey _)),
      if_neg (ne_of_hasTag hr.1 (hasTag_nameKey _)),
      if_neg (ne_of_hasTag hr.1 (hasTag_idKey _))] at h2
    split_ifs at h2 with h0
    · have : r = new := (marshalRecord_injective J (Option.some.inj h2)).symm
      subst this
      rw [hget, if_pos rfl]
    · have hr0 : Stored J stub r := ⟨hr.1, h2⟩
      have g := hI.indexed r hr0
      rw [hget]
      split_ifs with e1 e2 e3 e4
      · have := (date_key_inj ((hI.date_of_stored hr0).1.trans (by rw [hdate]; exact ht.1.symm))
          e1).2
        exact absurd this h0
      · exact absurd e2 (nameKey_ne_dateKey _ _).symm
      · exact absurd e3 (idKey_ne_dateKey _ _).symm
      · exact absurd e4.symm (ne_of_hasDateTag hu (hasDateTag_dateKey _))
      · exact g

/-- An `updateRecord` of a Record stored under its id, which does not start
with `date`, from one date of the format to another keeps the invariant of the
date index. -/
theorem dateInv_updateRecord {J : Json} {wd : Nat} {ok idOk : Str → Bool} {stub : Store}
    (hI : DateInv J wd ok idOk stub) (rec : Record) (encData t : Str)
    (ht : IsDate wd ok t) (hu : hasDateTag rec.recId = false)
    (hid : idOk rec.recId = true)
    (hg : GetState rec.recId stub = some (J.marshalRecord rec))
    (hd : IsDate wd ok rec.dateModified) :
    DateInv J wd ok idOk (updateRecord J stub rec.recId encData t).1 := by
  have hget := GetState_updateRecord J stub rec rec.recId encData t hg
  have hsorted := KeySorted_updateRecord J hI.sorted rec.recId encData t
  generalize (updateRecord J stub rec.recId encData t).1 = s' at hget hsorted
  generalize hnew : updatedRecord rec encData t = new at hget
  have hnid : new.recId = rec.recId := by rw [← hnew]; rfl
  have hndate : new.dateModified = t := by rw [← hnew]; rfl
  have hself : GetState rec.recId s' = some (J.marshalRecord new) := by
    rw [hget, if_pos rfl]
  have hkeep : ∀ r, Stored J stub r → r.recId ≠ rec.recId → Stored J s' r := by
    intro r hr h0
    refine ⟨hr.1, ?_⟩
    rw [hget, if_neg h0, if_neg (ne_of_hasTag hr.1 (hasTag_dateKey _)),
      if_neg (ne_of_hasTag hr.1 (hasTag_dateKey _))]
    exact hr.2
  refine ⟨hsorted, ?_, ?_, ?_⟩
  · intro k v hk hku
    rw [hget] at hk
    split_ifs at hk with h0 h1 h2
    · exact ⟨new, by rw [hnid, h0], (Option.some.inj hk).symm, by rw [hndate]; exact ht⟩
    · exact absurd h1 (ne_of_hasTag hku (hasTag_dateKey _))
    · exact hI.primary k v hk hku
  · intro k v hk hkt
    rw [hget] at hk
    split_ifs at hk with h0 h1 h2
    · rw [h0, hu] at hkt
      cases hkt
    · have hv : v = rec.recId := (Option.some.inj hk).symm
      refine ⟨t, ?_, ht, by rw [hv]; exact hid, ?_⟩
      · rw [h1, hv, dateKey, hndate, hnid]
      · intro hvu
        exact ⟨new, ⟨by rw [hnid, ← hv]; exact hvu, by rw [hnid]; exact hself⟩,
          by rw [hnid, hv], hndate⟩
    · obtain ⟨d, hkd, hdd, hvid, hst⟩ := hI.entry k v hk hkt
      refine ⟨d, hkd, hdd, hvid, ?_⟩
      intro hvu
      obtain ⟨r, hr, hrv, hrd⟩ := hst hvu
      by_cases hrr : r.recId = rec.recId
      · have : r = rec := by
          have h1' := hr.2
          rw [hrr, hg] at h1'
          exact (marshalRecord_injective J (Option.some.inj h1')).symm
        subst this
        exfalso
        apply h2
        rw [hkd, ← hrv, ← hrd, dateKey]
      · exact ⟨r, hkeep r hr hrr, hrv, hrd⟩
  · intro r hr
    have h2 := hr.2
    rw [hget] at h2
    split_ifs at h2 with h0 h1 h1'
    · have : r = new := (marshalRecord_injective J (Option.some.inj h2)).symm
      subst this
      rw [hget, if_neg (ne_of_hasDateTag hu (hasDateTag_dateKey _)).symm, if_pos rfl, hnid]
    · exact absurd h1 (ne_of_hasTag hr.1 (hasTag_dateKey _))
    · have hr0 : Stored J stub r := ⟨hr.1, h2⟩
      have g := hI.indexed r hr0
      have hw := (hI.date_of_stored hr0).1
      rw [hget, if_neg (ne_of_hasDateTag hu (hasDateTag_dateKey _)).symm]
      split_ifs with e1 e2
      · have := (date_key_inj (hw.trans (by rw [hndate]; exact ht.1.symm)) e1).2
        exact absurd (this.trans hnid) h0
      · have := (date_key_inj (hw.trans hd.1.symm) e2).2
        exact absurd this h0
      · exact g

/-- Every store reachable in the sense of `DateReachable` has the invariant of
the date index, with ids that do not start with `date`. -/
theorem DateReachable.dateInv {J : Json} {wd : Nat} {stub : Store}
    (h : DateReachable J wd stub) :
    DateInv J wd (fun _ => true) (fun k => !hasDateTag k) stub := by
  induction h with
  | empty => exact dateInv_empty J wd _ _
  | add stub custId custName recOwner encFor encData t _ ht hu hok ih =>
    exact dateInv_addRecord ih custId custName recOwner encFor encData t ⟨ht, rfl⟩ hu
      (by simp only [hu, Bool.not_false]) hok
  | update stub rec encData t _ ht hu hg hd ih =>
    exact dateInv_updateRecord ih rec encData t ⟨ht, rfl⟩ hu
      (by simp only [hu, Bool.not_false]) hg ⟨hd, rfl⟩

/-- Every store reachable in the sense of `UntaggedReachable` has the invariant
of the date index, with untagged ids. -/
theorem UntaggedReachable.untaggedInv {J : Json} {wd : Nat} {ok : Str → Bool} {stub : Store}
    (h : UntaggedReachable J wd ok stub) :
    DateInv J wd ok (fun k => !hasTag k) stub := by
  induction h with
  | empty => exact dateInv_empty J wd ok _
  | add stub custId custName recOwner encFor encData t _ ht hu hok ih =>
    exact dateInv_addRecord ih custId custName recOwner encFor encData t ht
      (hasDateTag_of_hasTag hu) (by simp only [hu, Bool.not_false]) hok
  | update stub recId encData t _ ht hu hok ih =>
    cases hg : GetState recId stub with
    | none =>
      rw [updateRecord_of_absent J stub recId encData t hg] at hok
      cases hok
    | some v =>
      obtain ⟨rec, hrid, hv, hd⟩ := ih.primary recId v hg hu
      subst hrid
      subst hv
      exact dateInv_updateRecord ih rec encData t ht (hasDateTag_of_hasTag hu)
        (by simp only [hu, Bool.not_false]) hg hd

/-! ### Range scans on a store with the invariant of the date index -/

theorem zs_toList :
    "ZZZZZZZZZZZZZZZZZZZZZZ".toList = 'Z' :: "ZZZZZZZZZZZZZZZZZZZZZ".toList := rfl

/-- An id below the run of `Z`s starts with no index tag. -/
theorem hasTag_of_lt_zs {x : Str} (h : ltB x "ZZZZZZZZZZZZZZZZZZZZZZ".toList = true) :
    hasTag x = false := by
  cases x with
  | nil => rfl
  | cons c cs =>
    rw [zs_toList, ltB_cons_cons] at h
    have hZ : ('Z' : Char).toNat = 90 := rfl
    rw [hZ] at h
    cases ht : hasTag (c :: cs) with
    | false => rfl
    | true =>
      exfalso
      simp only [hasTag, id_toList, name_toList, date_toList, List.isPrefixOf,
        Bool.or_eq_true, Bool.and_eq_true, beq_iff_eq] at ht
      have hi : ('i' : Char).toNat = 105 := rfl
      have hn : ('n' : Char).toNat = 110 := rfl
      have hd : ('d' : Char).toNat = 100 := rfl
      rcases ht with (⟨hc, _⟩ | ⟨hc, _⟩) | ⟨hc, _⟩ <;> subst hc
      · rw [hi] at h; simp at h
      · rw [hn] at h; simp at h
      · rw [hd] at h; simp at h

/-- In a store with the invariant of the date index, a binding under a key
that starts with `date` whose value is untagged is the date index entry of a
stored Record. -/
theorem DateInv.hydrates {J : Json} {wd : Nat} {ok idOk : Str → Bool} {stub : Store}
    (hI : DateInv J wd ok idOk stub) {k v : Str} (hk : GetState k stub = some v)
    (hkt : hasDateTag k = true) (hv : hasTag v = false) :
    ∃ r, Hydrates J stub (k, v) r := by
  obtain ⟨d, hkd, _, _, hst⟩ := hI.entry k v hk hkt
  obtain ⟨r, hr, hrv, hrd⟩ := hst hv
  refine ⟨r, ?_, hrv.symm, hr⟩
  simp only [hkd, dateKey, hrv, hrd]

/-- The date index entries of stored Records are read back as such. -/
theorem mem_of_entry_mem {J : Json} {stub : Store} {es : List (Str × Str)}
    {rs : List Record} (hl : List.Forall₂ (Hydrates J stub) es rs) {r : Record}
    (hs : Stored J stub r) (hmem : (dateKey r, r.recId) ∈ es) : r ∈ rs := by
  obtain ⟨r', hr', _, hid, hs'⟩ := forall₂_mem_left hl hmem
  simp only at hid
  rw [hs.unique hs' hid]
  exact hr'

/-- On a store with the invariant of the date index, `searchIndex D "date"`
succeeds; every Record it returns is stored and has `dateModified = D`; and it
returns every such Record whose id is below the run of `Z`s that closes the
range. -/
theorem DateInv.searchIndex_date {J : Json} {wd : Nat} {ok idOk : Str → Bool}
    {stub : Store} (hI : DateInv J wd ok idOk stub) (D : Str) (hD : D.length = wd) :
    ∃ l : List Record,
      searchIndex J stub D "date".toList =
        .ok (J.marshalRecordList { numEntries := l.length, records := l }) ∧
      (∀ r ∈ l, Stored J stub r ∧ r.dateModified = D) ∧
      (∀ r, Stored J stub r → r.dateModified = D →
        ltB r.recId "ZZZZZZZZZZZZZZZZZZZZZZ".toList = true → r ∈ l) := by
  have hscan : ∀ k v, (k, v) ∈ RangeQueryState ("date".toList ++ D)
      ("date".toList ++ D ++ "ZZZZZZZZZZZZZZZZZZZZZZ".toList) stub →
      GetState k stub = some v ∧ k = "date".toList ++ D ++ v ∧
        ltB v "ZZZZZZZZZZZZZZZZZZZZZZ".toList = true := by
    intro k v he
    obtain ⟨hk, h1, h2⟩ := (mem_RangeQueryState hI.sorted _ _ k v).1 he
    obtain ⟨y, hy⟩ := prefix_of_between _ h1 h2
    have hkt : hasDateTag k = true := by
      rw [hy, List.append_assoc]; exact hasDateTag_date_append _
    obtain ⟨d, hkd, hd, _, _⟩ := hI.entry k v hk hkt
    have hyv := date_key_inj (hD.trans hd.1.symm) (hy.symm.trans hkd)
    rw [hy, hyv.2, ltB_append_left] at h2
    exact ⟨hk, by rw [hy, hyv.2], h2⟩
  obtain ⟨l, hl⟩ : ∃ l, List.Forall₂ (Hydrates J stub)
      (RangeQueryState ("date".toList ++ D)
        ("date".toList ++ D ++ "ZZZZZZZZZZZZZZZZZZZZZZ".toList) stub) l := by
    apply exists_forall₂
    rintro ⟨k, v⟩ he
    obtain ⟨hk, hkd, hz⟩ := hscan k v he
    exact hI.hydrates hk (by rw [hkd, List.append_assoc]; exact hasDateTag_date_append _)
      (hasTag_of_lt_zs hz)
  have hidx : indexToSearch "date".toList = some "date".toList := rfl
  refine ⟨l, ?_, ?_, ?_⟩
  · simp only [searchIndex, hidx, searchLoop_hydrates J stub hl, RecordList.zero,
      Nat.zero_add, List.nil_append]
  · intro r hr
    obtain ⟨⟨k, v⟩, he, hk, hv, hs⟩ := forall₂_mem_right hl hr
    refine ⟨hs, ?_⟩
    obtain ⟨_, hkd, _⟩ := hscan k v he
    simp only at hk hv
    rw [hk, hv] at hkd
    exact (date_key_inj ((hI.date_of_stored hs).1.trans hD.symm) hkd).1
  · intro r hs hd hz
    apply mem_of_entry_mem hl hs
    refine (mem_RangeQueryState hI.sorted _ _ _ _).2 ⟨hI.indexed r hs, ?_, ?_⟩
    · rw [dateKey, hd]
      exact leB_append_self _ _
    · rw [dateKey, hd, ltB_append_left]
      exact hz

theorem mixedWidths_dateReachable : DateReachable jsonText 8 mixedWidths :=
  DateReachable.add _ _ _ _ _ _ _
    (DateReachable.add _ _ _ _ _ _ _ DateReachable.empty rfl rfl rfl)
    rfl rfl rfl

/-! ### Searching the date index after an update -/

set_option maxRecDepth 100000 in
/-- Counterexample to C4, in three cases. (1) The Record with id `date2` is
added on date `1`, then the Record with id `A`, which is updated to date `2`.
The scan of `searchIndex "2" "date"` starts at the key `date2`, which is the
first Record's own key: its value is taken for a record id, no Record is found
under it, and the search returns an error instead of the updated Record.
(2) In `strayEntry` an `updateRecord` on an index key, whose value decodes as
a Record with another id, has left the date entry `date2X` of no stored
Record; the Record `A` is stored with date `2`, and `searchIndex "2" "date"`
returns an error. (3) In `mixedDates` the dates have two widths: the scan of
`searchIndex "2idab" "date"` starts at the date entry of the Record `idab`
dated `2`, whose value was overwritten by an id index entry, and the search
returns an error instead of the Record `T`, stored with date `2idab`. -/
theorem searchIndex_date_hits_primary_key :
    ((addRecord jsonText [] "date2".toList "n".toList "".toList "".toList "e".toList
      "1".toList).2 = none ∧
    (addRecord jsonText
      (addRecord jsonText [] "date2".toList "n".toList "".toList "".toList "e".toList
        "1".toList).1
      "A".toList "n".toList "".toList "".toList "e".toList "1".toList).2 = none ∧
    (updateRecord jsonText
      (addRecord jsonText
        (addRecord jsonText [] "date2".toList "n".toList "".toList "".toList "e".toList
          "1".toList).1
        "A".toList "n".toList "".toList "".toList "e".toList "1".toList).1
      "A".toList "f".toList "2".toList).2 = none ∧
    searchIndex jsonText
      (updateRecord jsonText
        (addRecord jsonText
          (addRecord jsonText [] "date2".toList "n".toList "".toList "".toList "e".toList
            "1".toList).1
          "A".toList "n".toList "".toList "".toList "e".toList "1".toList).1
        "A".toList "f".toList "2".toList).1
      "2".toList "date".toList = .error "No record with given recId") ∧
    (GetState "date2X".toList strayEntry = some "X".toList ∧
    GetState "X".toList strayEntry = none ∧
    getRecord strayEntry "A".toList =
      .ok (jsonText.marshalRecord
        (updatedRecord
          (newRecord "A".toList "n".toList "".toList "".toList "e".toList "1".toList)
          "f".toList "2".toList)) ∧
    searchIndex jsonText strayEntry "2".toList "date".toList =
      .error "No record with given recId") ∧
    (GetState "date2idab".toList mixedDates = some "idab".toList ∧
    GetState "idab".toList mixedDates = some "ab".toList ∧
    getRecord mixedDates "T".toList =
      .ok (jsonText.marshalRecord
        (updatedRecord
          (newRecord "T".toList "n".toList "".toList "".toList "e".toList "1idab".toList)
          "f".toList "2idab".toList)) ∧
    searchIndex jsonText mixedDates "2idab".toList "date".toList =
      .error "Failed Iterating") := by
  refine ⟨⟨rfl, rfl, rfl, rfl⟩, ⟨rfl, rfl, rfl, rfl⟩, ⟨rfl, rfl, rfl, rfl⟩⟩

/-- C4, amended (reindexing on update, with dates of one width). Let the store
be reachable from the empty store by `addRecord` and `updateRecord` calls with
dates of one width, where no record id starts with `date`, every `addRecord`
succeeds and every `updateRecord` acts on an id under which a Record with that
id and a date of that width is stored. Let `addRecord` with
`dateCreated = D1` of that width and a `recId` that does not start with `date`
succeed on it, and let `D2` be another date of that width. Then
`updateRecord recId newEnc D2` succeeds; `searchIndex D1 "date"` on the
resulting store succeeds and returns no Record with that `recId`; and if
`recId` is below `ZZZZZZZZZZZZZZZZZZZZZZ`, `searchIndex D2 "date"` succeeds
and returns the Record with `encData = newEnc` and `dateModified = D2`. -/
theorem searchIndex_date_after_update (J : Json) (wd : Nat)
    (stub : Store) (h : DateReachable J wd stub)
    (custId custName recOwner encFor encData D1 newEnc D2 : Str)
    (hD1 : D1.length = wd) (hD2 : D2.length = wd)
    (hu : hasDateTag (custId ++ recOwner ++ encFor) = false)
    (hadd : (addRecord J stub custId custName recOwner encFor encData D1).2 = none)
    (hne : D1 ≠ D2) :
    (updateRecord J (addRecord J stub custId custName recOwner encFor encData D1).1
      (custId ++ recOwner ++ encFor) newEnc D2).2 = none ∧
    (∃ l1 : List Record,
      searchIndex J
        (updateRecord J (addRecord J stub custId custName recOwner encFor encData D1).1
          (custId ++ recOwner ++ encFor) newEnc D2).1 D1 "date".toList =
        .ok (J.marshalRecordList { numEntries := l1.length, records := l1 }) ∧
      ∀ r ∈ l1, r.recId ≠ custId ++ recOwner ++ encFor) ∧
    (ltB (custId ++ recOwner ++ encFor) "ZZZZZZZZZZZZZZZZZZZZZZ".toList = true →
      ∃ l2 : List Record,
        searchIndex J
          (updateRecord J (addRecord J stub custId custName recOwner encFor encData D1).1
            (custId ++ recOwner ++ encFor) newEnc D2).1 D2 "date".toList =
          .ok (J.marshalRecordList { numEntries := l2.length, records := l2 }) ∧
        { recId := custId ++ recOwner ++ encFor, custId := custId, custName := custName,
          recOwner := recOwner, encFor := encFor, encData := newEnc, dateCreated := D1,
          dateModified := D2 } ∈ l2) := by
  have habs := (addRecord_snd_none_iff J stub _ _ _ _ _ _).1 hadd
  have hself := GetState_addRecord_self J stub custId custName recOwner encFor encData D1 habs
  have h1 : DateReachable J wd
      (addRecord J stub custId custName recOwner encFor encData D1).1 :=
    DateReachable.add _ _ _ _ _ _ _ h hD1 hu hadd
  have hupd := updateRecord_of_stored J _ _ _ newEnc D2 hself
  have hok : (updateRecord J (addRecord J stub custId custName recOwner encFor encData D1).1
      (custId ++ recOwner ++ encFor) newEnc D2).2 = none := by rw [hupd]
  have h2 : DateReachable J wd
      (updateRecord J (addRecord J stub custId custName recOwner encFor encData D1).1
        (custId ++ recOwner ++ encFor) newEnc D2).1 :=
    DateReachable.update _ (newRecord custId custName recOwner encFor encData D1) newEnc D2
      h1 hD2 hu hself hD1
  have hget := GetState_updateRecord J _ _ _ newEnc D2 hself (custId ++ recOwner ++ encFor)
  rw [if_pos rfl] at hget
  generalize (updateRecord J (addRecord J stub custId custName recOwner encFor encData D1).1
      (custId ++ recOwner ++ encFor) newEnc D2).1 = s2 at h2 hget ⊢
  have hI := h2.dateInv
  refine ⟨hok, ?_, ?_⟩
  · obtain ⟨l1, e1, p1, _⟩ := hI.searchIndex_date D1 hD1
    refine ⟨l1, e1, ?_⟩
    intro r hr hid
    obtain ⟨hs, hd⟩ := p1 r hr
    have hrr : r = updatedRecord (newRecord custId custName recOwner encFor encData D1)
        newEnc D2 := by
      have h2' := hs.2
      rw [hid, hget] at h2'
      exact (marshalRecord_injective J (Option.some.inj h2')).symm
    rw [hrr] at hd
    exact hne hd.symm
  · intro hz
    obtain ⟨l2, e2, _, q2⟩ := hI.searchIndex_date D2 hD2
    exact ⟨l2, e2, q2 _ ⟨hasTag_of_lt_zs hz, hget⟩ rfl hz⟩

/-- Witness of the amended C4: after the Records of `Ann` and `Robert`, whose
`custId`s and names differ in width, the Record of customer `C1` is added on
`20170101` and updated on `20170202`, and is returned by the search for
`20170202`. -/
theorem searchIndex_date_after_update_witness :
    ∃ l2 : List Record,
      searchIndex jsonText
        (updateRecord jsonText
          (addRecord jsonText mixedWidths "C1".toList "Ann".toList "bankA".toList
            "bankB".toList "e".toList "20170101".toList).1
          ("C1".toList ++ "bankA".toList ++ "bankB".toList) "f".toList "20170202".toList).1
        "20170202".toList "date".toList =
        .ok (jsonText.marshalRecordList { numEntries := l2.length, records := l2 }) ∧
      { recId := "C1".toList ++ "bankA".toList ++ "bankB".toList, custId := "C1".toList,
        custName := "Ann".toList, recOwner := "bankA".toList, encFor := "bankB".toList,
        encData := "f".toList, dateCreated := "20170101".toList,
        dateModified := "20170202".toList } ∈ l2 :=
  (searchIndex_date_after_update jsonText 8 mixedWidths
    mixedWidths_dateReachable "C1".toList
    "Ann".toList "bankA".toList "bankB".toList "e".toList "20170101".toList "f".toList
    "20170202".toList rfl rfl rfl rfl (by decide)).2.2 rfl

/-! ### The range query of `getRecordsAfterDate` -/

/-- The date index key of a Record dated with at most 26 digits, not all of
them `9`, is below the upper bound of `getRecordsAfterDate`. -/
theorem dateKey_lt_nines {wd : Nat} (hwd : wd ≤ 26) {r : Record}
    (h : IsDate wd (digitsNotNines wd) r.dateModified) :
    ltB (dateKey r) ("date".toList ++ "99999999999999999999999999".toList) = true := by
  obtain ⟨hlen, hok⟩ := h
  simp only [digitsNotNines, Bool.and_eq_true, Bool.not_eq_true', decide_eq_false_iff_not]
    at hok
  have h1 := ltB_nines r.dateModified hok.1 (by rw [hlen]; exact hok.2)
  rw [dateKey_eq, ltB_append_left, nines_toList]
  have hsplit : List.replicate 26 '9' =
      List.replicate r.dateModified.length '9' ++ List.replicate (26 - wd) '9' := by
    rw [hlen, ← List.replicate_add]
    congr 1
    omega
  rw [hsplit, ltB_append_of_length (by simp), h1]
  rfl

/-- Counterexample to C5, in five cases with one-width digit dates. (1) The
Record with id `date2` is dated `1`: the scan of `getRecordsAfterDate "1"`
reaches the Record's own key `date2`, takes its value for a record id and the
query returns an error. (2) The Record with id `a` is dated `9`: its date key
`date9a` is above the upper bound and `getRecordsAfterDate "9"` returns the
empty list. (3) The same with a date of 27 digits that starts with 26 nines.
(4) In `clobbered` the value of the Record with id `idaa` was overwritten by
the id index entry of the Record `a`: `getRecordsAfterDate "1"` lists the
Record `a` twice. (5) In `clobberedByName` the value of the Record with id
`nameab` was overwritten by the name index entry of the Record `b`:
`getRecordsAfterDate "1"` lists the Record `b` twice. -/
theorem getRecordsAfterDate_failures :
    getRecordsAfterDate jsonText
      (addRecord jsonText [] "date2".toList "n".toList "".toList "".toList "e".toList
        "1".toList).1 "1".toList = .error "No record with given recId" ∧
    getRecordsAfterDate jsonText
      (addRecord jsonText [] "a".toList "n".toList "".toList "".toList "e".toList
        "9".toList).1 "9".toList =
      .ok (jsonText.marshalRecordList { numEntries := 0, records := [] }) ∧
    getRecordsAfterDate jsonText
      (addRecord jsonText [] "a".toList "n".toList "".toList "".toList "e".toList
        "999999999999999999999999990".toList).1 "000000000000000000000000000".toList =
      .ok (jsonText.marshalRecordList { numEntries := 0, records := [] }) ∧
    getRecordsAfterDate jsonText clobbered "1".toList =
      .ok (jsonText.marshalRecordList
        { numEntries := 2,
          records :=
            [newRecord "a".toList "n".toList "".toList "".toList "e".toList "1".toList,
             newRecord "a".toList "n".toList "".toList "".toList "e".toList "1".toList] }) ∧
    getRecordsAfterDate jsonText clobberedByName "1".toList =
      .ok (jsonText.marshalRecordList
        { numEntries := 2,
          records :=
            [newRecord "b".toList "a".toList "".toList "".toList "e".toList "1".toList,
             newRecord "b".toList "a".toList "".toList "".toList "e".toList "1".toList] }) := by
  refine ⟨rfl, rfl, rfl, rfl, rfl⟩

/-- C5, amended (range ordering with untagged ids). Let the store be reachable
from the empty store by successful `addRecord` and `updateRecord` calls whose
dates are strings of `wd ≤ 26` digits, not all of them `9`, and whose record
ids start with no index tag (`id`, `name`, `date`); let `D` have width `wd`.
Then `getRecordsAfterDate D` succeeds with a list `recs` whose `numEntries` is
its length; `recs` holds exactly the stored Records with `dateModified ≥ D`,
in ascending order of `dateModified` and, for equal dates, of `recId`, each
once; and when the stored Records dated `D` or later are `r2`, dated `D`, and
`r3`, dated later, the list is `[r2, r3]`. -/
theorem getRecordsAfterDate_exact (J : Json) (wd : Nat) (hwd : wd ≤ 26)
    (stub : Store) (h : UntaggedReachable J wd (digitsNotNines wd) stub) (D : Str)
    (hD : D.length = wd) :
    ∃ recs : List Record,
      getRecordsAfterDate J stub D =
        .ok (J.marshalRecordList { numEntries := recs.length, records := recs }) ∧
      (∀ r, r ∈ recs ↔ Stored J stub r ∧ leB D r.dateModified = true) ∧
      recs.Pairwise dateThenId ∧
      recs.Nodup ∧
      (∀ r2 r3, Stored J stub r2 → Stored J stub r3 → r2.dateModified = D →
        ltB D r3.dateModified = true →
        (∀ r, Stored J stub r → leB D r.dateModified = true → r = r2 ∨ r = r3) →
        recs = [r2, r3]) := by
  have hI := h.untaggedInv
  obtain ⟨recs, hl⟩ : ∃ recs, List.Forall₂ (Hydrates J stub)
      (RangeQueryState ("date".toList ++ D)
        ("date".toList ++ "99999999999999999999999999".toList) stub) recs := by
    apply exists_forall₂
    rintro ⟨k, v⟩ he
    obtain ⟨hk, h1, h2⟩ := (mem_RangeQueryState hI.sorted _ _ k v).1 he
    obtain ⟨y, hy⟩ := prefix_of_range h1 h2
    have hkt : hasDateTag k = true := by rw [hy]; exact hasDateTag_date_append y
    obtain ⟨_, _, _, hv, _⟩ := hI.entry k v hk hkt
    simp only [Bool.not_eq_true'] at hv
    exact hI.hydrates hk hkt hv
  have hwidth : ∀ r, Stored J stub r → r.dateModified.length = wd := fun r hr =>
    (hI.date_of_stored hr).1
  have hmem : ∀ r, r ∈ recs ↔ Stored J stub r ∧ leB D r.dateModified = true := by
    intro r
    constructor
    · intro hr
      obtain ⟨⟨k, v⟩, he, hk, _, hs⟩ := forall₂_mem_right hl hr
      refine ⟨hs, ?_⟩
      obtain ⟨_, h1, _⟩ := (mem_RangeQueryState hI.sorted _ _ k v).1 he
      simp only at hk
      rw [hk, dateKey_eq, leB, ltB_append_left, ← leB,
        leB_date_append (hD.trans (hwidth r hs).symm)] at h1
      exact h1
    · rintro ⟨hs, hd⟩
      have hin : (dateKey r, r.recId) ∈
          RangeQueryState ("date".toList ++ D)
            ("date".toList ++ "99999999999999999999999999".toList) stub := by
        refine (mem_RangeQueryState hI.sorted _ _ _ _).2 ⟨hI.indexed r hs, ?_, ?_⟩
        · rw [dateKey_eq, leB, ltB_append_left, ← leB,
            leB_date_append (hD.trans (hwidth r hs).symm)]
          exact hd
        · exact dateKey_lt_nines hwd (hI.date_of_stored hs)
      exact mem_of_entry_mem hl hs hin
  have hsorted : recs.Pairwise dateThenId := by
    refine forall₂_pairwise ?_ hl (KeySorted_RangeQueryState _ _ hI.sorted)
    rintro ⟨k, v⟩ r ⟨k', v'⟩ r' ⟨hk, _, hs⟩ ⟨hk', _, hs'⟩ hlt
    simp only at hk hk' hlt
    rw [hk, hk'] at hlt
    exact dateThenId_of_keys ((hwidth r hs).trans (hwidth r' hs').symm) hlt
  refine ⟨recs, ?_, hmem, hsorted, ?_, ?_⟩
  · simp only [getRecordsAfterDate, afterDateLoop_hydrates J stub hl, RecordList.zero,
      Nat.zero_add, List.nil_append]
  · refine List.Pairwise.imp ?_ hsorted
    intro a b hab he
    rw [he] at hab
    exact dateThenId_irrefl _ hab
  · intro r2 r3 hs2 hs3 hd2 hd3 hall
    refine eq_pair_of_sorted hsorted ?_ (Or.inl (by rw [hd2]; exact hd3))
    intro r
    rw [hmem]
    constructor
    · rintro ⟨hs, hd⟩
      exact hall r hs hd
    · rintro (rfl | rfl)
      · refine ⟨hs2, ?_⟩
        rw [hd2, leB, ltB_irrefl]
        rfl
      · refine ⟨hs3, ?_⟩
        rw [leB, ltB_asymm hd3]
        rfl

theorem threeRecords_untaggedReachable :
    UntaggedReachable jsonText 8 (digitsNotNines 8) threeRecords :=
  UntaggedReachable.update _ _ _ _
    (UntaggedReachable.add _ _ _ _ _ _ _
      (UntaggedReachable.add _ _ _ _ _ _ _
        (UntaggedReachable.add _ _ _ _ _ _ _ UntaggedReachable.empty ⟨rfl, rfl⟩ rfl rfl)
        ⟨rfl, rfl⟩ rfl rfl)
      ⟨rfl, rfl⟩ rfl rfl)
    ⟨rfl, rfl⟩ rfl rfl

/-- Witness of the amended C5 on `threeRecords`: the query at `20170202`
returns the Record of `C2` followed by the Record of `C3`. -/
theorem getRecordsAfterDate_exact_witness :
    getRecordsAfterDate jsonText threeRecords "20170202".toList =
      .ok (jsonText.marshalRecordList
        { numEntries := 2,
          records :=
            [{ recId := "C2bankAbankB".toList, custId := "C2".toList,
               custName := "Bob".toList, recOwner := "bankA".toList,
               encFor := "bankB".toList, encData := "f".toList,
               dateCreated := "20170101".toList, dateModified := "20170202".toList },
             { recId := "C3bankAbankB".toList, custId := "C3".toList,
               custName := "Cyd".toList, recOwner := "bankA".toList,
               encFor := "bankB".toList, encData := "e".toList,
               dateCreated := "20170303".toList, dateModified := "20170303".toList }] }) ∧
    ∃ recs : List Record,
      getRecordsAfterDate jsonText threeRecords "20170202".toList =
        .ok (jsonText.marshalRecordList { numEntries := recs.length, records := recs }) ∧
      recs.Pairwise dateThenId :=
  ⟨rfl,
    match getRecordsAfterDate_exact jsonText 8 (by decide) threeRecords
      threeRecords_untaggedReachable "20170202".toList rfl with
    | ⟨recs, h1, _, h3, _⟩ => ⟨recs, h1, h3⟩⟩

/-! ### The calls of `updateRecord` and `searchIndex` -/

/-- The function `getRecord` over the recording stub returns what `getRecord`
returns on the ledger, leaves the ledger as it is and issues one `GetState`. -/
theorem traced_getRecord (stub : TracedStub) (recId : Str) :
    Traced.getRecord stub recId =
      (getRecord stub.ledger recId,
        { ledger := stub.ledger, calls := stub.calls ++ [StubCall.GetState recId] }) := by
  simp only [Traced.getRecord, TracedStub.GetState, getRecord]
  cases GetState recId stub.ledger <;> rfl

/-- The function `updateRecord` over the recording stub leaves the ledger and
returns the error that `updateRecord` on the ledger alone gives. -/
theorem traced_updateRecord_refines (J : Json) (stub : TracedStub)
    (recId encData dateModified : Str) :
    ((Traced.updateRecord J stub recId encData dateModified).1.ledger,
      (Traced.updateRecord J stub recId encData dateModified).2) =
      updateRecord J stub.ledger recId encData dateModified := by
  cases hg : getRecord stub.ledger recId with
  | error err => simp only [Traced.updateRecord, updateRecord, traced_getRecord, hg]
  | ok recBytes =>
    cases hU : J.unmarshalRecord recBytes Record.zero with
    | mk rec err =>
      cases err with
      | some e => simp only [Traced.updateRecord, updateRecord, traced_getRecord, hg, hU]
      | none =>
        simp only [Traced.updateRecord, updateRecord, traced_getRecord, hg, hU,
          Traced.updateIndex, updateIndex, TracedStub.DelState, TracedStub.PutState]

/-- The loop of `searchIndex` over the recording stub returns what the loop on
the ledger alone returns, leaves the ledger as it is and only adds calls. -/
theorem traced_searchLoop_refines (J : Json) :
    ∀ (es : List (Str × Str)) (stub : TracedStub) (results : RecordList) (currRec : Record),
      (Traced.searchLoop J es stub results currRec).1 =
        searchLoop J stub.ledger es results currRec ∧
      (Traced.searchLoop J es stub results currRec).2.ledger = stub.ledger ∧
      ∃ more, (Traced.searchLoop J es stub results currRec).2.calls = stub.calls ++ more
  | [], stub, results, currRec => ⟨rfl, rfl, [], (List.append_nil _).symm⟩
  | (k, recId) :: rest, stub, results, currRec => by
    cases hg : getRecord stub.ledger recId with
    | error err =>
      simp only [Traced.searchLoop, searchLoop, traced_getRecord, hg]
      exact ⟨trivial, trivial, _, rfl⟩
    | ok recBytes =>
      cases hU : J.unmarshalRecord recBytes currRec with
      | mk rec err =>
        cases err with
        | some e =>
          simp only [Traced.searchLoop, searchLoop, traced_getRecord, hg, hU]
          exact ⟨trivial, trivial, _, rfl⟩
        | none =>
          simp only [Traced.searchLoop, searchLoop, traced_getRecord, hg, hU]
          obtain ⟨h1, h2, more, h3⟩ := traced_searchLoop_refines J rest
            { ledger := stub.ledger, calls := stub.calls ++ [StubCall.GetState recId] }
            { records := results.records ++ [rec], numEntries := results.numEntries + 1 } rec
          refine ⟨h1, h2, StubCall.GetState recId :: more, ?_⟩
          rw [h3, List.append_assoc]
          rfl

/-- The function `searchIndex` over the recording stub returns what
`searchIndex` on the ledger alone returns and leaves the ledger as it is. -/
theorem traced_searchIndex_refines (J : Json) (stub : TracedStub) (input field : Str) :
    (Traced.searchIndex J stub input field).1 = searchIndex J stub.ledger input field ∧
    (Traced.searchIndex J stub input field).2.ledger = stub.ledger := by
  simp only [Traced.searchIndex, searchIndex]
  cases indexToSearch field with
  | none => exact ⟨rfl, rfl⟩
  | some tag =>
    simp only [TracedStub.RangeQueryState]
    obtain ⟨h1, h2, _⟩ := traced_searchLoop_refines J
      (RangeQueryState (tag ++ input) (tag ++ input ++ "ZZZZZZZZZZZZZZZZZZZZZZ".toList)
        stub.ledger)
      { ledger := stub.ledger,
        calls := stub.calls ++ [StubCall.RangeQueryState (tag ++ input)
          (tag ++ input ++ "ZZZZZZZZZZZZZZZZZZZZZZ".toList)] }
      RecordList.zero Record.zero
    simp only at h1 h2
    rw [← h1]
    cases hL : Traced.searchLoop J
      (RangeQueryState (tag ++ input) (tag ++ input ++ "ZZZZZZZZZZZZZZZZZZZZZZ".toList)
        stub.ledger)
      { ledger := stub.ledger,
        calls := stub.calls ++ [StubCall.RangeQueryState (tag ++ input)
          (tag ++ input ++ "ZZZZZZZZZZZZZZZZZZZZZZ".toList)] }
      RecordList.zero Record.zero with
    | mk res stub2 =>
      rw [hL] at h2
      cases res with
      | error err => exact ⟨rfl, h2⟩
      | ok results => exact ⟨rfl, h2⟩

/-- For a field that names an index, the first call of `searchIndex` is the
range query over the keys that start with the tag and the input. -/
theorem traced_searchIndex_scans (J : Json) (stub : TracedStub) (input field tag : Str)
    (h : indexToSearch field = some tag) :
    ∃ more, (Traced.searchIndex J stub input field).2.calls =
      stub.calls ++ StubCall.RangeQueryState (tag ++ input)
        (tag ++ input ++ "ZZZZZZZZZZZZZZZZZZZZZZ".toList) :: more := by
  simp only [Traced.searchIndex, h, TracedStub.RangeQueryState]
  obtain ⟨_, _, more, h3⟩ := traced_searchLoop_refines J
    (RangeQueryState (tag ++ input) (tag ++ input ++ "ZZZZZZZZZZZZZZZZZZZZZZ".toList)
      stub.ledger)
    { ledger := stub.ledger,
      calls := stub.calls ++ [StubCall.RangeQueryState (tag ++ input)
        (tag ++ input ++ "ZZZZZZZZZZZZZZZZZZZZZZ".toList)] }
    RecordList.zero Record.zero
  simp only at h3
  refine ⟨more, ?_⟩
  cases hL : Traced.searchLoop J
    (RangeQueryState (tag ++ input) (tag ++ input ++ "ZZZZZZZZZZZZZZZZZZZZZZ".toList)
      stub.ledger)
    { ledger := stub.ledger,
      calls := stub.calls ++ [StubCall.RangeQueryState (tag ++ input)
        (tag ++ input ++ "ZZZZZZZZZZZZZZZZZZZZZZ".toList)] }
    RecordList.zero Record.zero with
  | mk res stub2 =>
    rw [hL] at h3
    simp only at h3
    cases res with
    | error err => simp only [h3, List.append_assoc, List.singleton_append]
    | ok results => simp only [h3, List.append_assoc, List.singleton_append]

/-- C15 (effect, order and frame of `updateRecord`). Let the encoding of `r`
be stored under `r.recId`. Then `updateRecord r.recId encData' D'` returns no
error and issues exactly four calls on the stub, in this order: the read of
`r.recId`, the delete of `"date" ++ r.dateModified ++ r.recId`, the write of
`r.recId` under `"date" ++ D' ++ r.recId`, and only then the write of the new
encoding under `r.recId`; the ledger it leaves is the old one after these
calls, and it is the store that `updateRecord` on the ledger alone returns.
Afterwards `getRecord r.recId` returns `r` with `encData = encData'` and
`dateModified = D'` and the other six fields as before; the entries under the
id and name index keys of `r` are as before; the new date key maps to
`r.recId`; and the old date key, when it differs from the new one, is absent. -/
theorem updateRecord_effect (J : Json) (stub : TracedStub) (r : Record)
    (encData' D' : Str) (h : GetState r.recId stub.ledger = some (J.marshalRecord r)) :
    Traced.updateRecord J stub r.recId encData' D' =
      ({ ledger :=
          PutState r.recId
            (J.marshalRecord
              { recId := r.recId, custId := r.custId, custName := r.custName,
                recOwner := r.recOwner, encFor := r.encFor, encData := encData',
                dateCreated := r.dateCreated, dateModified := D' })
            (PutState ("date".toList ++ D' ++ r.recId) r.recId
              (DelState ("date".toList ++ r.dateModified ++ r.recId) stub.ledger)),
         calls := stub.calls ++
          [StubCall.GetState r.recId,
           StubCall.DelState ("date".toList ++ r.dateModified ++ r.recId),
           StubCall.PutState ("date".toList ++ D' ++ r.recId) r.recId,
           StubCall.PutState r.recId
            (J.marshalRecord
              { recId := r.recId, custId := r.custId, custName := r.custName,
                recOwner := r.recOwner, encFor := r.encFor, encData := encData',
                dateCreated := r.dateCreated, dateModified := D' })] }, none) ∧
    updateRecord J stub.ledger r.recId encData' D' =
      ((Traced.updateRecord J stub r.recId encData' D').1.ledger, none) ∧
    getRecord (Traced.updateRecord J stub r.recId encData' D').1.ledger r.recId =
      .ok (J.marshalRecord
        { recId := r.recId, custId := r.custId, custName := r.custName,
          recOwner := r.recOwner, encFor := r.encFor, encData := encData',
          dateCreated := r.dateCreated, dateModified := D' }) ∧
    GetState ("id".toList ++ r.custId ++ r.recId)
        (Traced.updateRecord J stub r.recId encData' D').1.ledger =
      GetState ("id".toList ++ r.custId ++ r.recId) stub.ledger ∧
    GetState ("name".toList ++ r.custName ++ r.recId)
        (Traced.updateRecord J stub r.recId encData' D').1.ledger =
      GetState ("name".toList ++ r.custName ++ r.recId) stub.ledger ∧
    GetState ("date".toList ++ D' ++ r.recId)
        (Traced.updateRecord J stub r.recId encData' D').1.ledger = some r.recId ∧
    (D' ≠ r.dateModified →
      GetState ("date".toList ++ r.dateModified ++ r.recId)
        (Traced.updateRecord J stub r.recId encData' D').1.ledger = none) := by
  have hT : Traced.updateRecord J stub r.recId encData' D' =
      ({ ledger :=
          PutState r.recId
            (J.marshalRecord
              { recId := r.recId, custId := r.custId, custName := r.custName,
                recOwner := r.recOwner, encFor := r.encFor, encData := encData',
                dateCreated := r.dateCreated, dateModified := D' })
            (PutState ("date".toList ++ D' ++ r.recId) r.recId
              (DelState ("date".toList ++ r.dateModified ++ r.recId) stub.ledger)),
         calls := stub.calls ++
          [StubCall.GetState r.recId,
           StubCall.DelState ("date".toList ++ r.dateModified ++ r.recId),
           StubCall.PutState ("date".toList ++ D' ++ r.recId) r.recId,
           StubCall.PutState r.recId
            (J.marshalRecord
              { recId := r.recId, custId := r.custId, custName := r.custName,
                recOwner := r.recOwner, encFor := r.encFor, encData := encData',
                dateCreated := r.dateCreated, dateModified := D' })] }, none) := by
    simp only [Traced.updateRecord, traced_getRecord, getRecord, h, J.unmarshal_marshalRecord,
      Traced.updateIndex, TracedStub.DelState, TracedStub.PutState, List.append_assoc,
      List.singleton_append, List.cons_append, List.nil_append]
  have hU := updateRecord_of_stored J stub.ledger r r.recId encData' D' h
  have hL : (Traced.updateRecord J stub r.recId encData' D').1.ledger =
      (updateRecord J stub.ledger r.recId encData' D').1 := by
    rw [hT, hU]
    rfl
  have hget := GetState_updateRecord J stub.ledger r r.recId encData' D' h
  have hi : idKey r ≠ r.recId := tagged_ne_self _ _ _ (by decide)
  have hn : nameKey r ≠ r.recId := tagged_ne_self _ _ _ (by decide)
  have hd : dateKey (updatedRecord r encData' D') ≠ r.recId :=
    tagged_ne_self _ _ _ (by decide)
  have ho : dateKey r ≠ r.recId := tagged_ne_self _ _ _ (by decide)
  refine ⟨hT, ?_, ?_, ?_, ?_, ?_, ?_⟩
  · rw [hL, hU]
  · rw [hL, getRecord, hget, if_pos rfl]
    rfl
  · rw [hL]
    have := hget (idKey r)
    rw [if_neg hi, if_neg (idKey_ne_dateKey _ _), if_neg (idKey_ne_dateKey _ _)] at this
    exact this
  · rw [hL]
    have := hget (nameKey r)
    rw [if_neg hn, if_neg (nameKey_ne_dateKey _ _), if_neg (nameKey_ne_dateKey _ _)] at this
    exact this
  · rw [hL]
    have := hget (dateKey (updatedRecord r encData' D'))
    rw [if_neg hd, if_pos rfl] at this
    exact this
  · intro hne
    rw [hL]
    have := hget (dateKey r)
    have hk : dateKey r ≠ dateKey (updatedRecord r encData' D') := by
      intro he
      simp only [dateKey, updatedRecord, List.append_assoc, List.append_cancel_left_eq,
        List.append_cancel_right_eq] at he
      exact hne he.symm
    rw [if_neg ho, if_neg hk, if_pos rfl] at this
    exact this

/-- Witness of C15: the Record of customer `C1`, added on `20170101`, is
updated on `20170202`, on a stub with no earlier call. The four calls are the
read of the Record, the delete of the date key of `20170101`, the write of the
date key of `20170202` and, last, the write of the Record. -/
theorem updateRecord_effect_witness :
    (Traced.updateRecord jsonText
      { ledger := (addRecord jsonText [] "C1".toList "Ann".toList "bankA".toList
          "bankB".toList "e".toList "20170101".toList).1,
        calls := [] }
      "C1bankAbankB".toList "f".toList "20170202".toList).1.calls =
      [StubCall.GetState "C1bankAbankB".toList,
       StubCall.DelState "date20170101C1bankAbankB".toList,
       StubCall.PutState "date20170202C1bankAbankB".toList "C1bankAbankB".toList,
       StubCall.PutState "C1bankAbankB".toList
        (jsonText.marshalRecord
          { recId := "C1bankAbankB".toList, custId := "C1".toList, custName := "Ann".toList,
            recOwner := "bankA".toList, encFor := "bankB".toList, encData := "f".toList,
            dateCreated := "20170101".toList, dateModified := "20170202".toList })] ∧
    getRecord
      (Traced.updateRecord jsonText
        { ledger := (addRecord jsonText [] "C1".toList "Ann".toList "bankA".toList
            "bankB".toList "e".toList "20170101".toList).1,
          calls := [] }
        "C1bankAbankB".toList "f".toList "20170202".toList).1.ledger
      "C1bankAbankB".toList =
      .ok (jsonText.marshalRecord
        { recId := "C1bankAbankB".toList, custId := "C1".toList, custName := "Ann".toList,
          recOwner := "bankA".toList, encFor := "bankB".toList, encData := "f".toList,
          dateCreated := "20170101".toList, dateModified := "20170202".toList }) :=
  ⟨congrArg (fun p => p.1.calls)
      (updateRecord_effect jsonText
        { ledger := (addRecord jsonText [] "C1".toList "Ann".toList "bankA".toList
            "bankB".toList "e".toList "20170101".toList).1,
          calls := [] }
        (newRecord "C1".toList "Ann".toList "bankA".toList "bankB".toList "e".toList
          "20170101".toList)
        "f".toList "20170202".toList rfl).1,
    (updateRecord_effect jsonText
      { ledger := (addRecord jsonText [] "C1".toList "Ann".toList "bankA".toList
          "bankB".toList "e".toList "20170101".toList).1,
        calls := [] }
      (newRecord "C1".toList "Ann".toList "bankA".toList "bankB".toList "e".toList
        "20170101".toList)
      "f".toList "20170202".toList rfl).2.2.1⟩

end Records

/-! ## The requests chaincode -/

namespace Requests

/-! ### Granting access -/

theorem giveAccess_eq (J : Json) (w : World) (req : Request) (R : Record)
    (encData T2 : Str)
    (hreq : GetState req.reqId w.requests = some (J.marshalRequest req))
    (hrec : GetState req.recId w.records = some (J.marshalRecord R)) :
    giveAccess J w req.reqId encData T2 =
      match Records.addRecord J w.records R.custId R.custName req.recOwner req.reqBy
          encData T2 with
      | (records, some err) => ({ w with records := records }, some err)
      | (records, none) =>
        ({ w with
            records := records,
            requests := PutState req.reqId
              (J.marshalRequest { req with
                status := "Access Given on ".toList ++ T2, dateModified := T2 })
              w.requests }, none) := by
  have h1 : "mycc".toList = "mycc".toList ↔ True := by simp
  have h2 : "recId".toList = "recId".toList ↔ True := by simp
  have h3 : "addRec".toList = "addRec".toList ↔ True := by simp
  simp only [giveAccess, getRequest, hreq, J.unmarshal_marshalRequest, QueryChaincode,
    Records.Query, Records.getRecord, hrec, J.unmarshal_marshalRecord, InvokeChaincode,
    Records.Invoke, if_true, h1, h2, h3]
  cases Records.addRecord J w.records R.custId R.custName req.recOwner req.reqBy encData T2 with
  | mk records err => cases err <;> rfl

/-- Counterexample to C7. The Record `R` with `custId = ""`, `recOwner = ""`,
`encFor = "idb"` is stored under `"idb"`; `"b"` requests access; the target id
`"" ++ "" ++ "b"` is free. `giveAccess` succeeds, and the id index key
`"id" ++ "" ++ "b"` of the new Record is `R`'s own key: afterwards the value
under `"idb"` is the bytes `b`, no longer the encoding of `R`. -/
theorem giveAccess_overwrites_record :
    getRequest clashWorld1 "idbb2".toList =
      .ok (jsonText.marshalRequest
        { reqId := "idbb2".toList, recId := "idb".toList, reqBy := "b".toList,
          recOwner := "".toList, status := "Pending".toList, dateCreated := "2".toList,
          dateModified := "2".toList }) ∧
    GetState "idb".toList clashWorld1.records =
      some (jsonText.marshalRecord
        (Records.newRecord "".toList "Ann".toList "".toList "idb".toList "e".toList
          "1".toList)) ∧
    GetState ("".toList ++ "".toList ++ "b".toList) clashWorld1.records = none ∧
    (giveAccess jsonText clashWorld1 "idbb2".toList "x".toList "3".toList).2 = none ∧
    GetState "idb".toList
      (giveAccess jsonText clashWorld1 "idbb2".toList "x".toList "3".toList).1.records =
      some "b".toList ∧
    "b".toList ≠ jsonText.marshalRecord
      (Records.newRecord "".toList "Ann".toList "".toList "idb".toList "e".toList
        "1".toList) := by
  refine ⟨rfl, rfl, rfl, rfl, rfl, by decide⟩

/-- C7, amended (grant-access postcondition). Let `req` be stored under
`req.reqId` in the Request store and `R` under `req.recId` in the Record store,
let no value be stored under `R.custId ++ req.recOwner ++ req.reqBy`, and let
`req.recId` be none of the three index keys of the Record to be created. Then
`giveAccess req.reqId encData T2` returns no error; the Record store holds the
new Record (`custId`, `custName` of `R`, `recOwner = req.recOwner`,
`encFor = req.reqBy`, `encData`, both dates `T2`) under its id; `R` is still
stored under `req.recId`; and `getRequest req.reqId` returns `req` with
`status = "Access Given on " ++ T2` and `dateModified = T2`. -/
theorem giveAccess_postcondition (J : Json) (w : World) (req : Request) (R : Record)
    (encData T2 : Str)
    (hreq : GetState req.reqId w.requests = some (J.marshalRequest req))
    (hrec : GetState req.recId w.records = some (J.marshalRecord R))
    (hnew : GetState (R.custId ++ req.recOwner ++ req.reqBy) w.records = none)
    (hid : req.recId ≠ "id".toList ++ R.custId ++ (R.custId ++ req.recOwner ++ req.reqBy))
    (hname : req.recId ≠
      "name".toList ++ R.custName ++ (R.custId ++ req.recOwner ++ req.reqBy))
    (hdate : req.recId ≠ "date".toList ++ T2 ++ (R.custId ++ req.recOwner ++ req.reqBy)) :
    (giveAccess J w req.reqId encData T2).2 = none ∧
    GetState (R.custId ++ req.recOwner ++ req.reqBy)
        (giveAccess J w req.reqId encData T2).1.records =
      some (J.marshalRecord
        { recId := R.custId ++ req.recOwner ++ req.reqBy, custId := R.custId,
          custName := R.custName, recOwner := req.recOwner, encFor := req.reqBy,
          encData := encData, dateCreated := T2, dateModified := T2 }) ∧
    GetState req.recId (giveAccess J w req.reqId encData T2).1.records =
      some (J.marshalRecord R) ∧
    getRequest (giveAccess J w req.reqId encData T2).1 req.reqId =
      .ok (J.marshalRequest
        { reqId := req.reqId, recId := req.recId, reqBy := req.reqBy,
          recOwner := req.recOwner, status := "Access Given on ".toList ++ T2,
          dateCreated := req.dateCreated, dateModified := T2 }) := by
  have hadd := (Records.addRecord_snd_none_iff J w.records R.custId R.custName req.recOwner
    req.reqBy encData T2).2 hnew
  have hself := Records.GetState_addRecord_self J w.records R.custId R.custName
    req.recOwner req.reqBy encData T2 hnew
  have hne : req.recId ≠ R.custId ++ req.recOwner ++ req.reqBy := by
    intro h
    rw [h, hnew] at hrec
    cases hrec
  have hother := Records.GetState_addRecord_other J w.records R.custId R.custName
    req.recOwner req.reqBy encData T2 hne hid hname hdate
  rw [giveAccess_eq J w req R encData T2 hreq hrec]
  revert hadd hself hother
  cases Records.addRecord J w.records R.custId R.custName req.recOwner req.reqBy encData T2 with
  | mk records err =>
    intro hadd hself hother
    simp only at hadd
    subst hadd
    refine ⟨rfl, hself, ?_, ?_⟩
    · simp only [hother, hrec]
    · simp only [getRequest, GetState_PutState_same]

/-- Witness of the amended C7: the Record of customer `C1` owned by `bankA`,
requested by `bankB`. -/
theorem giveAccess_postcondition_witness :
    (giveAccess jsonText demoWorld "C1bankAbankAbankB20170102".toList "x".toList
      "20170103".toList).2 = none ∧
    getRequest (giveAccess jsonText demoWorld "C1bankAbankAbankB20170102".toList "x".toList
      "20170103".toList).1 "C1bankAbankAbankB20170102".toList =
      .ok (jsonText.marshalRequest
        { reqId := "C1bankAbankAbankB20170102".toList, recId := "C1bankAbankA".toList,
          reqBy := "bankB".toList, recOwner := "bankA".toList,
          status := "Access Given on ".toList ++ "20170103".toList,
          dateCreated := "20170102".toList, dateModified := "20170103".toList }) :=
  have h := giveAccess_postcondition jsonText demoWorld
    { reqId := "C1bankAbankAbankB20170102".toList, recId := "C1bankAbankA".toList,
      reqBy := "bankB".toList, recOwner := "bankA".toList, status := "Pending".toList,
      dateCreated := "20170102".toList, dateModified := "20170102".toList }
    (Records.newRecord "C1".toList "Ann".toList "bankA".toList "bankA".toList
      "e".toList "20170101".toList)
    "x".toList "20170103".toList rfl rfl rfl (by decide) (by decide) (by decide)
  ⟨h.1, h.2.2.2⟩

/-- Counterexample to C8. On `demoWorld` the first `giveAccess` succeeds and
creates the target Record; the second call with the same arguments returns
`Record already exists` and leaves the world as the first call left it. -/
theorem giveAccess_twice_fails :
    (giveAccess jsonText demoWorld "C1bankAbankAbankB20170102".toList "x".toList
      "20170103".toList).2 = none ∧
    (giveAccess jsonText
      (giveAccess jsonText demoWorld "C1bankAbankAbankB20170102".toList "x".toList
        "20170103".toList).1
      "C1bankAbankAbankB20170102".toList "x".toList "20170103".toList).2 =
      some "Record already exists" := by
  refine ⟨rfl, rfl⟩

/-- C8, amended (no resume). Let `req` be stored under `req.reqId` in the
Request store and `R` under `req.recId` in the Record store, and let some value
already be stored under the target id `R.custId ++ req.recOwner ++ req.reqBy`.
Then `giveAccess req.reqId encData T2` returns the error
`Record already exists` of `addRecord` and changes neither store: the
Request keeps its status. -/
theorem giveAccess_existing_target (J : Json) (w : World) (req : Request) (R : Record)
    (encData T2 v : Str)
    (hreq : GetState req.reqId w.requests = some (J.marshalRequest req))
    (hrec : GetState req.recId w.records = some (J.marshalRecord R))
    (hnew : GetState (R.custId ++ req.recOwner ++ req.reqBy) w.records = some v) :
    giveAccess J w req.reqId encData T2 = (w, some "Record already exists") ∧
    getRequest (giveAccess J w req.reqId encData T2).1 req.reqId =
      .ok (J.marshalRequest req) := by
  have h : giveAccess J w req.reqId encData T2 = (w, some "Record already exists") := by
    rw [giveAccess_eq J w req R encData T2 hreq hrec,
      Records.addRecord_of_present J w.records _ _ _ _ _ _ hnew]
  refine ⟨h, ?_⟩
  rw [h]
  simp only [getRequest, hreq]

/-- Witness of the amended C8: the Record for `bankB` is added first, then
`giveAccess` is called on the pending Request. -/
theorem giveAccess_existing_target_witness :
    giveAccess jsonText
      { demoWorld with
        records := (Records.addRecord jsonText demoWorld.records "C1".toList "Ann".toList
          "bankA".toList "bankB".toList "y".toList "20170103".toList).1 }
      "C1bankAbankAbankB20170102".toList "x".toList "20170104".toList =
    ({ demoWorld with
        records := (Records.addRecord jsonText demoWorld.records "C1".toList "Ann".toList
          "bankA".toList "bankB".toList "y".toList "20170103".toList).1 },
      some "Record already exists") :=
  (giveAccess_existing_target jsonText
    { demoWorld with
      records := (Records.addRecord jsonText demoWorld.records "C1".toList "Ann".toList
        "bankA".toList "bankB".toList "y".toList "20170103".toList).1 }
    { reqId := "C1bankAbankAbankB20170102".toList, recId := "C1bankAbankA".toList,
      reqBy := "bankB".toList, recOwner := "bankA".toList, status := "Pending".toList,
      dateCreated := "20170102".toList, dateModified := "20170102".toList }
    (Records.newRecord "C1".toList "Ann".toList "bankA".toList "bankA".toList
      "e".toList "20170101".toList)
    "x".toList "20170104".toList
    (jsonText.marshalRecord (Records.newRecord "C1".toList "Ann".toList "bankA".toList
      "bankB".toList "y".toList "20170103".toList))
    rfl rfl rfl).1

/-- C9 at a failing input. The Record is owned by `bankA`, the submitter of
the transaction is `mallory`: `giveAccess` returns no error, the new Record
for `bankB` is stored, and the Request's status has changed. -/
theorem giveAccess_by_non_owner :
    demoWorld.caller = "mallory".toList ∧
    Records.getRecord demoWorld.records "C1bankAbankA".toList =
      .ok (jsonText.marshalRecord
        { recId := "C1bankAbankA".toList, custId := "C1".toList, custName := "Ann".toList,
          recOwner := "bankA".toList, encFor := "bankA".toList, encData := "e".toList,
          dateCreated := "20170101".toList, dateModified := "20170101".toList }) ∧
    (giveAccess jsonText demoWorld "C1bankAbankAbankB20170102".toList "x".toList
      "20170103".toList).2 = none ∧
    Records.getRecord
      (giveAccess jsonText demoWorld "C1bankAbankAbankB20170102".toList "x".toList
        "20170103".toList).1.records "C1bankAbankB".toList =
      .ok (jsonText.marshalRecord
        { recId := "C1bankAbankB".toList, custId := "C1".toList, custName := "Ann".toList,
          recOwner := "bankA".toList, encFor := "bankB".toList, encData := "x".toList,
          dateCreated := "20170103".toList, dateModified := "20170103".toList }) ∧
    getRequest
      (giveAccess jsonText demoWorld "C1bankAbankAbankB20170102".toList "x".toList
        "20170103".toList).1 "C1bankAbankAbankB20170102".toList =
      .ok (jsonText.marshalRequest
        { reqId := "C1bankAbankAbankB20170102".toList, recId := "C1bankAbankA".toList,
          reqBy := "bankB".toList, recOwner := "bankA".toList,
          status := "Access Given on 20170103".toList,
          dateCreated := "20170102".toList, dateModified := "20170103".toList }) := by
  refine ⟨rfl, rfl, rfl, rfl, rfl⟩

/-! ### The date index of Requests -/

/-- C11 at a failing input. `bankB` and `bankC` request the same Record on the
same date. Both Requests are stored; neither has an entry under
`"date" ++ dateModified ++ reqId`; the one date entry, under
`"date" ++ dateModified ++ recId`, holds the id of `bankC`'s Request, and
`getRequestsAfterDate` and `searchIndex .. "date"` return that Request only. -/
theorem date_index_keyed_by_recId :
    getRequest twoRequests requestB.reqId = .ok (jsonText.marshalRequest requestB) ∧
    getRequest twoRequests requestC.reqId = .ok (jsonText.marshalRequest requestC) ∧
    GetState ("date".toList ++ requestB.dateModified ++ requestB.reqId) twoRequests.requests =
      none ∧
    GetState ("date".toList ++ requestC.dateModified ++ requestC.reqId) twoRequests.requests =
      none ∧
    GetState ("date".toList ++ requestB.dateModified ++ requestB.recId) twoRequests.requests =
      some requestC.reqId ∧
    getRequestsAfterDate jsonText twoRequests "20170102".toList =
      .ok (jsonText.marshalRequestList { numEntries := 1, requests := [requestC] }) ∧
    searchIndex jsonText twoRequests "20170102".toList "date".toList =
      .ok (jsonText.marshalRequestList { numEntries := 1, requests := [requestC] }) := by
  refine ⟨rfl, rfl, rfl, rfl, rfl, rfl, rfl⟩

/-- C12 at a failing input. `bankB`'s Request of `20170102` is granted on
`20170103`. Afterwards the Request has `dateModified = 20170103`, its date
entry is still the one keyed by `20170102`, and none is keyed by `20170103`:
`searchIndex "20170102" "date"` returns the Request, while
`searchIndex "20170103" "date"` and `getRequestsAfterDate "20170103"` return
the empty list. -/
theorem giveAccess_leaves_date_index :
    (giveAccess jsonText demoWorld requestB.reqId "x".toList "20170103".toList).2 = none ∧
    GetState ("date".toList ++ "20170102".toList ++ requestB.recId)
      (giveAccess jsonText demoWorld requestB.reqId "x".toList "20170103".toList).1.requests =
      some requestB.reqId ∧
    GetState ("date".toList ++ "20170103".toList ++ requestB.recId)
      (giveAccess jsonText demoWorld requestB.reqId "x".toList "20170103".toList).1.requests =
      none ∧
    GetState ("date".toList ++ "20170103".toList ++ requestB.reqId)
      (giveAccess jsonText demoWorld requestB.reqId "x".toList "20170103".toList).1.requests =
      none ∧
    searchIndex jsonText
      (giveAccess jsonText demoWorld requestB.reqId "x".toList "20170103".toList).1
      "20170102".toList "date".toList =
      .ok (jsonText.marshalRequestList
        { numEntries := 1,
          requests := [{ requestB with
            status := "Access Given on 20170103".toList,
            dateModified := "20170103".toList }] }) ∧
    searchIndex jsonText
      (giveAccess jsonText demoWorld requestB.reqId "x".toList "20170103".toList).1
      "20170103".toList "date".toList =
      .ok (jsonText.marshalRequestList { numEntries := 0, requests := [] }) ∧
    getRequestsAfterDate jsonText
      (giveAccess jsonText demoWorld requestB.reqId "x".toList "20170103".toList).1
      "20170103".toList =
      .ok (jsonText.marshalRequestList { numEntries := 0, requests := [] }) := by
  refine ⟨rfl, rfl, rfl, rfl, rfl, rfl, rfl⟩

/-! ### The number of entries, in all four queries -/

theorem requestSearchLoop_count (J : Json) (stub : World) :
    ∀ (es : List (Str × Str)) (results : RequestList) (currReq : Request)
      (out : RequestList),
      searchLoop J stub es results currReq = .ok out →
      out.numEntries = results.numEntries + es.length ∧
      out.requests.length = results.requests.length + es.length
  | [], results, _, out, h => by
    simp only [searchLoop, Except.ok.injEq] at h
    subst h
    exact ⟨rfl, rfl⟩
  | (k, reqId) :: rest, results, currReq, out, h => by
    simp only [searchLoop] at h
    split at h
    · cases h
    · split at h
      · cases h
      · obtain ⟨h1, h2⟩ := requestSearchLoop_count J stub rest _ _ out h
        simp only [List.length_append, List.length_cons, List.length_nil] at h1 h2 ⊢
        omega

theorem requestAfterDateLoop_count (J : Json) (stub : World) :
    ∀ (es : List (Str × Str)) (results : RequestList) (currReq : Request)
      (out : RequestList),
      afterDateLoop J stub es results currReq = .ok out →
      out.numEntries = results.numEntries + es.length ∧
      out.requests.length = results.requests.length + es.length
  | [], results, _, out, h => by
    simp only [afterDateLoop, Except.ok.injEq] at h
    subst h
    exact ⟨rfl, rfl⟩
  | (k, reqId) :: rest, results, currReq, out, h => by
    simp only [afterDateLoop] at h
    split at h
    · cases h
    · obtain ⟨h1, h2⟩ := requestAfterDateLoop_count J stub rest _ _ out h
      simp only [List.length_append, List.length_cons, List.length_nil] at h1 h2 ⊢
      omega

/-- C20 (result count). Whenever one of the four range queries returns
successfully, what it returns is the encoding of a list whose `numEntries`
equals the length of its `records` (`requests`) list, and both equal the number
of entries in the range the query scans. -/
theorem numEntries_eq_length (J : Json) :
    (∀ (stub : Store) (input field b : Str),
      Records.searchIndex J stub input field = .ok b →
      ∃ (tag : Str) (results : RecordList),
        Records.indexToSearch field = some tag ∧ b = J.marshalRecordList results ∧
        results.numEntries = results.records.length ∧
        results.records.length =
          (RangeQueryState (tag ++ input) (tag ++ input ++ "ZZZZZZZZZZZZZZZZZZZZZZ".toList)
            stub).length) ∧
    (∀ (stub : Store) (inputDate b : Str),
      Records.getRecordsAfterDate J stub inputDate = .ok b →
      ∃ results : RecordList,
        b = J.marshalRecordList results ∧
        results.numEntries = results.records.length ∧
        results.records.length =
          (RangeQueryState ("date".toList ++ inputDate)
            ("date".toList ++ "99999999999999999999999999".toList) stub).length) ∧
    (∀ (stub : World) (input field b : Str),
      searchIndex J stub input field = .ok b →
      ∃ (tag : Str) (results : RequestList),
        indexToSearch field = some tag ∧ b = J.marshalRequestList results ∧
        results.numEntries = results.requests.length ∧
        results.requests.length =
          (RangeQueryState (tag ++ input) (tag ++ input ++ "ZZZZZZZZZZZZZZZZZZZZZZ".toList)
            stub.requests).length) ∧
    (∀ (stub : World) (inputDate b : Str),
      getRequestsAfterDate J stub inputDate = .ok b →
      ∃ results : RequestList,
        b = J.marshalRequestList results ∧
        results.numEntries = results.requests.length ∧
        results.requests.length =
          (RangeQueryState ("date".toList ++ inputDate)
            ("date".toList ++ "99999999999999999999999999".toList) stub.requests).length) := by
  refine ⟨?_, ?_, ?_, ?_⟩
  · intro stub input field b h
    simp only [Records.searchIndex] at h
    split at h
    · cases h
    · rename_i tag htag
      split at h
      · cases h
      · rename_i results hloop
        obtain ⟨h1, h2⟩ := Records.searchLoop_count J stub _ _ _ _ hloop
        simp only [RecordList.zero, List.length_nil, Nat.zero_add] at h1 h2
        exact ⟨tag, results, htag, (Except.ok.inj h).symm, h1.trans h2.symm, h2⟩
  · intro stub inputDate b h
    simp only [Records.getRecordsAfterDate] at h
    split at h
    · cases h
    · rename_i results hloop
      obtain ⟨h1, h2⟩ := Records.afterDateLoop_count J stub _ _ _ _ hloop
      simp only [RecordList.zero, List.length_nil, Nat.zero_add] at h1 h2
      exact ⟨results, (Except.ok.inj h).symm, h1.trans h2.symm, h2⟩
  · intro stub input field b h
    simp only [searchIndex] at h
    split at h
    · cases h
    · rename_i tag htag
      split at h
      · cases h
      · rename_i results hloop
        obtain ⟨h1, h2⟩ := requestSearchLoop_count J stub _ _ _ _ hloop
        simp only [RequestList.zero, List.length_nil, Nat.zero_add] at h1 h2
        exact ⟨tag, results, htag, (Except.ok.inj h).symm, h1.trans h2.symm, h2⟩
  · intro stub inputDate b h
    simp only [getRequestsAfterDate] at h
    split at h
    · cases h
    · rename_i results hloop
      obtain ⟨h1, h2⟩ := requestAfterDateLoop_count J stub _ _ _ _ hloop
      simp only [RequestList.zero, List.length_nil, Nat.zero_add] at h1 h2
      exact ⟨results, (Except.ok.inj h).symm, h1.trans h2.symm, h2⟩

/-- Witness of C20: `getRecordsAfterDate "20170202"` on `threeRecords`, which
returns two Records, and `getRequestsAfterDate "20170102"` on `twoRequests`. -/
theorem numEntries_eq_length_witness :
    (∃ results : RecordList,
      jsonText.marshalRecordList
        { numEntries := 2,
          records :=
            [Records.updatedRecord
              (Records.newRecord "C2".toList "Bob".toList "bankA".toList "bankB".toList
                "e".toList "20170101".toList) "f".toList "20170202".toList,
             Records.newRecord "C3".toList "Cyd".toList "bankA".toList "bankB".toList
               "e".toList "20170303".toList] } = jsonText.marshalRecordList results ∧
      results.numEntries = results.records.length ∧
      results.records.length =
        (RangeQueryState ("date".toList ++ "20170202".toList)
          ("date".toList ++ "99999999999999999999999999".toList)
          Records.threeRecords).length) ∧
    (∃ results : RequestList,
      jsonText.marshalRequestList { numEntries := 1, requests := [requestC] } =
        jsonText.marshalRequestList results ∧
      results.numEntries = results.requests.length ∧
      results.requests.length =
        (RangeQueryState ("date".toList ++ "20170102".toList)
          ("date".toList ++ "99999999999999999999999999".toList)
          twoRequests.requests).length) :=
  ⟨(numEntries_eq_length jsonText).2.1 Records.threeRecords "20170202".toList _ rfl,
    (numEntries_eq_length jsonText).2.2.2 twoRequests "20170102".toList _ rfl⟩

/-! ### Adding a Request -/

theorem getRecOwner_of_stored (J : Json) (stub : World) (recId : Str) (R : Record)
    (h : GetState recId stub.records = some (J.marshalRecord R)) :
    getRecOwner J stub recId = (R.recOwner, none) := by
  have h1 : "mycc".toList = "mycc".toList ↔ True := by simp
  have h2 : "recId".toList = "recId".toList ↔ True := by simp
  simp only [getRecOwner, QueryChaincode, Records.Query, Records.getRecord, h,
    J.unmarshal_marshalRecord, if_true, h1, h2]

/-- C18 at a failing input. The Record with id `date20170102` is stored and
`date` requests it on `20170102`: the date index key
`"date" ++ "20170102" ++ recId` is the Request's own id
`recId ++ "date" ++ "20170102"`. `addRequest` returns no error, and
`getRequest` of that id returns the bytes of the id, which decode as no
Request. -/
theorem addRequest_overwrites_own_value :
    Records.getRecord selfKeyWorld0.records "date20170102".toList =
      .ok (jsonText.marshalRecord
        (Records.newRecord "date20170102".toList "Ann".toList "".toList "".toList
          "e".toList "20170101".toList)) ∧
    "date".toList ++ "20170102".toList ++ "date20170102".toList =
      "date20170102".toList ++ "date".toList ++ "20170102".toList ∧
    (addRequest jsonText selfKeyWorld0 "date20170102".toList "date".toList
      "20170102".toList).2 = none ∧
    getRequest
      (addRequest jsonText selfKeyWorld0 "date20170102".toList "date".toList
        "20170102".toList).1
      ("date20170102".toList ++ "date".toList ++ "20170102".toList) =
      .ok "date20170102date20170102".toList ∧
    "date20170102date20170102".toList ≠ jsonText.marshalRequest selfKeyRequest ∧
    (jsonText.unmarshalRequest "date20170102date20170102".toList Request.zero).2 =
      some "invalid character" := by
  refine ⟨rfl, rfl, rfl, rfl, by decide, rfl⟩

set_option maxRecDepth 100000 in
/-- C19 at a failing input. In `selfKeyWorld1` the granted Request
`selfKeyGranted` is stored under its id. A further
`addRequest "date20170102" "date" "20170102"` returns no error, and the value
under that id is then the bytes of the id, not a Request with status
`Pending`. -/
theorem addRequest_again_overwrites_own_value :
    getRequest selfKeyWorld1 selfKeyGranted.reqId =
      .ok (jsonText.marshalRequest selfKeyGranted) ∧
    selfKeyGranted.reqId =
      selfKeyGranted.recId ++ selfKeyGranted.reqBy ++ selfKeyGranted.dateCreated ∧
    (addRequest jsonText selfKeyWorld1 selfKeyGranted.recId selfKeyGranted.reqBy
      selfKeyGranted.dateCreated).2 = none ∧
    getRequest
      (addRequest jsonText selfKeyWorld1 selfKeyGranted.recId selfKeyGranted.reqBy
        selfKeyGranted.dateCreated).1 selfKeyGranted.reqId =
      .ok "date20170102date20170102".toList ∧
    (jsonText.unmarshalRequest "date20170102date20170102".toList Request.zero).2 =
      some "invalid character" := by
  refine ⟨rfl, rfl, rfl, rfl, rfl⟩

/-- When the Record `R` is stored under `recId` and the date index key
`"date" ++ t ++ recId` is not the Request's own id `recId ++ reqBy ++ t`,
`addRequest recId reqBy t` returns no error, whatever was stored under that id
before; `getRequest` of the id then returns the Request with
`recOwner = R.recOwner`, status `Pending` and both dates `t`; and the Record
store is as before. -/
theorem addRequest_stores_request (J : Json) (stub : World) (recId reqBy t : Str)
    (R : Record) (hrec : GetState recId stub.records = some (J.marshalRecord R))
    (hne : "date".toList ++ t ++ recId ≠ recId ++ reqBy ++ t) :
    (addRequest J stub recId reqBy t).2 = none ∧
    getRequest (addRequest J stub recId reqBy t).1 (recId ++ reqBy ++ t) =
      .ok (J.marshalRequest
        { reqId := recId ++ reqBy ++ t, recId := recId, reqBy := reqBy,
          recOwner := R.recOwner, status := "Pending".toList, dateCreated := t,
          dateModified := t }) ∧
    (addRequest J stub recId reqBy t).1.records = stub.records := by
  have hby : recId ++ reqBy ++ t ≠ "by".toList ++ reqBy ++ (recId ++ reqBy ++ t) :=
    (Records.tagged_ne_self _ _ _ (by decide)).symm
  have hfor : recId ++ reqBy ++ t ≠ "for".toList ++ R.recOwner ++ (recId ++ reqBy ++ t) :=
    (Records.tagged_ne_self _ _ _ (by decide)).symm
  simp only [addRequest, getRecOwner_of_stored J stub recId R hrec, indexRequest, getRequest]
  rw [GetState_PutState_ne hne.symm, GetState_PutState_ne hfor, GetState_PutState_ne hby,
    GetState_PutState_same]
  exact ⟨trivial, rfl, trivial⟩

/-- Witness of `addRequest_stores_request`: `bankB` requests the Record of `C1`. -/
theorem addRequest_stores_request_witness :
    getRequest demoWorld ("C1bankAbankA".toList ++ "bankB".toList ++ "20170102".toList) =
      .ok (jsonText.marshalRequest
        { reqId := "C1bankAbankA".toList ++ "bankB".toList ++ "20170102".toList,
          recId := "C1bankAbankA".toList, reqBy := "bankB".toList,
          recOwner := "bankA".toList, status := "Pending".toList,
          dateCreated := "20170102".toList, dateModified := "20170102".toList }) :=
  (addRequest_stores_request jsonText demoWorld0 "C1bankAbankA".toList "bankB".toList
    "20170102".toList
    (Records.newRecord "C1".toList "Ann".toList "bankA".toList "bankA".toList
      "e".toList "20170101".toList)
    rfl (by decide)).2.1

/-- When no value is stored under `recId` in the Record store, or the value
there does not decode, `addRequest` returns the error of the lookup and hands
back the world it was given: nothing is written to the Request store. -/
theorem addRequest_lookup_fails (J : Json) (stub : World) (recId reqBy t : Str) :
    (GetState recId stub.records = none →
      addRequest J stub recId reqBy t = (stub, some "No record with given recId")) ∧
    (∀ (recBytes : Str) (r : Record) (err : String),
      GetState recId stub.records = some recBytes →
      J.unmarshalRecord recBytes Record.zero = (r, some err) →
      addRequest J stub recId reqBy t = (stub, some err)) := by
  have h1 : "mycc".toList = "mycc".toList ↔ True := by simp
  have h2 : "recId".toList = "recId".toList ↔ True := by simp
  constructor
  · intro h
    simp only [addRequest, getRecOwner, QueryChaincode, Records.Query, Records.getRecord, h,
      if_true, h1, h2]
  · intro recBytes r err h hdec
    simp only [addRequest, getRecOwner, QueryChaincode, Records.Query, Records.getRecord, h,
      hdec, if_true, h1, h2]

/-- Witness of `addRequest_lookup_fails`: a Request for an id that is not in
the Record store, and one for the id `idaa`, whose value in `clobbered` does
not decode. -/
theorem addRequest_lookup_fails_witness :
    addRequest jsonText demoWorld0 "C9bankAbankA".toList "bankB".toList "20170102".toList =
      (demoWorld0, some "No record with given recId") ∧
    addRequest jsonText
      { records := Records.clobbered, requests := [], caller := "bankB".toList }
      "idaa".toList "bankB".toList "20170102".toList =
      ({ records := Records.clobbered, requests := [], caller := "bankB".toList },
        some "invalid character") :=
  ⟨(addRequest_lookup_fails jsonText demoWorld0 "C9bankAbankA".toList "bankB".toList
      "20170102".toList).1 rfl,
    (addRequest_lookup_fails jsonText
      { records := Records.clobbered, requests := [], caller := "bankB".toList }
      "idaa".toList "bankB".toList "20170102".toList).2 "a".toList Record.zero
      "invalid character" rfl rfl⟩

/-! ### Unknown index -/

/-- The function `getRequest` over the recording stub returns what
`getRequest` returns on the ledger of Requests, leaves the ledger as it is and
issues one `GetState`. -/
theorem traced_getRequest (stub : World) (calls : List StubCall) (reqId : Str) :
    Traced.getRequest { ledger := stub.requests, calls := calls } reqId =
      (getRequest stub reqId,
        { ledger := stub.requests, calls := calls ++ [StubCall.GetState reqId] }) := by
  simp only [Traced.getRequest, TracedStub.GetState, getRequest]
  cases GetState reqId stub.requests <;> rfl

/-- The loop of `searchIndex` over the recording stub returns what the loop on
the world returns, leaves the ledger as it is and only adds calls. -/
theorem traced_requestSearchLoop_refines (J : Json) (stub : World) :
    ∀ (es : List (Str × Str)) (calls : List StubCall) (results : RequestList)
      (currReq : Request),
      (Traced.searchLoop J es { ledger := stub.requests, calls := calls } results currReq).1 =
        searchLoop J stub es results currReq ∧
      (Traced.searchLoop J es { ledger := stub.requests, calls := calls } results
        currReq).2.ledger = stub.requests ∧
      ∃ more,
        (Traced.searchLoop J es { ledger := stub.requests, calls := calls } results
          currReq).2.calls = calls ++ more
  | [], calls, results, currReq => ⟨rfl, rfl, [], (List.append_nil _).symm⟩
  | (k, reqId) :: rest, calls, results, currReq => by
    cases hg : getRequest stub reqId with
    | error err =>
      simp only [Traced.searchLoop, searchLoop, traced_getRequest, hg]
      exact ⟨trivial, trivial, _, rfl⟩
    | ok reqBytes =>
      cases hU : J.unmarshalRequest reqBytes currReq with
      | mk req err =>
        cases err with
        | some e =>
          simp only [Traced.searchLoop, searchLoop, traced_getRequest, hg, hU]
          exact ⟨trivial, trivial, _, rfl⟩
        | none =>
          simp only [Traced.searchLoop, searchLoop, traced_getRequest, hg, hU]
          obtain ⟨h1, h2, more, h3⟩ := traced_requestSearchLoop_refines J stub rest
            (calls ++ [StubCall.GetState reqId])
            { requests := results.requests ++ [req], numEntries := results.numEntries + 1 } req
          refine ⟨h1, h2, StubCall.GetState reqId :: more, ?_⟩
          rw [h3, List.append_assoc]
          rfl

/-- The function `searchIndex` over the recording stub returns what
`searchIndex` on the world returns and leaves the ledger as it is. -/
theorem traced_requestSearchIndex_refines (J : Json) (stub : World) (calls : List StubCall)
    (input field : Str) :
    (Traced.searchIndex J { ledger := stub.requests, calls := calls } input field).1 =
      searchIndex J stub input field ∧
    (Traced.searchIndex J { ledger := stub.requests, calls := calls } input field).2.ledger =
      stub.requests := by
  simp only [Traced.searchIndex, searchIndex]
  cases indexToSearch field with
  | none => exact ⟨rfl, rfl⟩
  | some tag =>
    simp only [TracedStub.RangeQueryState]
    obtain ⟨h1, h2, _⟩ := traced_requestSearchLoop_refines J stub
      (RangeQueryState (tag ++ input) (tag ++ input ++ "ZZZZZZZZZZZZZZZZZZZZZZ".toList)
        stub.requests)
      (calls ++ [StubCall.RangeQueryState (tag ++ input)
          (tag ++ input ++ "ZZZZZZZZZZZZZZZZZZZZZZ".toList)])
      RequestList.zero Request.zero
    rw [← h1]
    cases hL : Traced.searchLoop J
      (RangeQueryState (tag ++ input) (tag ++ input ++ "ZZZZZZZZZZZZZZZZZZZZZZ".toList)
        stub.requests)
      { ledger := stub.requests,
        calls := calls ++ [StubCall.RangeQueryState (tag ++ input)
          (tag ++ input ++ "ZZZZZZZZZZZZZZZZZZZZZZ".toList)] }
      RequestList.zero Request.zero with
    | mk res stub2 =>
      rw [hL] at h2
      cases res with
      | error err => exact ⟨rfl, h2⟩
      | ok results => exact ⟨rfl, h2⟩

/-- For a field that names an index, the first call of `searchIndex` is the
range query over the keys that start with the tag and the input. -/
theorem traced_requestSearchIndex_scans (J : Json) (stub : World) (calls : List StubCall)
    (input field tag : Str) (h : indexToSearch field = some tag) :
    ∃ more,
      (Traced.searchIndex J { ledger := stub.requests, calls := calls } input field).2.calls =
        calls ++ StubCall.RangeQueryState (tag ++ input)
          (tag ++ input ++ "ZZZZZZZZZZZZZZZZZZZZZZ".toList) :: more := by
  simp only [Traced.searchIndex, h, TracedStub.RangeQueryState]
  obtain ⟨_, _, more, h3⟩ := traced_requestSearchLoop_refines J stub
    (RangeQueryState (tag ++ input) (tag ++ input ++ "ZZZZZZZZZZZZZZZZZZZZZZ".toList)
      stub.requests)
    (calls ++ [StubCall.RangeQueryState (tag ++ input)
        (tag ++ input ++ "ZZZZZZZZZZZZZZZZZZZZZZ".toList)])
    RequestList.zero Request.zero
  refine ⟨more, ?_⟩
  cases hL : Traced.searchLoop J
    (RangeQueryState (tag ++ input) (tag ++ input ++ "ZZZZZZZZZZZZZZZZZZZZZZ".toList)
      stub.requests)
    { ledger := stub.requests,
      calls := calls ++ [StubCall.RangeQueryState (tag ++ input)
        (tag ++ input ++ "ZZZZZZZZZZZZZZZZZZZZZZ".toList)] }
    RequestList.zero Request.zero with
  | mk res stub2 =>
    rw [hL] at h3
    simp only at h3
    cases res with
    | error err => simp only [h3, List.append_assoc, List.singleton_append]
    | ok results => simp only [h3, List.append_assoc, List.singleton_append]

/-- C14 (unknown index rejection). For a `field` other than `id`, `name`,
`date`, `searchIndex` of the records chaincode returns
`No such index to search` and hands back the stub as it was given: the list of
the calls issued on the stub is the one before the call, so that no
`GetState`, `PutState`, `DelState` or `RangeQueryState` was issued, and the
ledger is the same. For a `field` other than `by`, `for`, `date` the same
holds of `searchIndex` of the requests chaincode, on the stub of that
chaincode. In both chaincodes the function over the ledger alone returns the
same error, on every store and every world. -/
theorem searchIndex_unknown_field (J : Json) (input field : Str) :
    (field ≠ "id".toList → field ≠ "name".toList → field ≠ "date".toList →
      ∀ stub : TracedStub,
        Records.Traced.searchIndex J stub input field =
          (.error "No such index to search", stub) ∧
        (Records.Traced.searchIndex J stub input field).2.calls = stub.calls ∧
        (Records.Traced.searchIndex J stub input field).2.ledger = stub.ledger ∧
        Records.searchIndex J stub.ledger input field = .error "No such index to search") ∧
    (field ≠ "by".toList → field ≠ "for".toList → field ≠ "date".toList →
      (∀ stub : TracedStub,
        Traced.searchIndex J stub input field = (.error "No such index to search", stub) ∧
        (Traced.searchIndex J stub input field).2.calls = stub.calls ∧
        (Traced.searchIndex J stub input field).2.ledger = stub.ledger) ∧
      ∀ stub : World, searchIndex J stub input field = .error "No such index to search") := by
  constructor
  · intro h1 h2 h3 stub
    have hT : Records.Traced.searchIndex J stub input field =
        (.error "No such index to search", stub) := by
      simp only [Records.Traced.searchIndex, Records.indexToSearch, h1, h2, h3, if_false]
    refine ⟨hT, by rw [hT], by rw [hT], ?_⟩
    simp only [Records.searchIndex, Records.indexToSearch, h1, h2, h3, if_false]
  · intro h1 h2 h3
    constructor
    · intro stub
      have hT : Traced.searchIndex J stub input field =
          (.error "No such index to search", stub) := by
        simp only [Traced.searchIndex, indexToSearch, h1, h2, h3, if_false]
      exact ⟨hT, by rw [hT], by rw [hT]⟩
    · intro stub
      simp only [searchIndex, indexToSearch, h1, h2, h3, if_false]

/-- Witness of C14: the field `bogus`, on stubs with no earlier call; the list
of calls stays empty, where the field `date` starts with a range query. -/
theorem searchIndex_unknown_field_witness :
    (Records.Traced.searchIndex jsonText { ledger := Records.demoStore, calls := [] }
      "x".toList "bogus".toList =
      (.error "No such index to search", { ledger := Records.demoStore, calls := [] }) ∧
    (Records.Traced.searchIndex jsonText { ledger := Records.demoStore, calls := [] }
      "x".toList "date".toList).2.calls =
      [StubCall.RangeQueryState "datex".toList "datexZZZZZZZZZZZZZZZZZZZZZZ".toList]) ∧
    (Traced.searchIndex jsonText { ledger := demoWorld.requests, calls := [] }
      "x".toList "bogus".toList =
      (.error "No such index to search", { ledger := demoWorld.requests, calls := [] }) ∧
    (Traced.searchIndex jsonText { ledger := demoWorld.requests, calls := [] }
      "x".toList "date".toList).2.calls =
      [StubCall.RangeQueryState "datex".toList "datexZZZZZZZZZZZZZZZZZZZZZZ".toList]) :=
  ⟨⟨((searchIndex_unknown_field jsonText "x".toList "bogus".toList).1
      (by decide) (by decide) (by decide)
      { ledger := Records.demoStore, calls := [] }).1, rfl⟩,
    ⟨(((searchIndex_unknown_field jsonText "x".toList "bogus".toList).2
      (by decide) (by decide) (by decide)).1
      { ledger := demoWorld.requests, calls := [] }).1, rfl⟩⟩

end Requests

end KycChain
